import Mathlib

/-! Merlin network components: the reorder link controller, the single-router topology,
the legacy dragonfly topology, the HyperX routing event and the fat-tree addresses of the
traffic generator.

A shallow embedding of `reorderLinkControl.{h,cc}`, `topology/singlerouter.{h,cc}`,
`topology/dragonfly_legacy.{h,cc}`, the defaults `reroute` and `computeNumVCs` of
`router.h`, `getUnalignedDimensions` of `topology/hyperx.h` and the address conversions of
`trafficgen/trafficgen.cc`, followed by the properties proved about them.

Modelling conventions.
* `int` and 64-bit `nid_t` values are `Int`, `uint32_t` values are `Nat`.  An `nid_t` that is
  read through an accessor returning `int` (`getDest`) or passed for an `int` parameter (the
  `id` of `idToLocation`) keeps its low 32 bits, read as a signed number (`nid_to_int`).  The sequence counters of the reorder
  link controller wrap modulo `2^32`, exactly as `uint32_t` does.  Port, router, group and
  endpoint numbers of the topologies are computed in `Nat` (they stay far below `2^32`, and
  `a >= 1` in every constructed dragonfly, whose constructor divides by `a`, so that
  `p + a - 1` is an ordinary difference); the conversion `static_cast<uint32_t>(int)` is
  `u32`.
* Arrays and maps indexed by a number are functions of the index; an index is not checked
  against the allocated size, as it is not in the C++.
* Heap objects reached through pointers are values; an in-place update through a pointer
  is a write-back into the owning map or queue.
* Calls into code outside these files (the wrapped link controller, the receive handler)
  are recorded in the state, their results are supplied by the state.
* A read of `top()` on an empty priority queue and a call of `output.fatal` have no result:
  the functions that can reach them return `Option`.
* The union of four bytes and an `int32_t` in the traffic generator is laid out with
  `x[0]` as the low byte.
-/

namespace Merlin

/-! ## Requests -/

/-- The conversion `static_cast<uint32_t>(x)` of an `int`. -/
def u32 (x : Int) : Nat := (x % 4294967296).toNat

/-- The constant `INIT_BROADCAST_ADDR` of `router.h`. -/
def INIT_BROADCAST_ADDR : Int := -1

/-- The conversion of a 64-bit `nid_t` to `int`: the low 32 bits, read as a signed number. -/
def nid_to_int (x : Int) : Int := (x + 2147483648) % 4294967296 - 2147483648

/-- A `SimpleNetwork::Request`: the endpoint-visible unit of traffic.  The payload is an
opaque event, named by a number when present. -/
structure Request where
  dest : Int
  src : Int
  vn : Int
  size_in_bits : Nat
  head : Bool
  tail : Bool
  payload : Option Nat
  trace : Nat
  traceID : Int
deriving DecidableEq, Repr

/-- A `ReorderRequest`: a request that also carries a 32-bit sequence number. -/
structure ReorderRequest where
  dest : Int
  src : Int
  vn : Int
  size_in_bits : Nat
  head : Bool
  tail : Bool
  payload : Option Nat
  trace : Nat
  traceID : Int
  seq : Nat
deriving DecidableEq, Repr

/-- The default constructor `ReorderRequest()`: every field zero, no payload. -/
def ReorderRequest.default : ReorderRequest :=
  { dest := 0, src := 0, vn := 0, size_in_bits := 0, head := false, tail := false,
    payload := none, trace := 0, traceID := 0, seq := 0 }

/-- The constructor `ReorderRequest(req, seq)`: it passes `dest`, `src`, `size_in_bits`,
`head` and `tail` to the `Request` constructor, takes over the payload and copies the
trace type and trace id.  The virtual network is not an argument of the `Request`
constructor and keeps its initial value. -/
def ReorderRequest.ofRequest (req : Request) (seq : Nat) : ReorderRequest :=
  { dest := req.dest, src := req.src, vn := ReorderRequest.default.vn,
    size_in_bits := req.size_in_bits, head := req.head, tail := req.tail,
    payload := req.payload, trace := req.trace, traceID := req.traceID, seq := seq }

/-! ## The priority queue of a peer -/

/-- The `push` of `ReorderRequest::PriorityQueue`.  The queue is kept as a list in
ascending order of `seq`, so that `top()` is the head and `pop()` drops the head; the
comparator `Priority` orders by `seq` alone. -/
def pq_push (r : ReorderRequest) : List ReorderRequest → List ReorderRequest
  | [] => [r]
  | x :: xs => if r.seq < x.seq then r :: x :: xs else x :: pq_push r xs

/-- The dummy entry that `ReorderInfo()` puts into the queue: `seq = 0xffffffff`. -/
def sentinel : ReorderRequest := { ReorderRequest.default with seq := 4294967295 }

/-- The `ReorderInfo` of a peer: next sequence number to send to it, next sequence number
expected from it, and the requests that arrived from it ahead of their turn. -/
structure ReorderInfo where
  send : Nat
  recv : Nat
  queue : List ReorderRequest
deriving DecidableEq, Repr

/-- The constructor `ReorderInfo()`: both counters zero, the queue holds the dummy entry. -/
def ReorderInfo.fresh : ReorderInfo := { send := 0, recv := 0, queue := [sentinel] }

/-! ## The wrapped link controller and the receive handler -/

/-- The wrapped `link_control`, an arbitrary `SimpleNetwork` loaded by name.  Of its state
the model keeps what `ReorderLinkControl` can observe: the answer `spaceToSend` gives, the
value `send` returns, and the list of the calls of `send` made so far (oldest first). -/
structure SimpleNetwork where
  spaceToSend : Int → Int → Bool
  sendReturns : ReorderRequest → Int → Bool
  sent : List (ReorderRequest × Int)

/-- A call `link_control->send(req, vn)`: the call is recorded, its result returned. -/
def SimpleNetwork.send (lc : SimpleNetwork) (req : ReorderRequest) (vn : Int) :
    Bool × SimpleNetwork :=
  (lc.sendReturns req vn, { lc with sent := lc.sent ++ [(req, vn)] })

/-- A receive handler (`HandlerBase`): called with a virtual network, it answers whether it
stays registered.  The answer may depend on the calls made before (first argument).  What
a handler does to the controller while it runs (calls of `recv`, as a rule) counts as
calls of their own that follow the call of `handle_event`. -/
abbrev Handler := List Int → Int → Bool

/-- The conversion of `req->size_in_bits` (a `size_t`) to the `int` parameter of
`spaceToSend`. -/
def size_t_to_int (n : Nat) : Int := ((n + 2147483648) % 4294967296 : Nat) - 2147483648

/-! ## The reorder link controller -/

/-- The state of a `ReorderLinkControl`.  `reorder_info` is the `unordered_map` from peer
id to `ReorderInfo`; `input_buf` is the array of input queues, indexed by virtual network
(front of a queue is the head of the list); `notified` lists the arguments of the calls of
the receive handler made so far (oldest first). -/
structure ReorderLinkControl where
  vns : Int
  link_control : SimpleNetwork
  reorder_info : Int → Option ReorderInfo
  input_buf : Int → List ReorderRequest
  receiveFunctor : Option Handler
  notified : List Int

/-- A controller after construction and `initialize(.., vns, ..)`: no peer is known, the
input queues are empty, no handler is registered. -/
def ReorderLinkControl.fresh (vns : Int) (lc : SimpleNetwork) : ReorderLinkControl :=
  { vns := vns, link_control := lc, reorder_info := fun _ => none,
    input_buf := fun _ => [], receiveFunctor := none, notified := [] }

/-- The lookup `reorder_info[id]` after the find-or-insert that precedes it in `send` and
in `handle_event`: the entry of `id`, a newly constructed one when there is none. -/
def ReorderLinkControl.info (s : ReorderLinkControl) (id : Int) : ReorderInfo :=
  match s.reorder_info id with
  | some i => i
  | none => ReorderInfo.fresh

/-- The function `ReorderLinkControl::send`. -/
def ReorderLinkControl.send (s : ReorderLinkControl) (req : Request) (vn : Int) :
    Bool × ReorderLinkControl :=
  if vn ≥ s.vns then (false, s)
  else if !(s.link_control.spaceToSend vn (size_t_to_int req.size_in_bits)) then (false, s)
  else
    let my_req := ReorderRequest.ofRequest req 0
    let info := s.info my_req.dest
    let my_req := { my_req with seq := info.send }
    let info := { info with send := (info.send + 1) % 4294967296 }
    let r := s.link_control.send my_req vn
    (r.1, { s with reorder_info := Function.update s.reorder_info my_req.dest (some info),
                   link_control := r.2 })

/-- The function `ReorderLinkControl::spaceToSend`. -/
def ReorderLinkControl.spaceToSend (s : ReorderLinkControl) (vn : Int) (bits : Int) : Bool :=
  s.link_control.spaceToSend vn bits

/-- The function `ReorderLinkControl::recv`: the front of `input_buf[vn]`, if any, is
removed and returned. -/
def ReorderLinkControl.recv (s : ReorderLinkControl) (vn : Int) :
    Option ReorderRequest × ReorderLinkControl :=
  match s.input_buf vn with
  | [] => (none, s)
  | req :: rest => (some req, { s with input_buf := Function.update s.input_buf vn rest })

/-- The function `ReorderLinkControl::requestToReceive`. -/
def ReorderLinkControl.requestToReceive (s : ReorderLinkControl) (vn : Int) : Bool :=
  !(s.input_buf vn).isEmpty

/-- The function `ReorderLinkControl::setNotifyOnReceive`; `none` is a null functor. -/
def ReorderLinkControl.setNotifyOnReceive (s : ReorderLinkControl) (functor : Option Handler) :
    ReorderLinkControl :=
  { s with receiveFunctor := functor }

/-- One `input_buf[req.vn].push(req)`. -/
def push_input (buf : Int → List ReorderRequest) (req : ReorderRequest) :
    Int → List ReorderRequest :=
  Function.update buf req.vn (buf req.vn ++ [req])

/-- The delivery loop of `handle_event`, entered after `info->recv++`:
`my_req = queue.top(); while (my_req->seq == recv) { push; pop; my_req = top(); recv++ }`.
Arguments: the queue, `info->recv`, the input queues.  The result is `none` when `top()`
is read on an empty queue. -/
def drain : List ReorderRequest → Nat → (Int → List ReorderRequest) →
    Option (List ReorderRequest × Nat × (Int → List ReorderRequest))
  | [], _, _ => none
  | top :: rest, recv, buf =>
    if top.seq = recv then drain rest ((recv + 1) % 4294967296) (push_input buf top)
    else some (top :: rest, recv, buf)

/-- The notification at the end of the in-sequence branch of `handle_event`: a registered
handler is called with `vn` and unregistered when it answers `false`. -/
def notify (s : ReorderLinkControl) (vn : Int) : ReorderLinkControl :=
  match s.receiveFunctor with
  | none => s
  | some f =>
    let keep := f s.notified vn
    { s with notified := s.notified ++ [vn],
             receiveFunctor := if keep then some f else none }

/-- The function `ReorderLinkControl::handle_event`; `my_req` is the request that
`link_control->recv(vn)` hands over.  The C++ function always returns `true`; the model
returns the new state, or `none` when the delivery loop reads an empty queue. -/
def ReorderLinkControl.handle_event (s : ReorderLinkControl) (vn : Int)
    (my_req : ReorderRequest) : Option ReorderLinkControl :=
  let info := s.info my_req.src
  if my_req.seq = info.recv then
    match drain info.queue ((info.recv + 1) % 4294967296) (push_input s.input_buf my_req) with
    | none => none
    | some (queue, recv, buf) =>
      some (notify { s with reorder_info := Function.update s.reorder_info my_req.src
                              (some { info with recv := recv, queue := queue }),
                            input_buf := buf } vn)
  else
    some { s with reorder_info := Function.update s.reorder_info my_req.src
                    (some { info with queue := pq_push my_req info.queue }) }

/-- A call made on the controller, or a change of the wrapped link controller that the
controller does not cause (credits arriving, buffers filling). -/
inductive Op where
  | send (req : Request) (vn : Int)
  | handle_event (vn : Int) (my_req : ReorderRequest)
  | recv (vn : Int)
  | setNotifyOnReceive (functor : Option Handler)
  | network (spaceToSend : Int → Int → Bool) (sendReturns : ReorderRequest → Int → Bool)

/-- One call: the new state and, for `recv`, the virtual network asked and what was
returned. -/
def step (s : ReorderLinkControl) : Op → Option (ReorderLinkControl × List (Int × ReorderRequest))
  | Op.send req vn => some ((s.send req vn).2, [])
  | Op.handle_event vn my_req => (s.handle_event vn my_req).map (fun s1 => (s1, []))
  | Op.recv vn =>
    match (s.recv vn).1 with
    | none => some ((s.recv vn).2, [])
    | some req => some ((s.recv vn).2, [(vn, req)])
  | Op.setNotifyOnReceive functor => some (s.setNotifyOnReceive functor, [])
  | Op.network sp sr =>
    some ({ s with link_control := { s.link_control with spaceToSend := sp, sendReturns := sr } }, [])

/-- A sequence of calls, oldest first: the final state and the requests handed out by
`recv` (with the virtual network asked), in the order of the calls. -/
def run (s : ReorderLinkControl) : List Op → Option (ReorderLinkControl × List (Int × ReorderRequest))
  | [] => some (s, [])
  | op :: ops =>
    match step s op with
    | none => none
    | some (s1, out1) =>
      match run s1 ops with
      | none => none
      | some (s2, out2) => some (s2, out1 ++ out2)

/-! ## Router events -/

/-- The part of an `RtrEvent` the topologies read: the request it carries. -/
structure RtrEvent where
  request : Request
  injectionTime : Nat
  size_in_flits : Int
deriving DecidableEq, Repr

/-- An `internal_router_event`: the topology-side envelope of an `RtrEvent`. -/
structure internal_router_event where
  next_port : Int
  next_vc : Int
  vc : Int
  credit_return_vc : Int
  encap_ev : RtrEvent
deriving DecidableEq, Repr

/-- The constructor `internal_router_event(ev)`: the integer members are zero. -/
def internal_router_event.ofRtrEvent (ev : RtrEvent) : internal_router_event :=
  { next_port := 0, next_vc := 0, vc := 0, credit_return_vc := 0, encap_ev := ev }

/-- The accessor `getDest`: it returns `int`, the member `request->dest` is a 64-bit
`nid_t`, so the value is narrowed. -/
def internal_router_event.getDest (ev : internal_router_event) : Int :=
  nid_to_int ev.encap_ev.request.dest

/-- The accessor `getNextPort`. -/
def internal_router_event.getNextPort (ev : internal_router_event) : Int := ev.next_port

/-- The accessor `getVC`. -/
def internal_router_event.getVC (ev : internal_router_event) : Int := ev.vc

/-- The mutator `setNextPort`. -/
def internal_router_event.setNextPort (ev : internal_router_event) (np : Int) :
    internal_router_event :=
  { ev with next_port := np }

/-- The mutator `setVC`. -/
def internal_router_event.setVC (ev : internal_router_event) (vc_in : Int) :
    internal_router_event :=
  { ev with vc := vc_in }

/-! ## The single-router topology -/

/-- The class `topo_singlerouter`. -/
structure topo_singlerouter where
  num_ports : Int
deriving DecidableEq, Repr

namespace topo_singlerouter

/-- The function `topo_singlerouter::route`; the arrival port and VC are not used. -/
def route (_t : topo_singlerouter) (_port _vc : Int) (ev : internal_router_event) :
    internal_router_event :=
  ev.setNextPort ev.getDest

/-- The function `topo_singlerouter::process_input`. -/
def process_input (_t : topo_singlerouter) (ev : RtrEvent) : internal_router_event :=
  (internal_router_event.ofRtrEvent ev).setVC ev.request.vn

/-- The function `topo_singlerouter::process_InitData_input`. -/
def process_InitData_input (_t : topo_singlerouter) (ev : RtrEvent) : internal_router_event :=
  internal_router_event.ofRtrEvent ev

/-- The function `topo_singlerouter::getEndpointID`: the port itself. -/
def getEndpointID (_t : topo_singlerouter) (port : Int) : Int := port

/-- The function `topo_singlerouter::routeInitData`: the event after the call and the
vector `outPorts` after the call.  The `for` loop runs `i` over `0, .., num_ports - 1`. -/
def routeInitData (t : topo_singlerouter) (port : Int) (ev : internal_router_event)
    (outPorts : List Int) : internal_router_event × List Int :=
  if ev.getDest = INIT_BROADCAST_ADDR then
    (ev, (List.range t.num_ports.toNat).foldl
      (fun (out : List Int) (i : Nat) => if (i : Int) ≠ port then out ++ [(i : Int)] else out)
      outPorts)
  else
    let ev1 := t.route port 0 ev
    (ev1, outPorts ++ [ev1.getNextPort])

end topo_singlerouter

/-! ## The legacy dragonfly topology -/

/-- The struct `dgnflyParams`. -/
structure dgnflyParams where
  p : Nat
  a : Nat
  k : Nat
  h : Nat
  g : Nat
deriving DecidableEq, Repr

/-- The enum `RouteAlgo`. -/
inductive RouteAlgo where
  | MINIMAL
  | VALIANT
deriving DecidableEq, Repr

/-- The struct `dgnflyAddr`. -/
structure dgnflyAddr where
  group : Nat
  mid_group : Nat
  router : Nat
  host : Nat
deriving DecidableEq, Repr

/-- The class `topo_dragonfly_legacy`. -/
structure topo_dragonfly_legacy where
  params : dgnflyParams
  algorithm : RouteAlgo
  group_id : Nat
  router_id : Nat
deriving DecidableEq, Repr

/-- The class `topo_dragonfly_legacy_event`. -/
structure topo_dragonfly_legacy_event extends internal_router_event where
  src_group : Nat
  dest : dgnflyAddr
deriving DecidableEq, Repr

namespace topo_dragonfly_legacy

/-- The function `router_to_group`: the router of this group that owns the link to
`group`.  For the own group the C++ calls `output.fatal`: no result. -/
def router_to_group (t : topo_dragonfly_legacy) (group : Nat) : Option Nat :=
  if group < t.group_id then some (group / t.params.h)
  else if group > t.group_id then some ((group - 1) / t.params.h)
  else none

/-- The function `port_for_router`. -/
def port_for_router (t : topo_dragonfly_legacy) (router : Nat) : Nat :=
  let tgt := t.params.p + router
  if router > t.router_id then tgt - 1 else tgt

/-- The function `port_for_group`. -/
def port_for_group (t : topo_dragonfly_legacy) (group : Nat) : Option Nat :=
  match t.router_to_group group with
  | none => none
  | some tgt_rtr =>
    if tgt_rtr = t.router_id then
      let port := t.params.p + t.params.a - 1
      if group < t.group_id then some (port + group % t.params.h)
      else some (port + (group - 1) % t.params.h)
    else some (t.port_for_router tgt_rtr)

/-- The function `route`: the event after the call, no result when `output.fatal` is
reached. -/
def route (t : topo_dragonfly_legacy) (port vc : Int) (ev : topo_dragonfly_legacy_event) :
    Option topo_dragonfly_legacy_event :=
  let td_ev : topo_dragonfly_legacy_event :=
    if u32 port ≥ t.params.p + t.params.a - 1 then { ev with vc := vc + 1 } else ev
  let next_port : Option Nat :=
    if td_ev.dest.group ≠ t.group_id then
      if td_ev.dest.mid_group ≠ t.group_id then t.port_for_group td_ev.dest.mid_group
      else t.port_for_group td_ev.dest.group
    else if td_ev.dest.router ≠ t.router_id then some (t.port_for_router td_ev.dest.router)
    else some td_ev.dest.host
  match next_port with
  | none => none
  | some np => some { td_ev with next_port := (np : Int) }

/-- The function `getEndpointID`. -/
def getEndpointID (t : topo_dragonfly_legacy) (port : Int) : Int :=
  ((t.group_id * (t.params.a * t.params.p) + t.router_id * t.params.p : Nat) : Int) + port

/-- The function `idToLocation`; `location` is the struct the caller passes in, the
result is that struct after the call. -/
def idToLocation (t : topo_dragonfly_legacy) (id : Int) (location : dgnflyAddr) : dgnflyAddr :=
  if id = INIT_BROADCAST_ADDR then
    { group := u32 INIT_BROADCAST_ADDR, mid_group := u32 INIT_BROADCAST_ADDR,
      router := u32 INIT_BROADCAST_ADDR, host := u32 INIT_BROADCAST_ADDR }
  else
    let hosts_per_group := t.params.p * t.params.a
    { location with group := u32 id / hosts_per_group,
                    router := (u32 id % hosts_per_group) / t.params.p,
                    host := u32 id % t.params.p }

/-- The function `computeNumVCs`. -/
def computeNumVCs (_t : topo_dragonfly_legacy) (vns : Int) : Int := vns * 3

/-- The Valiant sampling loop of `process_input`:
`do { mid_group = rand() % g; } while (mid_group == group_id || mid_group == dest.group)`,
run on the values that successive calls of `rand()` return.  No result when the loop has
not ended on the values given. -/
def sample_mid_group (t : topo_dragonfly_legacy) (dest_group : Nat) : List Nat → Option Nat
  | [] => none
  | r :: rest =>
    if r % t.params.g = t.group_id ∨ r % t.params.g = dest_group then
      t.sample_mid_group dest_group rest
    else some (r % t.params.g)

/-- The function `process_input`; `rands` are the values that `rand()` returns.  The
parameter `id` of `idToLocation` is an `int`: the 64-bit `request->dest` is narrowed. -/
def process_input (t : topo_dragonfly_legacy) (ev : RtrEvent) (rands : List Nat) :
    Option topo_dragonfly_legacy_event :=
  let dstAddr := t.idToLocation (nid_to_int ev.request.dest)
    { group := 0, mid_group := 0, router := 0, host := 0 }
  let mid : Option Nat :=
    match t.algorithm with
    | RouteAlgo.MINIMAL => some dstAddr.group
    | RouteAlgo.VALIANT =>
      if dstAddr.group = t.group_id then some dstAddr.group
      else t.sample_mid_group dstAddr.group rands
  match mid with
  | none => none
  | some m =>
    some { (internal_router_event.ofRtrEvent ev).setVC (ev.request.vn * 3) with
           src_group := t.group_id,
           dest := { dstAddr with mid_group := m } }

end topo_dragonfly_legacy

/-! ## Observations on a sequence of calls -/

/-- The requests of source `src` that a sequence of calls feeds to `handle_event`, in the
order of arrival. -/
def arrivals (src : Int) : List Op → List ReorderRequest
  | [] => []
  | Op.handle_event _ my_req :: ops =>
    if my_req.src = src then my_req :: arrivals src ops else arrivals src ops
  | _ :: ops => arrivals src ops

/-- The requests that the calls of `recv(vn)` handed out, in the order of the calls. -/
def handed_out (vn : Int) (out : List (Int × ReorderRequest)) : List ReorderRequest :=
  (out.filter (fun x => decide (x.1 = vn))).map (fun x => x.2)

/-- Everything that was appended to `input_buf[vn]` so far, in the order of the appends:
what `recv(vn)` has handed out already, followed by what is still queued. -/
def history (s : ReorderLinkControl) (out : List (Int × ReorderRequest)) (vn : Int) :
    List ReorderRequest :=
  handed_out vn out ++ s.input_buf vn

/-- The requests forwarded to the wrapped link controller for destination `dest`, in the
order of the calls of its `send`. -/
def forwarded (s : ReorderLinkControl) (dest : Int) : List ReorderRequest :=
  (s.link_control.sent.map (fun x => x.1)).filter (fun r => decide (r.dest = dest))

/-- Scenario S5: a request of source `src` with sequence number `seq` for virtual network
`vn`. -/
def S5_request (src vn : Int) (seq : Nat) : ReorderRequest :=
  { ReorderRequest.default with dest := 1, src := src, vn := vn, size_in_bits := 64, seq := seq }

/-- Scenario S5: a wrapped link controller that has room for 64 bits at most. -/
def S5_link : SimpleNetwork :=
  { spaceToSend := fun _ bits => decide (bits ≤ 64), sendReturns := fun _ _ => true, sent := [] }

/-- Scenario S5: two senders (endpoints 7 and 9) whose requests arrive out of order and
interleaved, with `recv` calls in between. -/
def S5_calls : List Op :=
  [Op.handle_event 0 (S5_request 7 0 2), Op.handle_event 0 (S5_request 9 0 1),
   Op.handle_event 0 (S5_request 7 0 0), Op.recv 0, Op.handle_event 0 (S5_request 9 0 0),
   Op.handle_event 0 (S5_request 7 0 1), Op.recv 0, Op.recv 0]

/-- Scenario S5: a request of `bits` bits that endpoint 7 submits for endpoint `dest`. -/
def S5_submit (dest : Int) (bits : Nat) : Request :=
  { dest := dest, src := 7, vn := 0, size_in_bits := bits, head := true, tail := true,
    payload := none, trace := 0, traceID := 0 }

/-- Scenario S5, send side: sends to endpoints 1 and 2, interleaved with a send that finds
no space (128 bits), a send on a virtual network that does not exist, and an arrival. -/
def S5_sends : List Op :=
  [Op.send (S5_submit 1 64) 0, Op.send (S5_submit 2 64) 0, Op.send (S5_submit 1 128) 0,
   Op.handle_event 0 (S5_request 9 0 0), Op.send (S5_submit 1 64) 3,
   Op.send (S5_submit 1 64) 0, Op.send (S5_submit 2 64) 0]

/-! ## Invariants of the receive path -/

/-- What holds of the entry of every peer `src` once the requests `A` have arrived from
it: the dummy entry is still queued, every arrival was either delivered (counted by
`recv`) or is queued, and the queue holds requests of that peer only. -/
structure PeerInv (A : List ReorderRequest) (src : Int) (recv : Nat)
    (queue : List ReorderRequest) : Prop where
  sentinel_mem : sentinel ∈ queue
  count : recv + queue.length = A.length + 1
  src_eq : ∀ x ∈ queue, x = sentinel ∨ x.src = src

/-- What holds in addition when no sequence number arrived twice: the queue is in strictly
ascending order and holds exactly the arrivals above `recv`, and every number below `recv`
has arrived. -/
structure OrderInv (A : List ReorderRequest) (recv : Nat) (queue : List ReorderRequest) :
    Prop where
  queue_mem : ∀ x ∈ queue, x = sentinel ∨ (x ∈ A ∧ recv < x.seq)
  arrived : ∀ r ∈ A, r.seq < recv ∨ r ∈ queue
  below : ∀ j, j < recv → j ∈ A.map (fun r => r.seq)
  sorted : queue.Pairwise (fun a b => a.seq < b.seq)

/-- What holds of the requests of one peer appended to the input queues: per virtual
network they are in strictly ascending order of `seq`, and they are exactly the arrivals
below `recv`. -/
structure HistInv (A : List ReorderRequest) (recv : Nat) (h : Int → List ReorderRequest) :
    Prop where
  sorted : ∀ vn, (h vn).Pairwise (fun a b => a.seq < b.seq)
  mem : ∀ vn x, x ∈ h vn ↔ (x ∈ A ∧ x.seq < recv ∧ x.vn = vn)

/-- The invariant of the receive path after the calls `ops` led from a fresh controller to
state `st` with `out` handed out by `recv`: `PeerInv` for every peer, and `OrderInv` and
`HistInv` for every peer none of whose sequence numbers arrived twice. -/
def RunInv (ops : List Op) (st : ReorderLinkControl) (out : List (Int × ReorderRequest)) :
    Prop :=
  (∀ src, PeerInv (arrivals src ops) src (st.info src).recv (st.info src).queue) ∧
  (∀ src, ((arrivals src ops).map (fun r => r.seq)).Nodup →
    (∀ r ∈ arrivals src ops, r.seq < 4294967295) →
    OrderInv (arrivals src ops) (st.info src).recv (st.info src).queue ∧
    HistInv (arrivals src ops) (st.info src).recv
      (fun vn => (history st out vn).filter (fun x => decide (x.src = src))))

/-- The invariant of the send path: the requests forwarded for destination `dest` carry
the numbers `0, 1, 2, ..` modulo `2^32` in the order of forwarding, and the send counter
of `dest` is the number of requests forwarded for it, modulo `2^32`. -/
def SendInv (s : ReorderLinkControl) : Prop :=
  ∀ dest : Int,
    (forwarded s dest).map (fun r => r.seq) =
      (List.range (forwarded s dest).length).map (fun k => k % 4294967296) ∧
    (s.info dest).send = (forwarded s dest).length % 4294967296

/-! ## The documented routing decision of the legacy dragonfly

Written from the documentation (port layout comment of `dragonfly_legacy.cc`, "Minimal"
and "Valiant" of the specification), to be compared with `route`. -/

namespace topo_dragonfly_legacy

/-- The documented numbering of the other groups: ascending, the own group left out. -/
def link_index (t : topo_dragonfly_legacy) (group : Nat) : Nat :=
  if group < t.group_id then group else group - 1

/-- The documented port toward another group: the links to the other groups are dealt to
the routers of the group `h` at a time; the port is a global port when this router owns
the link, otherwise the intra-group port of the router that owns it. -/
def documented_port_toward_group (t : topo_dragonfly_legacy) (group : Nat) : Nat :=
  let owner := t.link_index group / t.params.h
  if owner = t.router_id then t.params.p + t.params.a - 1 + t.link_index group % t.params.h
  else if owner < t.router_id then t.params.p + owner
  else t.params.p + owner - 1

/-- The documented routing decision: toward `mid_group` until the packet is there, then
toward the destination group, then to the destination router, then to the host port. -/
def documented_next_port (t : topo_dragonfly_legacy) (dest : dgnflyAddr) : Nat :=
  if dest.group ≠ t.group_id then
    if t.group_id = dest.mid_group then t.documented_port_toward_group dest.group
    else t.documented_port_toward_group dest.mid_group
  else if dest.router ≠ t.router_id then
    (if dest.router < t.router_id then t.params.p + dest.router else t.params.p + dest.router - 1)
  else dest.host

/-- Scenario S3: the router `router` of group `group` in a dragonfly with `p = 4`, `a = 4`,
`h = 2`, `g = 5` (so `k = 9`), minimal routing. -/
def S3 (group router : Nat) : topo_dragonfly_legacy :=
  { params := { p := 4, a := 4, k := 9, h := 2, g := 5 }, algorithm := RouteAlgo.MINIMAL,
    group_id := group, router_id := router }

/-- Scenario S3: a one-flit packet for endpoint `dest`. -/
def S3_packet (dest : Int) : RtrEvent :=
  { request := { dest := dest, src := 0, vn := 0, size_in_bits := 64, head := true,
                 tail := true, payload := none, trace := 0, traceID := 0 },
    injectionTime := 0, size_in_flits := 1 }

/-- Scenario S3: the routing event of the packet for endpoint 79 (group 4, router 3,
host 3), as `process_input` builds it under minimal routing. -/
def S3_event : topo_dragonfly_legacy_event :=
  { next_port := 0, next_vc := 0, vc := 0, credit_return_vc := 0, encap_ev := S3_packet 79,
    src_group := 0, dest := { group := 4, mid_group := 4, router := 3, host := 3 } }

end topo_dragonfly_legacy

/-! ## Further members of the topologies -/

namespace topo_singlerouter

/-- The function `computeNumVCs`, inherited from `Topology` (`router.h`): `return vns`. -/
def computeNumVCs (_t : topo_singlerouter) (vns : Int) : Int := vns

/-- The function `reroute`, inherited from `Topology` (`router.h`): `route(port, vc, ev)`. -/
def reroute (t : topo_singlerouter) (port vc : Int) (ev : internal_router_event) :
    internal_router_event :=
  t.route port vc ev

end topo_singlerouter

namespace topo_dragonfly_legacy

/-- The function `reroute`, inherited from `Topology` (`router.h`): `route(port, vc, ev)`. -/
def reroute (t : topo_dragonfly_legacy) (port vc : Int) (ev : topo_dragonfly_legacy_event) :
    Option topo_dragonfly_legacy_event :=
  t.route port vc ev

/-- The constructor `topo_dragonfly_legacy(comp, p)`.  The arguments are the values that
`p.find` returns for `dragonfly:hosts_per_router`, `dragonfly:routers_per_group`,
`num_ports`, `dragonfly:intergroup_per_router`, `dragonfly:num_groups`,
`dragonfly:algorithm` and `id`. -/
def construct (hosts_per_router routers_per_group num_ports intergroup_per_router
    num_groups : Int) (route_algo : String) (id : Int) : topo_dragonfly_legacy :=
  let params : dgnflyParams :=
    { p := u32 hosts_per_router, a := u32 routers_per_group, k := u32 num_ports,
      h := u32 intergroup_per_router, g := u32 num_groups }
  let algorithm : RouteAlgo :=
    if route_algo = "valiant" then
      (if params.g ≤ 2 then RouteAlgo.MINIMAL else RouteAlgo.VALIANT)
    else RouteAlgo.MINIMAL
  { params := params, algorithm := algorithm, group_id := u32 id / params.a,
    router_id := u32 id % params.a }

/-- A packet on its way: `route` is called at one router after the other, each with its
arrival port there and with the VC the packet has at that moment as `vc`. -/
def route_path : List (topo_dragonfly_legacy × Int) → topo_dragonfly_legacy_event →
    Option topo_dragonfly_legacy_event
  | [], ev => some ev
  | (t, port) :: hops, ev =>
    match t.route port ev.vc ev with
    | none => none
    | some ev1 => route_path hops ev1

/-- The number of hops of a path whose arrival port is a global port of the router
(`port >= p + a - 1`). -/
def global_hops : List (topo_dragonfly_legacy × Int) → Nat
  | [] => 0
  | (t, port) :: hops =>
    if ((t.params.p + t.params.a - 1 : Nat) : Int) ≤ port then global_hops hops + 1
    else global_hops hops

end topo_dragonfly_legacy

/-! ## Traffic generator: fat-tree addresses -/

/-- The conversion of an `int` to `uint8_t`. -/
def u8 (x : Int) : Nat := (x % 256).toNat

/-- The conversion of a 32-bit pattern to `int32_t`. -/
def i32 (n : Nat) : Int :=
  if n % 4294967296 < 2147483648 then ((n % 4294967296 : Nat) : Int)
  else ((n % 4294967296 : Nat) : Int) - 4294967296

/-- The union `Addr` of `fattree_ID_to_IP` and `IP_to_fattree_ID`: four bytes `x[0..3]`
that share their storage with the `int32_t` member `s`. -/
structure Addr where
  x0 : Nat
  x1 : Nat
  x2 : Nat
  x3 : Nat
deriving DecidableEq, Repr

/-- A read of the member `s` after the bytes were written (`x[0]` is the low byte). -/
def Addr.s (addr : Addr) : Int :=
  i32 (addr.x0 + 256 * addr.x1 + 65536 * addr.x2 + 16777216 * addr.x3)

/-- The bytes after `addr.s = ip`. -/
def Addr.ofS (ip : Int) : Addr :=
  { x0 := u32 ip % 256, x1 := u32 ip / 256 % 256, x2 := u32 ip / 65536 % 256,
    x3 := u32 ip / 16777216 % 256 }

/-- The members of `TrafficGen` that the address conversion reads (both are `int`s set from
the parameters). -/
structure TrafficGen where
  ft_loading : Int
  ft_radix : Int
deriving DecidableEq, Repr

namespace TrafficGen

/-- The function `TrafficGen::fattree_ID_to_IP`; `/` and `%` of C truncate toward zero. -/
def fattree_ID_to_IP (t : TrafficGen) (id : Int) : Int :=
  let edge_switch := id.tdiv t.ft_loading
  let pod := edge_switch.tdiv (t.ft_radix.tdiv 2)
  let subnet := edge_switch.tmod (t.ft_radix.tdiv 2)
  let addr : Addr :=
    { x0 := u8 10, x1 := u8 pod, x2 := u8 subnet, x3 := u8 (2 + id.tmod t.ft_loading) }
  addr.s

/-- The function `TrafficGen::IP_to_fattree_ID`. -/
def IP_to_fattree_ID (t : TrafficGen) (ip : Int) : Int :=
  let addr := Addr.ofS ip
  let id : Int := 0
  let id := id + (addr.x1 : Int) * (t.ft_radix.tdiv 2) * t.ft_loading
  let id := id + (addr.x2 : Int) * t.ft_loading
  let id := id + ((addr.x3 : Int) - 2)
  id

end TrafficGen

/-! ## Scenarios for the receive handler -/

/-- A receive handler that always stays registered. -/
def S5_keep : Handler := fun _ _ => true

/-- A receive handler that asks to be unregistered at its first call. -/
def S5_once : Handler := fun _ _ => false

/-- Scenario S5 with a handler: the handler `S5_keep` is registered and request 0 of
endpoint 7 has arrived on virtual network 0 and has not been fetched. -/
def S5_waiting : ReorderLinkControl :=
  match ((ReorderLinkControl.fresh 1 S5_link).setNotifyOnReceive (some S5_keep)).handle_event 0
      (S5_request 7 0 0) with
  | some s => s
  | none => ReorderLinkControl.fresh 1 S5_link

/-- A request that endpoint 7 submits on virtual network 1. -/
def S5_submit_vn1 : Request :=
  { dest := 1, src := 7, vn := 1, size_in_bits := 64, head := true, tail := true,
    payload := none, trace := 0, traceID := 0 }

namespace topo_dragonfly_legacy

/-- Scenario S3 with Valiant routing: router 1 of group 0, built by the constructor. -/
def S3_valiant : topo_dragonfly_legacy := construct 4 4 9 2 5 "valiant" 1

end topo_dragonfly_legacy

/-- Scenario S5 on two virtual networks: with the handler `S5_keep` registered, request 1
of endpoint 7 (virtual network 1) arrives before request 0 (virtual network 0). -/
def S5_two_vns : List Op :=
  [Op.setNotifyOnReceive (some S5_keep), Op.handle_event 1 (S5_request 7 1 1),
   Op.handle_event 0 (S5_request 7 0 0)]

/-- Scenario S5 with the handler `S5_once`: requests 0 and 1 of endpoint 7 arrive in
order. -/
def S5_once_calls : List Op :=
  [Op.setNotifyOnReceive (some S5_once), Op.handle_event 0 (S5_request 7 0 0),
   Op.handle_event 0 (S5_request 7 0 1)]

/-! ## Legacy dragonfly: the init phase -/

namespace topo_dragonfly_legacy

/-- The function `process_InitData_input`: the address struct is value-initialised
(`dgnflyAddr dstAddr{}`), filled by `idToLocation` (whose `int` parameter narrows the
64-bit `request->dest`) and copied into a new event, whose `src_group` is set; the other
members keep their initial value zero. -/
def process_InitData_input (t : topo_dragonfly_legacy) (ev : RtrEvent) :
    topo_dragonfly_legacy_event :=
  let dstAddr := t.idToLocation (nid_to_int ev.request.dest)
    { group := 0, mid_group := 0, router := 0, host := 0 }
  { internal_router_event.ofRtrEvent ev with src_group := t.group_id, dest := dstAddr }

/-- The function `routeInitData`: the event after the call and the vector `outPorts` after
the call; no result when `output.fatal` is reached.  The loops over `uint32_t p` push
`static_cast<int>(p)`; the loop of the last broadcast case runs an `int` up to
`static_cast<int>(params.k)`. -/
def routeInitData (t : topo_dragonfly_legacy) (port : Int) (ev : topo_dragonfly_legacy_event)
    (outPorts : List Int) : Option (topo_dragonfly_legacy_event × List Int) :=
  if ev.dest.host = u32 INIT_BROADCAST_ADDR then
    if u32 port ≥ t.params.p + t.params.a - 1 then
      some (ev, (List.range (t.params.p + t.params.a - 1)).foldl
        (fun (out : List Int) (p : Nat) => out ++ [i32 p]) outPorts)
    else if u32 port ≥ t.params.p then
      let out1 := (List.range t.params.p).foldl
        (fun (out : List Int) (p : Nat) => out ++ [i32 p]) outPorts
      if ev.src_group = t.group_id then
        some (ev, (List.range' (t.params.p + t.params.a - 1)
            (t.params.k - (t.params.p + t.params.a - 1))).foldl
          (fun (out : List Int) (p : Nat) => out ++ [i32 p]) out1)
      else some (ev, out1)
    else
      some (ev, (List.range (i32 t.params.k).toNat).foldl
        (fun (out : List Int) (p : Nat) => if (p : Int) ≠ port then out ++ [(p : Int)] else out)
        outPorts)
  else
    match t.route port 0 ev with
    | none => none
    | some ev1 => some (ev1, outPorts ++ [ev1.next_port])

/-- Scenario S3: the init-phase event of a broadcast, as `process_InitData_input` builds it
at a router of group `src_group`. -/
def S3_broadcast (src_group : Nat) : topo_dragonfly_legacy_event :=
  (S3 src_group 0).process_InitData_input (S3_packet INIT_BROADCAST_ADDR)

end topo_dragonfly_legacy

/-! ## HyperX events -/

/-- The class `topo_hyperx_event` (`hyperx.h`); the arrays `dest_loc` and `val_loc` are
functions of the index, the unique `id` of the event is left out. -/
structure topo_hyperx_event extends internal_router_event where
  dimensions : Int
  last_routing_dim : Int
  dest_loc : Int → Int
  val_route_dest : Bool
  val_loc : Int → Int
  rerouted : Bool

namespace topo_hyperx_event

/-- The function `getUnalignedDimensions`: the vector `dims` after the call.  The loop runs
`i` over `0, .., dimensions - 1`. -/
def getUnalignedDimensions (ev : topo_hyperx_event) (curr_loc : Int → Int) (dims : List Int) :
    List Int :=
  (List.range ev.dimensions.toNat).foldl
    (fun (out : List Int) (i : Nat) =>
      if ev.dest_loc (i : Int) ≠ curr_loc (i : Int) then out ++ [(i : Int)] else out)
    dims

/-- Scenario S4: an event for the router at `(2, 0, 1)` of a three-dimensional HyperX. -/
def S4_event : topo_hyperx_event :=
  { internal_router_event.ofRtrEvent (topo_dragonfly_legacy.S3_packet 5) with
    dimensions := 3, last_routing_dim := -1,
    dest_loc := fun i => if i = 0 then 2 else if i = 1 then 0 else 1,
    val_route_dest := false, val_loc := fun _ => 0, rerouted := false }

/-- Scenario S4: the location `(2, 1, 0)` of the current router. -/
def S4_here : Int → Int := fun i => if i = 0 then 2 else if i = 1 then 1 else 0

end topo_hyperx_event

/-! ## Scenario: a long run of arrivals -/

/-- Scenario S5, long run: endpoint 7 sends requests `0, .., n - 1`, which arrive in order
on virtual network 0. -/
def S5_flood (n : Nat) : List Op :=
  (List.range n).map (fun i => Op.handle_event 0 (S5_request 7 0 i))

/-! ## Invariant of the heaps, whatever the sequence numbers -/

/-- What holds of the heap of a peer once the requests `A` have arrived from it, no
sequence number twice: every entry is the dummy entry or an arrival, every entry carries a
number above `recv`, every number below `recv` has arrived, and the heap is in ascending
order of `seq`, strictly so except that an entry may follow the dummy entry with the same
number. -/
structure AboveInv (A : List ReorderRequest) (recv : Nat) (queue : List ReorderRequest) :
    Prop where
  mem : ∀ x ∈ queue, x = sentinel ∨ x ∈ A
  above : ∀ x ∈ queue, recv < x.seq
  below : ∀ j, j < recv → j ∈ A.map (fun r => r.seq)
  sorted : queue.Pairwise (fun a b => a.seq < b.seq ∨ (a = sentinel ∧ a.seq ≤ b.seq))

/-- Scenario S5, backlog: the requests `1, .., n` of endpoint 7 arrive in order on virtual
network 0 while request 0 is still on its way. -/
def S5_backlog (n : Nat) : List Op :=
  (List.range' 1 n).map (fun i => Op.handle_event 0 (S5_request 7 0 i))

/-! ## Single router: proofs -/

namespace topo_singlerouter

theorem foldl_push_ne (port : Int) (l : List Nat) (init : List Int) :
    l.foldl (fun (out : List Int) (i : Nat) =>
        if (i : Int) ≠ port then out ++ [(i : Int)] else out) init =
      init ++ (l.map Int.ofNat).filter (fun i => decide (i ≠ port)) := by
  induction l generalizing init with
  | nil => simp
  | cons x xs ih =>
    rw [List.foldl_cons, ih]
    by_cases hx : (x : Int) = port
    · simp [hx]
    · simp [hx]

theorem routeInitData_broadcast (t : topo_singlerouter) (port : Int)
    (ev : internal_router_event) (outPorts : List Int)
    (hb : ev.getDest = INIT_BROADCAST_ADDR) :
    (t.routeInitData port ev outPorts).2 =
      outPorts ++ ((List.range t.num_ports.toNat).map Int.ofNat).filter
        (fun i => decide (i ≠ port)) := by
  unfold routeInitData
  rw [if_pos hb]
  exact foldl_push_ne port _ outPorts

theorem mem_ports (n : Int) (i : Int) :
    i ∈ (List.range n.toNat).map Int.ofNat ↔ 0 ≤ i ∧ i < n := by
  simp only [List.mem_map, List.mem_range]
  constructor
  · rintro ⟨a, ha, rfl⟩
    have h1 : Int.ofNat a = (a : Int) := rfl
    rw [h1]
    omega
  · rintro ⟨h0, h1⟩
    refine ⟨i.toNat, ?_, ?_⟩
    · omega
    · simp [Int.toNat_of_nonneg h0]

theorem ports_sorted (n : Nat) : ((List.range n).map Int.ofNat).Sorted (· < ·) := by
  unfold List.Sorted
  rw [List.pairwise_map]
  exact (List.pairwise_lt_range n).imp (fun h => by simpa using h)

end topo_singlerouter

theorem nid_to_int_of_int (x : Int) (h0 : -2147483648 ≤ x) (h1 : x < 2147483648) :
    nid_to_int x = x := by
  unfold nid_to_int
  omega

/-- C8. Single-router routing: for every arrival port and in-vc, `route` sets `next_port`
to the destination id of the packet, as `getDest` returns it, and changes nothing else of
the event, the VC included.  `getDest` returns an `int`: it is the destination id itself
whenever that is a C `int` (as every port number and every `getEndpointID p` is), and its
low 32 bits otherwise.  Hence a packet addressed to `getEndpointID p` is routed to port
`p`, for every `int` port `p`. -/
theorem singlerouter_route_to_dest (t : topo_singlerouter) (port vc : Int)
    (ev : internal_router_event) :
    (t.route port vc ev).getNextPort = ev.getDest ∧
    (t.route port vc ev).getVC = ev.getVC ∧
    t.route port vc ev = { ev with next_port := ev.getDest } ∧
    ev.getDest = nid_to_int ev.encap_ev.request.dest ∧
    (-2147483648 ≤ ev.encap_ev.request.dest → ev.encap_ev.request.dest < 2147483648 →
      ev.getDest = ev.encap_ev.request.dest ∧
      (t.route port vc ev).getNextPort = ev.encap_ev.request.dest) ∧
    (∀ p : Int, ev.getDest = t.getEndpointID p → (t.route port vc ev).getNextPort = p) ∧
    (∀ p : Int, -2147483648 ≤ p → p < 2147483648 →
      ev.encap_ev.request.dest = t.getEndpointID p →
      (t.route port vc ev).getNextPort = p) := by
  have hnext : (t.route port vc ev).getNextPort = ev.getDest := rfl
  refine ⟨hnext, rfl, rfl, rfl, ?_, ?_, ?_⟩
  · intro h0 h1
    have hd := nid_to_int_of_int ev.encap_ev.request.dest h0 h1
    exact ⟨hd, hnext.trans hd⟩
  · intro p hp
    exact hnext.trans hp
  · intro p h0 h1 hp
    have hp1 : ev.encap_ev.request.dest = p := hp
    rw [hnext]
    show nid_to_int ev.encap_ev.request.dest = p
    rw [hp1]
    exact nid_to_int_of_int p h0 h1

/-- An event for endpoint 3 is routed to port 3 by a four-port single router, whatever the
arrival port; an event whose 64-bit destination is `2^32 + 3` is routed to port 3 too. -/
theorem singlerouter_route_to_dest_witness :
    (topo_singlerouter.route { num_ports := 4 } 1 0
      (internal_router_event.ofRtrEvent
        { request := { dest := 3, src := 1, vn := 0, size_in_bits := 64, head := true,
                       tail := true, payload := none, trace := 0, traceID := 0 },
          injectionTime := 0, size_in_flits := 1 })).getNextPort = 3 ∧
    (topo_singlerouter.route { num_ports := 4 } 1 0
      (internal_router_event.ofRtrEvent
        { request := { dest := 4294967299, src := 1, vn := 0, size_in_bits := 64, head := true,
                       tail := true, payload := none, trace := 0, traceID := 0 },
          injectionTime := 0, size_in_flits := 1 })).getNextPort = 3 :=
  ⟨(singlerouter_route_to_dest { num_ports := 4 } 1 0
      (internal_router_event.ofRtrEvent
        { request := { dest := 3, src := 1, vn := 0, size_in_bits := 64, head := true,
                       tail := true, payload := none, trace := 0, traceID := 0 },
          injectionTime := 0, size_in_flits := 1 })).2.2.2.2.2.2 3 (by decide) (by decide) rfl,
   by decide⟩

/-- C9. Single-router broadcast coverage: for a broadcast event (`getDest` returns
`INIT_BROADCAST_ADDR`) arriving on a port in `[0, num_ports)` and an empty `outPorts`,
`routeInitData` yields exactly the ports `0 .. num_ports - 1` other than the arrival port,
in ascending order, each once; for any other destination it yields the single port equal
to the destination, as `getDest` returns it.  `getDest` returns an `int`: it is the
destination id itself whenever that is a C `int`, so that an `int` destination other than
`-1` yields the single port equal to it; a 64-bit destination outside the `int` range is
read by its low 32 bits. -/
theorem singlerouter_broadcast_coverage (t : topo_singlerouter) (port : Int)
    (ev : internal_router_event) (hport : 0 ≤ port ∧ port < t.num_ports) :
    (ev.getDest = INIT_BROADCAST_ADDR →
      (t.routeInitData port ev []).2 =
          ((List.range t.num_ports.toNat).map Int.ofNat).filter (fun i => decide (i ≠ port)) ∧
      (∀ i : Int, i ∈ (t.routeInitData port ev []).2 ↔ (0 ≤ i ∧ i < t.num_ports ∧ i ≠ port)) ∧
      (t.routeInitData port ev []).2.Sorted (· < ·) ∧
      (t.routeInitData port ev []).2.Nodup ∧
      (((t.routeInitData port ev []).2.length : Int) = t.num_ports - 1)) ∧
    (ev.getDest ≠ INIT_BROADCAST_ADDR →
      (t.routeInitData port ev []).2 = [ev.getDest] ∧
      (t.routeInitData port ev []).1.getNextPort = ev.getDest) ∧
    ev.getDest = nid_to_int ev.encap_ev.request.dest ∧
    (-2147483648 ≤ ev.encap_ev.request.dest → ev.encap_ev.request.dest < 2147483648 →
      ev.getDest = ev.encap_ev.request.dest ∧
      (ev.encap_ev.request.dest ≠ INIT_BROADCAST_ADDR →
        (t.routeInitData port ev []).2 = [ev.encap_ev.request.dest] ∧
        (t.routeInitData port ev []).1.getNextPort = ev.encap_ev.request.dest)) := by
  have hother : ev.getDest ≠ INIT_BROADCAST_ADDR →
      (t.routeInitData port ev []).2 = [ev.getDest] ∧
      (t.routeInitData port ev []).1.getNextPort = ev.getDest := by
    intro hb
    unfold topo_singlerouter.routeInitData
    rw [if_neg hb]
    exact ⟨rfl, rfl⟩
  refine ⟨?_, hother, rfl, ?_⟩
  swap
  · intro h0 h1
    have hd : ev.getDest = ev.encap_ev.request.dest :=
      nid_to_int_of_int ev.encap_ev.request.dest h0 h1
    refine ⟨hd, ?_⟩
    intro hne
    have := hother (by rw [hd]; exact hne)
    rw [hd] at this
    exact this
  · intro hb
    have heq := topo_singlerouter.routeInitData_broadcast t port ev [] hb
    rw [List.nil_append] at heq
    have hs : (t.routeInitData port ev []).2.Sorted (· < ·) := by
      rw [heq]
      exact (topo_singlerouter.ports_sorted _).filter _
    have hnd : ((List.range t.num_ports.toNat).map Int.ofNat).Nodup :=
      (topo_singlerouter.ports_sorted _).nodup
    refine ⟨heq, ?_, hs, hs.nodup, ?_⟩
    · intro i
      rw [heq, List.mem_filter, topo_singlerouter.mem_ports]
      simp only [decide_eq_true_eq]
      tauto
    · have hf : ((List.range t.num_ports.toNat).map Int.ofNat).filter
            (fun i => decide (i ≠ port)) =
          ((List.range t.num_ports.toNat).map Int.ofNat).erase port := by
        rw [hnd.erase_eq_filter port]
        apply List.filter_congr
        intro x _
        by_cases hx : x = port <;> simp [hx]
      rw [heq, hf]
      have hmem : port ∈ (List.range t.num_ports.toNat).map Int.ofNat :=
        (topo_singlerouter.mem_ports _ _).mpr hport
      rw [List.length_erase_of_mem hmem, List.length_map, List.length_range]
      omega

/-- A broadcast arriving on port 1 of a four-port single router goes out on ports 0, 2
and 3; so does an event whose 64-bit destination is `2^32 - 1`, which `getDest` returns as
`-1`; an event for endpoint 2 goes out on port 2. -/
theorem singlerouter_broadcast_coverage_witness :
    (topo_singlerouter.routeInitData { num_ports := 4 } 1
      (internal_router_event.ofRtrEvent
        { request := { dest := -1, src := 1, vn := 0, size_in_bits := 64, head := true,
                       tail := true, payload := none, trace := 0, traceID := 0 },
          injectionTime := 0, size_in_flits := 1 }) []).2 = [0, 2, 3] ∧
    (topo_singlerouter.routeInitData { num_ports := 4 } 1
      (internal_router_event.ofRtrEvent
        { request := { dest := 4294967295, src := 1, vn := 0, size_in_bits := 64, head := true,
                       tail := true, payload := none, trace := 0, traceID := 0 },
          injectionTime := 0, size_in_flits := 1 }) []).2 = [0, 2, 3] ∧
    (topo_singlerouter.routeInitData { num_ports := 4 } 1
      (internal_router_event.ofRtrEvent
        { request := { dest := 2, src := 1, vn := 0, size_in_bits := 64, head := true,
                       tail := true, payload := none, trace := 0, traceID := 0 },
          injectionTime := 0, size_in_flits := 1 }) []).2 = [2] :=
  ⟨((singlerouter_broadcast_coverage { num_ports := 4 } 1
      (internal_router_event.ofRtrEvent
        { request := { dest := -1, src := 1, vn := 0, size_in_bits := 64, head := true,
                       tail := true, payload := none, trace := 0, traceID := 0 },
          injectionTime := 0, size_in_flits := 1 }) (by decide)).1 (by decide)).1.trans
      (by decide),
   by decide, by decide⟩

/-! ## Reorder link controller: proofs -/

theorem arrivals_append (src : Int) (l1 l2 : List Op) :
    arrivals src (l1 ++ l2) = arrivals src l1 ++ arrivals src l2 := by
  induction l1 with
  | nil => rfl
  | cons op ops ih =>
    rw [List.cons_append]
    cases op <;> simp only [arrivals, ih]
    split_ifs <;> simp

theorem arrivals_src (src : Int) (ops : List Op) : ∀ r ∈ arrivals src ops, r.src = src := by
  induction ops with
  | nil => intro r hr; simp [arrivals] at hr
  | cons op ops ih =>
    intro r hr
    cases op <;> simp only [arrivals] at hr
    · exact ih r hr
    · split_ifs at hr with h
      · rcases List.mem_cons.mp hr with h1 | h1
        · rw [h1]; exact h
        · exact ih r h1
      · exact ih r hr
    · exact ih r hr
    · exact ih r hr
    · exact ih r hr

theorem run_append (s : ReorderLinkControl) (l1 l2 : List Op) :
    run s (l1 ++ l2) =
      match run s l1 with
      | none => none
      | some (s1, out1) =>
        match run s1 l2 with
        | none => none
        | some (s2, out2) => some (s2, out1 ++ out2) := by
  induction l1 generalizing s with
  | nil =>
    simp only [List.nil_append, run]
    cases run s l2 with
    | none => rfl
    | some x => simp
  | cons op ops ih =>
    rw [List.cons_append]
    simp only [run]
    cases step s op with
    | none => rfl
    | some x =>
      obtain ⟨s1, out1⟩ := x
      simp only [ih]
      cases run s1 ops with
      | none => rfl
      | some y =>
        obtain ⟨s2, out2⟩ := y
        simp only
        cases run s2 l2 with
        | none => rfl
        | some z => simp [List.append_assoc]

theorem run_snoc (s : ReorderLinkControl) (ops : List Op) (op : Op) :
    run s (ops ++ [op]) =
      match run s ops with
      | none => none
      | some (s1, out1) =>
        match step s1 op with
        | none => none
        | some (s2, out2) => some (s2, out1 ++ out2) := by
  rw [run_append]
  cases run s ops with
  | none => rfl
  | some x =>
    obtain ⟨s1, out1⟩ := x
    simp only [run]
    cases step s1 op with
    | none => rfl
    | some y => simp

/-! ### The priority queue -/

theorem mem_pq_push (r x : ReorderRequest) (q : List ReorderRequest) :
    x ∈ pq_push r q ↔ x = r ∨ x ∈ q := by
  induction q with
  | nil => simp [pq_push]
  | cons y ys ih =>
    simp only [pq_push]
    split_ifs
    · simp
    · simp only [List.mem_cons, ih]
      tauto

theorem length_pq_push (r : ReorderRequest) (q : List ReorderRequest) :
    (pq_push r q).length = q.length + 1 := by
  induction q with
  | nil => rfl
  | cons y ys ih =>
    simp only [pq_push]
    split_ifs
    · rfl
    · simp [ih]

theorem pairwise_pq_push (r : ReorderRequest) (q : List ReorderRequest)
    (hq : q.Pairwise (fun a b => a.seq < b.seq)) (hr : ∀ x ∈ q, x.seq ≠ r.seq) :
    (pq_push r q).Pairwise (fun a b => a.seq < b.seq) := by
  induction q with
  | nil => simp [pq_push]
  | cons y ys ih =>
    simp only [pq_push]
    rw [List.pairwise_cons] at hq
    split_ifs with h
    · rw [List.pairwise_cons]
      refine ⟨?_, List.pairwise_cons.mpr hq⟩
      intro x hx
      rcases List.mem_cons.mp hx with h1 | h1
      · rw [h1]; exact h
      · exact lt_trans h (hq.1 x h1)
    · rw [List.pairwise_cons]
      refine ⟨?_, ih hq.2 (fun x hx => hr x (List.mem_cons_of_mem _ hx))⟩
      intro x hx
      rcases (mem_pq_push r x ys).mp hx with h1 | h1
      · rw [h1]
        have := hr y (List.mem_cons_self _ _)
        omega
      · exact hq.1 x h1

/-! ### The input queues -/

theorem foldl_push_input (batch : List ReorderRequest) (buf : Int → List ReorderRequest)
    (vn : Int) :
    (batch.foldl push_input buf) vn = buf vn ++ batch.filter (fun r => decide (r.vn = vn)) := by
  induction batch generalizing buf with
  | nil => simp
  | cons r rs ih =>
    rw [List.foldl_cons, ih]
    unfold push_input
    by_cases h : r.vn = vn
    · subst h
      simp
    · have h' : vn ≠ r.vn := fun e => h e.symm
      simp [h, Function.update_noteq h']

/-! ### The delivery loop -/

theorem drain_spec (q : List ReorderRequest) (c : Nat)
    (hs : sentinel ∈ q) (hlen : c + q.length ≤ 4294967295) :
    ∃ batch top rest, q = batch ++ top :: rest ∧
      batch.map (fun r => r.seq) = List.range' c batch.length ∧
      top.seq ≠ c + batch.length ∧
      ∀ buf, drain q c buf =
        some (top :: rest, c + batch.length, batch.foldl push_input buf) := by
  induction q generalizing c with
  | nil => simp at hs
  | cons x xs ih =>
    by_cases hx : x.seq = c
    · have hne : x ≠ sentinel := by
        intro e
        rw [e] at hx
        simp only [sentinel] at hx
        simp only [List.length_cons] at hlen
        omega
      have hs' : sentinel ∈ xs := by
        rcases List.mem_cons.mp hs with h | h
        · exact absurd h.symm hne
        · exact h
      simp only [List.length_cons] at hlen
      have hc : (c + 1) % 4294967296 = c + 1 := Nat.mod_eq_of_lt (by omega)
      obtain ⟨batch, top, rest, h1, h2, h3, h4⟩ := ih (c + 1) hs' (by omega)
      refine ⟨x :: batch, top, rest, ?_, ?_, ?_, ?_⟩
      · rw [h1]; rfl
      · simp only [List.map_cons, List.length_cons, List.range'_succ, hx, h2]
      · simp only [List.length_cons]; omega
      · intro buf
        simp only [drain, hx, if_true, hc, h4, List.length_cons, List.foldl_cons]
        congr 3
        omega
    · refine ⟨[], x, xs, rfl, rfl, by simpa using hx, ?_⟩
      intro buf
      simp [drain, hx]

/-! ### One arrival, seen from the entry of its source -/

theorem peer_step_inseq (A : List ReorderRequest) (src : Int) (recv : Nat)
    (queue : List ReorderRequest) (r : ReorderRequest) (hinv : PeerInv A src recv queue)
    (hA : A.length + 1 < 4294967295) :
    ∃ batch top rest, queue = batch ++ top :: rest ∧
      batch.map (fun x => x.seq) = List.range' (recv + 1) batch.length ∧
      top.seq ≠ recv + 1 + batch.length ∧
      recv + 1 + batch.length < 4294967295 ∧
      (∀ buf, drain queue ((recv + 1) % 4294967296) buf =
        some (top :: rest, recv + 1 + batch.length, batch.foldl push_input buf)) ∧
      PeerInv (A ++ [r]) src (recv + 1 + batch.length) (top :: rest) ∧
      (∀ x ∈ batch, x.src = src ∧ x ≠ sentinel) := by
  have hlen := hinv.count
  have hq1 : 1 ≤ queue.length := List.length_pos_of_mem hinv.sentinel_mem
  have hc : (recv + 1) % 4294967296 = recv + 1 := Nat.mod_eq_of_lt (by omega)
  obtain ⟨batch, top, rest, h1, h2, h3, h4⟩ :=
    drain_spec queue (recv + 1) hinv.sentinel_mem (by omega)
  have hl : queue.length = batch.length + (rest.length + 1) := by
    rw [h1]; simp
  have hbound : recv + 1 + batch.length < 4294967295 := by omega
  have hbatch : ∀ x ∈ batch, x.seq < recv + 1 + batch.length := by
    intro x hx
    have : x.seq ∈ List.range' (recv + 1) batch.length := by
      rw [← h2]; exact List.mem_map_of_mem _ hx
    rw [List.mem_range'_1] at this
    omega
  have hns : ∀ x ∈ batch, x ≠ sentinel := by
    intro x hx e
    have := hbatch x hx
    rw [e] at this
    simp only [sentinel] at this
    omega
  refine ⟨batch, top, rest, h1, h2, h3, hbound, ?_, ?_, ?_⟩
  · intro buf
    rw [hc, h4]
  · refine ⟨?_, ?_, ?_⟩
    · rcases List.mem_append.mp (h1 ▸ hinv.sentinel_mem) with h | h
      · exact absurd rfl (hns _ h)
      · exact h
    · simp only [List.length_append, List.length_cons, List.length_nil]
      omega
    · intro x hx
      exact hinv.src_eq x (by rw [h1]; exact List.mem_append_right _ hx)
  · intro x hx
    refine ⟨?_, hns x hx⟩
    rcases hinv.src_eq x (by rw [h1]; exact List.mem_append_left _ hx) with h | h
    · exact absurd h (hns x hx)
    · exact h

theorem peer_step_outseq (A : List ReorderRequest) (src : Int) (recv : Nat)
    (queue : List ReorderRequest) (r : ReorderRequest) (hr : r.src = src)
    (hinv : PeerInv A src recv queue) :
    PeerInv (A ++ [r]) src recv (pq_push r queue) := by
  refine ⟨?_, ?_, ?_⟩
  · exact (mem_pq_push _ _ _).mpr (Or.inr hinv.sentinel_mem)
  · rw [length_pq_push]
    have := hinv.count
    simp only [List.length_append, List.length_cons, List.length_nil]
    omega
  · intro x hx
    rcases (mem_pq_push _ _ _).mp hx with h | h
    · right; rw [h]; exact hr
    · exact hinv.src_eq x h

theorem order_step_inseq (A : List ReorderRequest) (recv : Nat)
    (queue batch rest : List ReorderRequest) (top r : ReorderRequest)
    (hinv : OrderInv A recv queue) (hr : r.seq = recv)
    (hnew : r.seq ∉ A.map (fun x => x.seq))
    (hq : queue = batch ++ top :: rest)
    (hb : batch.map (fun x => x.seq) = List.range' (recv + 1) batch.length)
    (htop : top.seq ≠ recv + 1 + batch.length)
    (hbound : recv + 1 + batch.length < 4294967295)
    (hns : ∀ x ∈ batch, x ≠ sentinel) :
    OrderInv (A ++ [r]) (recv + 1 + batch.length) (top :: rest) ∧
    (∀ x ∈ r :: batch, x ∈ A ++ [r] ∧ recv ≤ x.seq ∧ x.seq < recv + 1 + batch.length) ∧
    (r :: batch).Pairwise (fun a b => a.seq < b.seq) ∧
    (∀ x ∈ A ++ [r], recv ≤ x.seq → x.seq < recv + 1 + batch.length → x ∈ r :: batch) := by
  have hsorted := hinv.sorted
  rw [hq, List.pairwise_append] at hsorted
  obtain ⟨hsb, hst, hcross⟩ := hsorted
  have hbseq : ∀ x ∈ batch, recv + 1 ≤ x.seq ∧ x.seq < recv + 1 + batch.length := by
    intro x hx
    have : x.seq ∈ List.range' (recv + 1) batch.length := by
      rw [← hb]; exact List.mem_map_of_mem _ hx
    rw [List.mem_range'_1] at this
    exact this
  have hbA : ∀ x ∈ batch, x ∈ A := by
    intro x hx
    rcases hinv.queue_mem x (by rw [hq]; exact List.mem_append_left _ hx) with h | h
    · exact absurd h (hns x hx)
    · exact h.1
  have hseqb : ∀ j, recv + 1 ≤ j → j < recv + 1 + batch.length →
      ∃ b ∈ batch, b.seq = j := by
    intro j h1 h2
    have : j ∈ batch.map (fun x => x.seq) := by
      rw [hb, List.mem_range'_1]; exact ⟨h1, h2⟩
    obtain ⟨b, hb1, hb2⟩ := List.mem_map.mp this
    exact ⟨b, hb1, hb2⟩
  -- everything left in the queue is at or above the new `recv`
  have hge : ∀ x ∈ top :: rest, recv + 1 + batch.length ≤ x.seq := by
    intro x hx
    rcases hinv.queue_mem x (by rw [hq]; exact List.mem_append_right _ hx) with h | h
    · rw [h]; simp only [sentinel]; omega
    · rcases Nat.eq_zero_or_pos batch.length with h0 | h0
      · omega
      · obtain ⟨b, hb1, hb2⟩ := hseqb (recv + batch.length) (by omega) (by omega)
        have := hcross b hb1 x hx
        omega
  have hgt : ∀ x ∈ top :: rest, recv + 1 + batch.length < x.seq := by
    intro x hx
    rcases List.mem_cons.mp hx with h | h
    · rw [h]
      have := hge top (List.mem_cons_self _ _)
      omega
    · have h1 := hge top (List.mem_cons_self _ _)
      have h2 := (List.pairwise_cons.mp hst).1 x h
      omega
  refine ⟨⟨?_, ?_, ?_, hst⟩, ?_, ?_, ?_⟩
  · intro x hx
    rcases hinv.queue_mem x (by rw [hq]; exact List.mem_append_right _ hx) with h | h
    · exact Or.inl h
    · exact Or.inr ⟨List.mem_append_left _ h.1, hgt x hx⟩
  · intro x hx
    rcases List.mem_append.mp hx with h | h
    · rcases hinv.arrived x h with h1 | h1
      · left; omega
      · rw [hq] at h1
        rcases List.mem_append.mp h1 with h2 | h2
        · left; exact (hbseq x h2).2
        · right; exact h2
    · have : x = r := by simpa using h
      left; rw [this, hr]; omega
  · intro j hj
    rw [List.map_append, List.mem_append]
    rcases Nat.lt_or_ge j recv with h | h
    · exact Or.inl (hinv.below j h)
    · rcases Nat.eq_or_lt_of_le h with h1 | h1
      · right; simp [hr, h1]
      · left
        obtain ⟨b, hb1, hb2⟩ := hseqb j (by omega) hj
        exact List.mem_map.mpr ⟨b, hbA b hb1, hb2⟩
  · intro x hx
    rcases List.mem_cons.mp hx with h | h
    · rw [h]
      exact ⟨by simp, by omega, by omega⟩
    · have := hbseq x h
      exact ⟨List.mem_append_left _ (hbA x h), by omega, this.2⟩
  · rw [List.pairwise_cons]
    refine ⟨?_, hsb⟩
    intro x hx
    have := hbseq x hx
    omega
  · intro x hx h1 h2
    rcases List.mem_append.mp hx with h | h
    · have hne : x.seq ≠ recv := by
        intro e
        apply hnew
        rw [hr, ← e]
        exact List.mem_map_of_mem _ h
      rcases hinv.arrived x h with h3 | h3
      · omega
      · rw [hq] at h3
        rcases List.mem_append.mp h3 with h4 | h4
        · exact List.mem_cons_of_mem _ h4
        · have := hge x h4
          omega
    · have : x = r := by simpa using h
      rw [this]; exact List.mem_cons_self _ _

theorem order_step_outseq (A : List ReorderRequest) (recv : Nat)
    (queue : List ReorderRequest) (r : ReorderRequest)
    (hinv : OrderInv A recv queue) (hr : r.seq ≠ recv)
    (hnew : r.seq ∉ A.map (fun x => x.seq)) (hlt : r.seq < 4294967295) :
    recv < r.seq ∧ OrderInv (A ++ [r]) recv (pq_push r queue) := by
  have hgt : recv < r.seq := by
    rcases Nat.lt_or_ge r.seq recv with h | h
    · exact absurd (hinv.below _ h) hnew
    · omega
  refine ⟨hgt, ?_, ?_, ?_, ?_⟩
  · intro x hx
    rcases (mem_pq_push _ _ _).mp hx with h | h
    · right; rw [h]; exact ⟨by simp, hgt⟩
    · rcases hinv.queue_mem x h with h1 | h1
      · exact Or.inl h1
      · exact Or.inr ⟨List.mem_append_left _ h1.1, h1.2⟩
  · intro x hx
    rcases List.mem_append.mp hx with h | h
    · rcases hinv.arrived x h with h1 | h1
      · exact Or.inl h1
      · exact Or.inr ((mem_pq_push _ _ _).mpr (Or.inr h1))
    · have : x = r := by simpa using h
      right; rw [this]; exact (mem_pq_push _ _ _).mpr (Or.inl rfl)
  · intro j hj
    rw [List.map_append, List.mem_append]
    exact Or.inl (hinv.below j hj)
  · apply pairwise_pq_push _ _ hinv.sorted
    intro x hx e
    rcases hinv.queue_mem x hx with h | h
    · rw [h] at e; simp only [sentinel] at e; omega
    · apply hnew; rw [← e]; exact List.mem_map_of_mem _ h.1

theorem hist_step_inseq (A : List ReorderRequest) (recv recv1 : Nat)
    (h : Int → List ReorderRequest) (r : ReorderRequest) (delivered : List ReorderRequest)
    (hinv : HistInv A recv h) (hr : r.seq = recv) (hle : recv ≤ recv1)
    (h1 : ∀ x ∈ delivered, x ∈ A ++ [r] ∧ recv ≤ x.seq ∧ x.seq < recv1)
    (h2 : delivered.Pairwise (fun a b => a.seq < b.seq))
    (h3 : ∀ x ∈ A ++ [r], recv ≤ x.seq → x.seq < recv1 → x ∈ delivered) :
    HistInv (A ++ [r]) recv1
      (fun vn => h vn ++ delivered.filter (fun x => decide (x.vn = vn))) := by
  constructor
  · intro vn
    rw [List.pairwise_append]
    refine ⟨hinv.sorted vn, h2.filter _, ?_⟩
    intro a ha b hb
    have ha' := ((hinv.mem vn a).mp ha).2.1
    have hb' := (h1 b (List.mem_of_mem_filter hb)).2.1
    omega
  · intro vn x
    simp only [List.mem_append, List.mem_filter, decide_eq_true_eq, hinv.mem vn x]
    constructor
    · rintro (⟨a1, a2, a3⟩ | ⟨a1, a2⟩)
      · exact ⟨Or.inl a1, by omega, a3⟩
      · have := h1 x a1
        exact ⟨List.mem_append.mp this.1, this.2.2, a2⟩
    · rintro ⟨a1, a2, a3⟩
      rcases Nat.lt_or_ge x.seq recv with c | c
      · left
        rcases a1 with a1 | a1
        · exact ⟨a1, c, a3⟩
        · have : x = r := by simpa using a1
          rw [this] at c; omega
      · right
        exact ⟨h3 x (List.mem_append.mpr a1) c a2, a3⟩

theorem hist_step_outseq (A : List ReorderRequest) (recv : Nat)
    (h : Int → List ReorderRequest) (r : ReorderRequest)
    (hinv : HistInv A recv h) (hr : recv < r.seq) :
    HistInv (A ++ [r]) recv h := by
  constructor
  · exact hinv.sorted
  · intro vn x
    rw [hinv.mem vn x, List.mem_append]
    constructor
    · rintro ⟨a1, a2, a3⟩
      exact ⟨Or.inl a1, a2, a3⟩
    · rintro ⟨a1 | a1, a2, a3⟩
      · exact ⟨a1, a2, a3⟩
      · have : x = r := by simpa using a1
        rw [this] at a2; omega

/-! ### The calls, seen from the state -/

theorem info_update_same (s : ReorderLinkControl) (k : Int) (i : ReorderInfo)
    (lc : SimpleNetwork) (buf : Int → List ReorderRequest) :
    ({ s with reorder_info := Function.update s.reorder_info k (some i),
              link_control := lc, input_buf := buf } : ReorderLinkControl).info k = i := by
  simp [ReorderLinkControl.info]

theorem info_update_other (s : ReorderLinkControl) (k d : Int) (i : ReorderInfo)
    (lc : SimpleNetwork) (buf : Int → List ReorderRequest) (h : d ≠ k) :
    ({ s with reorder_info := Function.update s.reorder_info k (some i),
              link_control := lc, input_buf := buf } : ReorderLinkControl).info d = s.info d := by
  simp [ReorderLinkControl.info, Function.update_noteq h]

theorem notify_info (s : ReorderLinkControl) (vn d : Int) : (notify s vn).info d = s.info d := by
  unfold notify
  cases s.receiveFunctor <;> rfl

theorem notify_input_buf (s : ReorderLinkControl) (vn : Int) :
    (notify s vn).input_buf = s.input_buf := by
  unfold notify
  cases s.receiveFunctor <;> rfl

theorem notify_link_control (s : ReorderLinkControl) (vn : Int) :
    (notify s vn).link_control = s.link_control := by
  unfold notify
  cases s.receiveFunctor <;> rfl

theorem notify_vns (s : ReorderLinkControl) (vn : Int) : (notify s vn).vns = s.vns := by
  unfold notify
  cases s.receiveFunctor <;> rfl

theorem handle_event_inseq (s : ReorderLinkControl) (vn : Int) (r : ReorderRequest)
    (batch rest : List ReorderRequest) (top : ReorderRequest) (recv1 : Nat)
    (hr : r.seq = (s.info r.src).recv)
    (hd : ∀ buf, drain (s.info r.src).queue (((s.info r.src).recv + 1) % 4294967296) buf =
      some (top :: rest, recv1, batch.foldl push_input buf)) :
    ∃ s1, s.handle_event vn r = some s1 ∧
      (s1.info r.src).recv = recv1 ∧ (s1.info r.src).queue = top :: rest ∧
      (s1.info r.src).send = (s.info r.src).send ∧
      (∀ d, d ≠ r.src → s1.info d = s.info d) ∧
      (∀ v, s1.input_buf v = s.input_buf v ++ (r :: batch).filter (fun x => decide (x.vn = v))) ∧
      s1.link_control = s.link_control ∧ s1.vns = s.vns := by
  unfold ReorderLinkControl.handle_event
  simp only [hr, if_true, hd]
  refine ⟨_, rfl, ?_, ?_, ?_, ?_, ?_, ?_, ?_⟩
  · rw [notify_info]; simp [ReorderLinkControl.info]
  · rw [notify_info]; simp [ReorderLinkControl.info]
  · rw [notify_info]; simp [ReorderLinkControl.info]
  · intro d hd
    rw [notify_info]
    simp [ReorderLinkControl.info, Function.update_noteq hd]
  · intro v
    rw [notify_input_buf]
    simp only
    rw [← List.foldl_cons, foldl_push_input]
  · rw [notify_link_control]
  · rw [notify_vns]

theorem handle_event_outseq (s : ReorderLinkControl) (vn : Int) (r : ReorderRequest)
    (hr : r.seq ≠ (s.info r.src).recv) :
    ∃ s1, s.handle_event vn r = some s1 ∧
      (s1.info r.src).recv = (s.info r.src).recv ∧
      (s1.info r.src).queue = pq_push r (s.info r.src).queue ∧
      (s1.info r.src).send = (s.info r.src).send ∧
      (∀ d, d ≠ r.src → s1.info d = s.info d) ∧
      s1.input_buf = s.input_buf ∧ s1.link_control = s.link_control ∧ s1.vns = s.vns ∧
      s1.receiveFunctor = s.receiveFunctor ∧ s1.notified = s.notified := by
  unfold ReorderLinkControl.handle_event
  simp only [hr, if_false]
  refine ⟨_, rfl, ?_, ?_, ?_, ?_, rfl, rfl, rfl, rfl, rfl⟩
  · simp [ReorderLinkControl.info]
  · simp [ReorderLinkControl.info]
  · simp [ReorderLinkControl.info]
  · intro d hd
    simp [ReorderLinkControl.info, Function.update_noteq hd]

theorem send_info (s : ReorderLinkControl) (req : Request) (vn d : Int) :
    ((s.send req vn).2.info d).recv = (s.info d).recv ∧
    ((s.send req vn).2.info d).queue = (s.info d).queue := by
  unfold ReorderLinkControl.send
  split_ifs
  · exact ⟨rfl, rfl⟩
  · exact ⟨rfl, rfl⟩
  · by_cases h : d = (ReorderRequest.ofRequest req 0).dest
    · subst h
      simp [ReorderLinkControl.info]
    · simp [ReorderLinkControl.info, Function.update_noteq h]

theorem send_input_buf (s : ReorderLinkControl) (req : Request) (vn : Int) :
    (s.send req vn).2.input_buf = s.input_buf := by
  unfold ReorderLinkControl.send
  split_ifs <;> rfl

theorem history_recv (s : ReorderLinkControl) (out : List (Int × ReorderRequest))
    (vn v : Int) :
    history (s.recv vn).2
      (out ++ match (s.recv vn).1 with
              | none => []
              | some req => [(vn, req)]) v = history s out v := by
  unfold history handed_out ReorderLinkControl.recv
  cases hq : s.input_buf vn with
  | nil => simp
  | cons x xs =>
    simp only [List.filter_append, List.map_append]
    by_cases h : vn = v
    · subst h
      simp [hq]
    · have h' : v ≠ vn := fun e => h e.symm
      simp [h, Function.update_noteq h']

/-! ### The invariant is kept by every call -/

theorem arrivals_snoc_handle_event (src : Int) (ops : List Op) (vn : Int)
    (r : ReorderRequest) :
    arrivals src (ops ++ [Op.handle_event vn r]) =
      if r.src = src then arrivals src ops ++ [r] else arrivals src ops := by
  rw [arrivals_append]
  simp only [arrivals]
  split_ifs <;> simp

theorem RunInv_fresh (vns : Int) (lc : SimpleNetwork) :
    RunInv [] (ReorderLinkControl.fresh vns lc) [] := by
  constructor
  · intro src
    exact ⟨by simp [ReorderLinkControl.info, ReorderLinkControl.fresh, ReorderInfo.fresh],
      by simp [ReorderLinkControl.info, ReorderLinkControl.fresh, ReorderInfo.fresh, arrivals],
      by simp [ReorderLinkControl.info, ReorderLinkControl.fresh, ReorderInfo.fresh]⟩
  · intro src _ _
    constructor
    · exact ⟨by simp [ReorderLinkControl.info, ReorderLinkControl.fresh, ReorderInfo.fresh],
        by simp [arrivals],
        by simp [ReorderLinkControl.info, ReorderLinkControl.fresh, ReorderInfo.fresh],
        by simp [ReorderLinkControl.info, ReorderLinkControl.fresh, ReorderInfo.fresh]⟩
    · exact ⟨by simp [history, handed_out, ReorderLinkControl.fresh],
        by simp [history, handed_out, ReorderLinkControl.fresh, arrivals]⟩

theorem RunInv_of_eq (ops ops1 : List Op) (st st1 : ReorderLinkControl)
    (out out1 : List (Int × ReorderRequest))
    (hA : ∀ src, arrivals src ops1 = arrivals src ops)
    (hi : ∀ d, (st1.info d).recv = (st.info d).recv ∧ (st1.info d).queue = (st.info d).queue)
    (hh : ∀ v, history st1 out1 v = history st out v)
    (h : RunInv ops st out) : RunInv ops1 st1 out1 := by
  unfold RunInv
  simp only [hA, hi, hh]
  exact h

theorem RunInv_handle_event (ops : List Op) (st : ReorderLinkControl)
    (out : List (Int × ReorderRequest)) (vn : Int) (r : ReorderRequest)
    (hcount : (arrivals r.src ops).length + 1 < 4294967295)
    (h : RunInv ops st out) :
    ∃ st1, st.handle_event vn r = some st1 ∧ RunInv (ops ++ [Op.handle_event vn r]) st1 out := by
  obtain ⟨hP, hF⟩ := h
  by_cases hr : r.seq = (st.info r.src).recv
  · obtain ⟨batch, top, rest, hq, hb, htop, hbound, hd, hP1, hsrc⟩ :=
      peer_step_inseq (arrivals r.src ops) r.src (st.info r.src).recv (st.info r.src).queue r
        (hP r.src) hcount
    obtain ⟨st1, he, e1, e2, -, e4, e5, -, -⟩ :=
      handle_event_inseq st vn r batch rest top _ hr hd
    have hall : ∀ x ∈ r :: batch, x.src = r.src := by
      intro x hx
      rcases List.mem_cons.mp hx with h1 | h1
      · rw [h1]
      · exact (hsrc x h1).1
    have hhist : ∀ v, history st1 out v =
        history st out v ++ (r :: batch).filter (fun x => decide (x.vn = v)) := by
      intro v
      unfold history
      rw [e5, List.append_assoc]
    refine ⟨st1, he, ?_, ?_⟩
    · intro src
      rw [arrivals_snoc_handle_event]
      by_cases hs : r.src = src
      · subst hs
        rw [if_pos rfl, e1, e2]
        exact hP1
      · rw [if_neg hs, e4 src (fun e => hs e.symm)]
        exact hP src
    · intro src
      rw [arrivals_snoc_handle_event]
      by_cases hs : r.src = src
      · subst hs
        rw [if_pos rfl, e1, e2]
        intro hnd hlt
        rw [List.map_append, List.nodup_append] at hnd
        obtain ⟨hnd1, -, hdis⟩ := hnd
        have hnew : r.seq ∉ (arrivals r.src ops).map (fun x => x.seq) := by
          intro hmem
          exact hdis hmem (by simp)
        obtain ⟨hO, hH⟩ := hF r.src hnd1 (fun x hx => hlt x (List.mem_append_left _ hx))
        obtain ⟨hO1, d1, d2, d3⟩ := order_step_inseq _ _ _ batch rest top r hO hr hnew hq hb
          htop hbound (fun x hx => (hsrc x hx).2)
        refine ⟨hO1, ?_⟩
        have := hist_step_inseq _ _ ((st.info r.src).recv + 1 + batch.length) _ r (r :: batch)
          hH hr (by omega) d1 d2 d3
        have hfun : (fun v => (history st1 out v).filter (fun x => decide (x.src = r.src))) =
            (fun v => (history st out v).filter (fun x => decide (x.src = r.src)) ++
              (r :: batch).filter (fun x => decide (x.vn = v))) := by
          funext v
          rw [hhist v, List.filter_append]
          congr 1
          rw [List.filter_eq_self]
          intro x hx
          simp [hall x (List.mem_of_mem_filter hx)]
        rw [hfun]
        exact this
      · rw [if_neg hs, e4 src (fun e => hs e.symm)]
        intro hnd hlt
        obtain ⟨hO, hH⟩ := hF src hnd hlt
        refine ⟨hO, ?_⟩
        have hfun : (fun v => (history st1 out v).filter (fun x => decide (x.src = src))) =
            (fun v => (history st out v).filter (fun x => decide (x.src = src))) := by
          funext v
          rw [hhist v, List.filter_append]
          have : ((r :: batch).filter (fun x => decide (x.vn = v))).filter
              (fun x => decide (x.src = src)) = [] := by
            rw [List.filter_eq_nil_iff]
            intro x hx
            simp [hall x (List.mem_of_mem_filter hx), hs]
          rw [this, List.append_nil]
        rw [hfun]
        exact hH
  · obtain ⟨st1, he, e1, e2, -, e4, e5, -, -, -, -⟩ := handle_event_outseq st vn r hr
    have hhist : ∀ v, history st1 out v = history st out v := by
      intro v
      unfold history
      rw [e5]
    refine ⟨st1, he, ?_, ?_⟩
    · intro src
      rw [arrivals_snoc_handle_event]
      by_cases hs : r.src = src
      · subst hs
        rw [if_pos rfl, e1, e2]
        exact peer_step_outseq _ _ _ _ r rfl (hP r.src)
      · rw [if_neg hs, e4 src (fun e => hs e.symm)]
        exact hP src
    · intro src
      rw [arrivals_snoc_handle_event]
      simp only [hhist]
      by_cases hs : r.src = src
      · subst hs
        rw [if_pos rfl, e1, e2]
        intro hnd hlt
        rw [List.map_append, List.nodup_append] at hnd
        obtain ⟨hnd1, -, hdis⟩ := hnd
        have hnew : r.seq ∉ (arrivals r.src ops).map (fun x => x.seq) := by
          intro hmem
          exact hdis hmem (by simp)
        obtain ⟨hO, hH⟩ := hF r.src hnd1 (fun x hx => hlt x (List.mem_append_left _ hx))
        obtain ⟨hgt, hO1⟩ := order_step_outseq _ _ _ r hO hr hnew
          (hlt r (List.mem_append_right _ (List.mem_singleton_self r)))
        exact ⟨hO1, hist_step_outseq _ _ _ r hH hgt⟩
      · rw [if_neg hs, e4 src (fun e => hs e.symm)]
        exact hF src

theorem run_inv (vns : Int) (lc : SimpleNetwork) (ops : List Op)
    (hcount : ∀ src, (arrivals src ops).length < 4294967295) :
    ∃ st out, run (ReorderLinkControl.fresh vns lc) ops = some (st, out) ∧
      RunInv ops st out := by
  induction ops using List.reverseRecOn with
  | nil => exact ⟨_, _, rfl, RunInv_fresh vns lc⟩
  | append_singleton ops op ih =>
    have hcount1 : ∀ src, (arrivals src ops).length < 4294967295 := by
      intro src
      have := hcount src
      rw [arrivals_append, List.length_append] at this
      omega
    obtain ⟨st, out, hrun, hinv⟩ := ih hcount1
    rw [run_snoc, hrun]
    simp only
    cases op with
    | send req vn =>
      refine ⟨_, _, rfl, RunInv_of_eq ops _ st _ out _ ?_ (send_info st req vn) ?_ hinv⟩
      · intro src; rw [arrivals_append]; simp [arrivals]
      · intro v; unfold history; rw [send_input_buf, List.append_nil]
    | handle_event vn r =>
      have hc := hcount r.src
      rw [arrivals_snoc_handle_event, if_pos rfl, List.length_append] at hc
      obtain ⟨st1, he, hinv1⟩ := RunInv_handle_event ops st out vn r (by simpa using hc) hinv
      refine ⟨st1, out, ?_, hinv1⟩
      simp [step, he]
    | recv vn =>
      have key := history_recv st out vn
      simp only [step]
      cases hq : (st.recv vn).1 with
      | none =>
        rw [hq] at key
        refine ⟨_, _, rfl, RunInv_of_eq ops _ st _ out _ ?_ ?_ key hinv⟩
        · intro src; rw [arrivals_append]; simp [arrivals]
        · intro d
          unfold ReorderLinkControl.recv
          cases st.input_buf vn <;> exact ⟨rfl, rfl⟩
      | some req =>
        rw [hq] at key
        refine ⟨_, _, rfl, RunInv_of_eq ops _ st _ out _ ?_ ?_ key hinv⟩
        · intro src; rw [arrivals_append]; simp [arrivals]
        · intro d
          unfold ReorderLinkControl.recv
          cases st.input_buf vn <;> exact ⟨rfl, rfl⟩
    | setNotifyOnReceive f =>
      refine ⟨_, _, rfl, RunInv_of_eq ops _ st _ out _ ?_ (fun d => ⟨rfl, rfl⟩) ?_ hinv⟩
      · intro src; rw [arrivals_append]; simp [arrivals]
      · intro v; unfold history; rw [List.append_nil]; rfl
    | network sp sr =>
      refine ⟨_, _, rfl, RunInv_of_eq ops _ st _ out _ ?_ (fun d => ⟨rfl, rfl⟩) ?_ hinv⟩
      · intro src; rw [arrivals_append]; simp [arrivals]
      · intro v; unfold history; rw [List.append_nil]

theorem recv_eq_of_complete (A : List ReorderRequest) (recv N : Nat)
    (queue : List ReorderRequest) (hN : N < 4294967295)
    (hperm : (A.map (fun r => r.seq)).Perm (List.range N)) (hO : OrderInv A recv queue) :
    recv = N := by
  have hmem : ∀ j, j ∈ A.map (fun r => r.seq) ↔ j < N := by
    intro j
    rw [hperm.mem_iff, List.mem_range]
  have h1 : recv ≤ N := by
    by_contra hc
    have := (hmem N).mp (hO.below N (by omega))
    omega
  have h2 : ¬ recv < N := by
    intro hc
    obtain ⟨r, hr1, hr2⟩ := List.mem_map.mp ((hmem recv).mpr hc)
    rcases hO.arrived r hr1 with h | h
    · omega
    · rcases hO.queue_mem r h with h3 | h3
      · rw [h3] at hr2; simp only [sentinel] at hr2; omega
      · omega
  omega

theorem hyps_of_perm (A : List ReorderRequest) (N : Nat) (hN : N < 4294967295)
    (hperm : (A.map (fun r => r.seq)).Perm (List.range N)) :
    A.length < 4294967295 ∧ (A.map (fun r => r.seq)).Nodup ∧ ∀ r ∈ A, r.seq < 4294967295 := by
  refine ⟨?_, ?_, ?_⟩
  · have := hperm.length_eq
    rw [List.length_map, List.length_range] at this
    omega
  · exact hperm.nodup_iff.mpr (List.nodup_range N)
  · intro r hr
    have := hperm.mem_iff.mp (List.mem_map_of_mem (fun r => r.seq) hr)
    rw [List.mem_range] at this
    omega

/-- C1. In-order delivery of `ReorderLinkControl`: starting from a fresh controller, let
any sequence of calls be made in which every source contributes the sequence numbers
`0 .. N-1` exactly once each (`N < 2^32 - 1`), in any order and interleaved with other
sources (and with `send`, `recv` and handler registrations).  Then every call returns, and
for every source and virtual network the requests of that source appended to the input
queue (those `recv` has handed out, followed by those still queued) are exactly its
arrivals for that virtual network, in strictly increasing order of sequence number:
`0, 1, 2, ..` restricted to that virtual network.  In particular the requests that
successive `recv(vn)` calls return are, per source, in the order the sender numbered them. -/
theorem reorder_in_order_delivery (vns : Int) (lc : SimpleNetwork) (ops : List Op)
    (h : ∀ src : Int, ∃ N, N < 4294967295 ∧
      ((arrivals src ops).map (fun r => r.seq)).Perm (List.range N)) :
    ∃ st out, run (ReorderLinkControl.fresh vns lc) ops = some (st, out) ∧
      ∀ src vn : Int,
        ((history st out vn).filter (fun r => decide (r.src = src))).Pairwise
          (fun a b => a.seq < b.seq) ∧
        (∀ r, r ∈ (history st out vn).filter (fun r => decide (r.src = src)) ↔
          (r ∈ arrivals src ops ∧ r.vn = vn)) ∧
        ((history st out vn).filter (fun r => decide (r.src = src))).map (fun r => r.seq) =
          (List.range (arrivals src ops).length).filter
            (fun j => decide (∃ r ∈ arrivals src ops, r.seq = j ∧ r.vn = vn)) ∧
        ((handed_out vn out).filter (fun r => decide (r.src = src))).Pairwise
          (fun a b => a.seq < b.seq) := by
  have hcount : ∀ src, (arrivals src ops).length < 4294967295 := by
    intro src
    obtain ⟨N, hN, hperm⟩ := h src
    exact (hyps_of_perm _ N hN hperm).1
  obtain ⟨st, out, hrun, -, hF⟩ := run_inv vns lc ops hcount
  refine ⟨st, out, hrun, ?_⟩
  intro src vn
  obtain ⟨N, hN, hperm⟩ := h src
  obtain ⟨hlen, hnd, hlt⟩ := hyps_of_perm _ N hN hperm
  obtain ⟨hO, hH⟩ := hF src hnd hlt
  have hrecv := recv_eq_of_complete _ _ N _ hN hperm hO
  have hNlen : (arrivals src ops).length = N := by
    have := hperm.length_eq
    rw [List.length_map, List.length_range] at this
    exact this
  have hsorted := hH.sorted vn
  have hmem : ∀ r, r ∈ (history st out vn).filter (fun r => decide (r.src = src)) ↔
      (r ∈ arrivals src ops ∧ r.vn = vn) := by
    intro r
    have := hH.mem vn r
    simp only at this
    rw [this]
    constructor
    · rintro ⟨a, -, c⟩; exact ⟨a, c⟩
    · rintro ⟨a, c⟩
      refine ⟨a, ?_, c⟩
      rw [hrecv]
      have := hperm.mem_iff.mp (List.mem_map_of_mem (fun r => r.seq) a)
      rwa [List.mem_range] at this
  refine ⟨hsorted, hmem, ?_, ?_⟩
  · apply List.eq_of_perm_of_sorted (r := fun a b : Nat => a < b)
    · rw [List.perm_ext_iff_of_nodup]
      · intro j
        rw [List.mem_map, List.mem_filter, List.mem_range, decide_eq_true_eq]
        constructor
        · rintro ⟨r, hr1, hr2⟩
          have hr3 := (hmem r).mp hr1
          refine ⟨?_, r, hr3.1, hr2, hr3.2⟩
          have := hperm.mem_iff.mp (List.mem_map_of_mem (fun r => r.seq) hr3.1)
          rw [List.mem_range] at this
          omega
        · rintro ⟨-, r, hr1, hr2, hr3⟩
          exact ⟨r, (hmem r).mpr ⟨hr1, hr3⟩, hr2⟩
      · have : ((history st out vn).filter (fun r => decide (r.src = src))).map
            (fun r => r.seq) |>.Pairwise (fun a b => a < b) := by
          rw [List.pairwise_map]; exact hsorted
        exact this.imp (fun h => Nat.ne_of_lt h)
      · exact (List.nodup_range _).filter _
    · unfold List.Sorted
      rw [List.pairwise_map]; exact hsorted
    · exact (List.pairwise_lt_range _).filter _
  · have hsub : ((handed_out vn out).filter (fun r => decide (r.src = src))).Sublist
        ((history st out vn).filter (fun r => decide (r.src = src))) := by
      apply List.Sublist.filter
      unfold history
      exact List.sublist_append_left _ _
    exact hsorted.sublist hsub

theorem S5_calls_complete : ∀ src : Int, ∃ N, N < 4294967295 ∧
    ((arrivals src S5_calls).map (fun r => r.seq)).Perm (List.range N) := by
  intro src
  by_cases h7 : src = 7
  · subst h7
    exact ⟨3, by decide, by decide⟩
  · by_cases h9 : src = 9
    · subst h9
      exact ⟨2, by decide, by decide⟩
    · refine ⟨0, by decide, ?_⟩
      have h7' : ¬ (7 : Int) = src := fun e => h7 e.symm
      have h9' : ¬ (9 : Int) = src := fun e => h9 e.symm
      simp [arrivals, S5_calls, S5_request, h7', h9']

/-- Scenario S5: the two interleaved senders satisfy the hypothesis of in-order delivery,
so their requests are appended in order; `recv` hands out 7:0, 9:0, 9:1 and leaves 7:1,
7:2 queued. -/
theorem reorder_in_order_delivery_witness :
    (∀ src : Int, ∃ N, N < 4294967295 ∧
      ((arrivals src S5_calls).map (fun r => r.seq)).Perm (List.range N)) ∧
    (∃ st out, run (ReorderLinkControl.fresh 1 S5_link) S5_calls = some (st, out) ∧
      ∀ src vn : Int,
        ((history st out vn).filter (fun r => decide (r.src = src))).Pairwise
          (fun a b => a.seq < b.seq) ∧
        (∀ r, r ∈ (history st out vn).filter (fun r => decide (r.src = src)) ↔
          (r ∈ arrivals src S5_calls ∧ r.vn = vn)) ∧
        ((history st out vn).filter (fun r => decide (r.src = src))).map (fun r => r.seq) =
          (List.range (arrivals src S5_calls).length).filter
            (fun j => decide (∃ r ∈ arrivals src S5_calls, r.seq = j ∧ r.vn = vn)) ∧
        ((handed_out vn out).filter (fun r => decide (r.src = src))).Pairwise
          (fun a b => a.seq < b.seq)) ∧
    (run (ReorderLinkControl.fresh 1 S5_link) S5_calls).map
        (fun x => ((handed_out 0 x.2).map (fun r => (r.src, r.seq)),
                   (x.1.input_buf 0).map (fun r => (r.src, r.seq)))) =
      some ([(7, 0), (9, 0), (9, 1)], [(7, 1), (7, 2)]) :=
  ⟨S5_calls_complete, reorder_in_order_delivery 1 S5_link S5_calls S5_calls_complete,
   by decide⟩

theorem arrivals_take (src : Int) (ops : List Op) (n : Nat) :
    ∃ tl, arrivals src ops = arrivals src (ops.take n) ++ tl := by
  refine ⟨arrivals src (ops.drop n), ?_⟩
  rw [← arrivals_append, List.take_append_drop]

/-- C4. `ReorderLinkControl` loses nothing: if source `src` contributes each of the
sequence numbers `0 .. N-1` exactly once (`N < 2^32 - 1`) in any order (every other source
contributing fewer than `2^32 - 1` requests), then after every initial part of the calls
the expected sequence number of `src` is the smallest number that has not yet arrived, and
exactly the arrived requests with `seq` below it have been appended to an input queue, each
exactly once and to the queue of its virtual network; once all calls are made the expected
number is `N` and the queue of `src` holds only the dummy entry `0xFFFFFFFF`. -/
theorem reorder_loses_nothing (vns : Int) (lc : SimpleNetwork) (ops : List Op) (src : Int)
    (N : Nat) (hN : N < 4294967295)
    (hsrc : ((arrivals src ops).map (fun r => r.seq)).Perm (List.range N))
    (hothers : ∀ s : Int, (arrivals s ops).length < 4294967295) :
    (∀ n : Nat, ∃ st out,
      run (ReorderLinkControl.fresh vns lc) (ops.take n) = some (st, out) ∧
      (∀ j, j < (st.info src).recv → j ∈ (arrivals src (ops.take n)).map (fun r => r.seq)) ∧
      (st.info src).recv ∉ (arrivals src (ops.take n)).map (fun r => r.seq) ∧
      (∀ (vn : Int) (r : ReorderRequest), r.src = src →
        (history st out vn).count r =
          if r ∈ arrivals src (ops.take n) ∧ r.seq < (st.info src).recv ∧ r.vn = vn then 1
          else 0)) ∧
    (∃ st out, run (ReorderLinkControl.fresh vns lc) ops = some (st, out) ∧
      (st.info src).recv = N ∧ (st.info src).queue = [sentinel]) := by
  obtain ⟨hlen, hnd, hlt⟩ := hyps_of_perm _ N hN hsrc
  constructor
  · intro n
    have hcount : ∀ s : Int, (arrivals s (ops.take n)).length < 4294967295 := by
      intro s
      obtain ⟨tl, htl⟩ := arrivals_take s ops n
      have := hothers s
      rw [htl, List.length_append] at this
      omega
    obtain ⟨tl, htl⟩ := arrivals_take src ops n
    have hnd1 : ((arrivals src (ops.take n)).map (fun r => r.seq)).Nodup := by
      rw [htl, List.map_append] at hnd
      exact (List.nodup_append.mp hnd).1
    have hlt1 : ∀ r ∈ arrivals src (ops.take n), r.seq < 4294967295 := by
      intro r hr
      exact hlt r (by rw [htl]; exact List.mem_append_left _ hr)
    obtain ⟨st, out, hrun, -, hF⟩ := run_inv vns lc (ops.take n) hcount
    obtain ⟨hO, hH⟩ := hF src hnd1 hlt1
    refine ⟨st, out, hrun, hO.below, ?_, ?_⟩
    · intro hmem
      obtain ⟨r, hr1, hr2⟩ := List.mem_map.mp hmem
      rcases hO.arrived r hr1 with h | h
      · omega
      · rcases hO.queue_mem r h with h3 | h3
        · have := hlt1 r hr1
          rw [h3] at this; simp only [sentinel] at this; omega
        · omega
    · intro vn r hr
      have hc : (history st out vn).count r =
          ((history st out vn).filter (fun x => decide (x.src = src))).count r := by
        rw [List.count_filter]
        simp [hr]
      have hnodup : ((history st out vn).filter (fun x => decide (x.src = src))).Nodup :=
        (hH.sorted vn).imp (fun h e => by rw [e] at h; exact Nat.lt_irrefl _ h)
      have hm := hH.mem vn r
      simp only at hm
      rw [hc]
      split_ifs with hcond
      · exact List.count_eq_one_of_mem hnodup (hm.mpr hcond)
      · exact List.count_eq_zero_of_not_mem (fun hmem => hcond (hm.mp hmem))
  · obtain ⟨st, out, hrun, hP, hF⟩ := run_inv vns lc ops hothers
    obtain ⟨hO, -⟩ := hF src hnd hlt
    have hrecv := recv_eq_of_complete _ _ N _ hN hsrc hO
    refine ⟨st, out, hrun, hrecv, ?_⟩
    have hPs := hP src
    have hl : (st.info src).queue.length = 1 := by
      have h1 := hPs.count
      have h2 := hsrc.length_eq
      rw [List.length_map, List.length_range] at h2
      omega
    have hs := hPs.sentinel_mem
    match hq : (st.info src).queue, hl, hs with
    | [x], _, hs' =>
      have : sentinel = x := by simpa using hs'
      rw [this]

theorem S5_calls_count : ∀ s : Int, (arrivals s S5_calls).length < 4294967295 := by
  intro s
  obtain ⟨N, hN, hperm⟩ := S5_calls_complete s
  exact (hyps_of_perm _ N hN hperm).1

/-- Scenario S5: sender 7 contributes the numbers 0, 1, 2 once each; after all calls the
controller expects number 3 from it and its queue holds only the dummy entry. -/
theorem reorder_loses_nothing_witness :
    ((arrivals 7 S5_calls).map (fun r => r.seq)).Perm (List.range 3) ∧
    ∃ st out, run (ReorderLinkControl.fresh 1 S5_link) S5_calls = some (st, out) ∧
      (st.info 7).recv = 3 ∧ (st.info 7).queue = [sentinel] :=
  ⟨by decide,
   (reorder_loses_nothing 1 S5_link S5_calls 7 3 (by decide) (by decide) S5_calls_count).2⟩

/-! ### The send path -/

theorem handle_event_send_side (s s1 : ReorderLinkControl) (vn : Int) (r : ReorderRequest)
    (h : s.handle_event vn r = some s1) :
    s1.link_control = s.link_control ∧ ∀ d, (s1.info d).send = (s.info d).send := by
  unfold ReorderLinkControl.handle_event at h
  simp only at h
  split_ifs at h with hr
  · cases hd : drain (s.info r.src).queue (((s.info r.src).recv + 1) % 4294967296)
        (push_input s.input_buf r) with
    | none => rw [hd] at h; simp at h
    | some x =>
      obtain ⟨q, rc, buf⟩ := x
      rw [hd] at h
      simp only [Option.some.injEq] at h
      subst h
      refine ⟨by rw [notify_link_control], ?_⟩
      intro d
      rw [notify_info]
      by_cases hd' : d = r.src
      · subst hd'; simp [ReorderLinkControl.info]
      · simp [ReorderLinkControl.info, Function.update_noteq hd']
  · simp only [Option.some.injEq] at h
    subst h
    refine ⟨rfl, ?_⟩
    intro d
    by_cases hd' : d = r.src
    · subst hd'; simp [ReorderLinkControl.info]
    · simp [ReorderLinkControl.info, Function.update_noteq hd']

theorem send_accepted (s : ReorderLinkControl) (req : Request) (vn : Int)
    (h1 : vn < s.vns)
    (h2 : s.link_control.spaceToSend vn (size_t_to_int req.size_in_bits) = true) :
    s.send req vn =
      (s.link_control.sendReturns
          { ReorderRequest.ofRequest req 0 with seq := (s.info req.dest).send } vn,
       { s with
         reorder_info := Function.update s.reorder_info req.dest
           (some { s.info req.dest with send := ((s.info req.dest).send + 1) % 4294967296 }),
         link_control := { s.link_control with
           sent := s.link_control.sent ++
             [({ ReorderRequest.ofRequest req 0 with seq := (s.info req.dest).send }, vn)] } }) := by
  unfold ReorderLinkControl.send
  have h1' : ¬ vn ≥ s.vns := by omega
  simp only [h1', if_false, h2, Bool.not_true, Bool.false_eq_true]
  rfl

theorem send_rejected (s : ReorderLinkControl) (req : Request) (vn : Int)
    (h : vn ≥ s.vns ∨ s.link_control.spaceToSend vn (size_t_to_int req.size_in_bits) = false) :
    s.send req vn = (false, s) := by
  unfold ReorderLinkControl.send
  rcases h with h | h
  · simp only [h, if_true]
  · split_ifs
    · rfl
    · rfl
    · simp_all

theorem SendInv_send (s : ReorderLinkControl) (req : Request) (vn : Int) (h : SendInv s) :
    SendInv (s.send req vn).2 := by
  by_cases h1 : vn < s.vns
  · cases h2 : s.link_control.spaceToSend vn (size_t_to_int req.size_in_bits) with
    | false =>
      rw [send_rejected s req vn (Or.inr h2)]
      exact h
    | true =>
      rw [send_accepted s req vn h1 h2]
      intro dest
      obtain ⟨ha, hb⟩ := h dest
      by_cases hd : req.dest = dest
      · subst hd
        have hf : forwarded
            { s with
              reorder_info := Function.update s.reorder_info req.dest
                (some { s.info req.dest with
                  send := ((s.info req.dest).send + 1) % 4294967296 }),
              link_control := { s.link_control with
                sent := s.link_control.sent ++
                  [({ ReorderRequest.ofRequest req 0 with seq := (s.info req.dest).send },
                    vn)] } } req.dest =
            forwarded s req.dest ++
              [{ ReorderRequest.ofRequest req 0 with seq := (s.info req.dest).send }] := by
          simp [forwarded, ReorderRequest.ofRequest]
        rw [hf]
        constructor
        · simp only [List.map_append, List.length_append, List.length_singleton,
            List.range_succ, List.map_cons, List.map_nil, ha, hb]
        · simp only [List.length_append, List.length_singleton, ReorderLinkControl.info,
            Function.update_same]
          have hb' := hb
          simp only [ReorderLinkControl.info] at hb'
          rw [hb']
          omega
      · have hf : forwarded
            { s with
              reorder_info := Function.update s.reorder_info req.dest
                (some { s.info req.dest with
                  send := ((s.info req.dest).send + 1) % 4294967296 }),
              link_control := { s.link_control with
                sent := s.link_control.sent ++
                  [({ ReorderRequest.ofRequest req 0 with seq := (s.info req.dest).send },
                    vn)] } } dest = forwarded s dest := by
          simp [forwarded, ReorderRequest.ofRequest, hd]
        rw [hf]
        refine ⟨ha, ?_⟩
        have hd' : dest ≠ req.dest := fun e => hd e.symm
        simp only [ReorderLinkControl.info, Function.update_noteq hd']
        exact hb
  · rw [send_rejected s req vn (Or.inl (by omega))]
    exact h

theorem SendInv_of_eq (s s1 : ReorderLinkControl)
    (h1 : s1.link_control.sent = s.link_control.sent)
    (h2 : ∀ d, (s1.info d).send = (s.info d).send) (h : SendInv s) : SendInv s1 := by
  intro dest
  have hf : forwarded s1 dest = forwarded s dest := by
    unfold forwarded; rw [h1]
  rw [hf, h2 dest]
  exact h dest

theorem SendInv_step (s s1 : ReorderLinkControl) (op : Op)
    (out : List (Int × ReorderRequest)) (hs : step s op = some (s1, out)) (h : SendInv s) :
    SendInv s1 := by
  cases op with
  | send req vn =>
    simp only [step, Option.some.injEq, Prod.mk.injEq] at hs
    rw [← hs.1]
    exact SendInv_send s req vn h
  | handle_event vn r =>
    simp only [step] at hs
    cases he : s.handle_event vn r with
    | none => rw [he] at hs; simp at hs
    | some s2 =>
      rw [he] at hs
      simp only [Option.map_some', Option.some.injEq, Prod.mk.injEq] at hs
      rw [← hs.1]
      have := handle_event_send_side s s2 vn r he
      exact SendInv_of_eq s s2 (by rw [this.1]) this.2 h
  | recv vn =>
    have hst : s1 = (s.recv vn).2 := by
      simp only [step] at hs
      cases hq : (s.recv vn).1 with
      | none => rw [hq] at hs; simp only [Option.some.injEq, Prod.mk.injEq] at hs; exact hs.1.symm
      | some x => rw [hq] at hs; simp only [Option.some.injEq, Prod.mk.injEq] at hs; exact hs.1.symm
    rw [hst]
    apply SendInv_of_eq s _ _ _ h
    · unfold ReorderLinkControl.recv
      cases s.input_buf vn <;> rfl
    · intro d
      unfold ReorderLinkControl.recv
      cases s.input_buf vn <;> rfl
  | setNotifyOnReceive f =>
    simp only [step, Option.some.injEq, Prod.mk.injEq] at hs
    rw [← hs.1]
    exact SendInv_of_eq s _ rfl (fun _ => rfl) h
  | network sp sr =>
    simp only [step, Option.some.injEq, Prod.mk.injEq] at hs
    rw [← hs.1]
    exact SendInv_of_eq s _ rfl (fun _ => rfl) h

theorem SendInv_run (ops : List Op) (s s1 : ReorderLinkControl)
    (out : List (Int × ReorderRequest)) (hs : run s ops = some (s1, out)) (h : SendInv s) :
    SendInv s1 := by
  induction ops generalizing s out with
  | nil =>
    simp only [run, Option.some.injEq, Prod.mk.injEq] at hs
    rw [← hs.1]; exact h
  | cons op ops ih =>
    simp only [run] at hs
    cases h1 : step s op with
    | none => rw [h1] at hs; simp at hs
    | some x =>
      obtain ⟨s2, out2⟩ := x
      rw [h1] at hs
      simp only at hs
      cases h2 : run s2 ops with
      | none => rw [h2] at hs; simp at hs
      | some y =>
        obtain ⟨s3, out3⟩ := y
        rw [h2] at hs
        simp only [Option.some.injEq, Prod.mk.injEq] at hs
        rw [hs.1] at h2
        exact ih s2 out3 h2 (SendInv_step s s2 op out2 h1 h)

theorem SendInv_fresh (vns : Int) (lc : SimpleNetwork) (hlc : lc.sent = []) :
    SendInv (ReorderLinkControl.fresh vns lc) := by
  intro dest
  simp [forwarded, ReorderLinkControl.fresh, hlc, ReorderLinkControl.info, ReorderInfo.fresh]

/-- C3. `ReorderLinkControl.send` rejects without side effects: if `vn >= vns`, or the
`spaceToSend(vn, req.size_in_bits)` of the wrapped link controller is false, then `send`
returns false and leaves the whole state as it was: the `send` of the wrapped controller is
not called, no sequence counter or reorder-table entry is created or changed, and every
later call of `send` behaves as it would have without the rejected call. -/
theorem reorder_send_rejects_without_side_effects (s : ReorderLinkControl) (req : Request)
    (vn : Int)
    (h : vn ≥ s.vns ∨ s.link_control.spaceToSend vn (size_t_to_int req.size_in_bits) = false) :
    (s.send req vn).1 = false ∧
    (s.send req vn).2 = s ∧
    (s.send req vn).2.link_control.sent = s.link_control.sent ∧
    (s.send req vn).2.reorder_info = s.reorder_info ∧
    (∀ d, (s.send req vn).2.info d = s.info d) ∧
    (∀ (req2 : Request) (vn2 : Int), (s.send req vn).2.send req2 vn2 = s.send req2 vn2) := by
  rw [send_rejected s req vn h]
  exact ⟨rfl, rfl, rfl, rfl, fun _ => rfl, fun _ _ => rfl⟩

/-- C2. `ReorderLinkControl.send` numbers requests per destination: in any state reached
from a fresh controller by any sequence of calls (sends to any destination, rejected
sends, arrivals, `recv`), the requests forwarded to the wrapped link controller for
destination `dest` carry, in the order of forwarding, the sequence numbers
`0, 1, 2, ..` modulo `2^32`; below `2^32` forwarded requests they are `0, 1, 2, ..` without
a gap.  A send that passes both checks forwards exactly one request, which carries the
current counter of its destination.  Such a state is reached by every sequence of calls in
which each source contributes fewer than `2^32 - 1` arrivals. -/
theorem reorder_send_numbering (vns : Int) (lc : SimpleNetwork) (ops : List Op) (dest : Int)
    (hlc : lc.sent = []) :
    (∀ (st : ReorderLinkControl) (out : List (Int × ReorderRequest)),
      run (ReorderLinkControl.fresh vns lc) ops = some (st, out) →
      (forwarded st dest).map (fun r => r.seq) =
        (List.range (forwarded st dest).length).map (fun k => k % 4294967296) ∧
      ((forwarded st dest).length ≤ 4294967296 →
        (forwarded st dest).map (fun r => r.seq) = List.range (forwarded st dest).length) ∧
      (∀ (req : Request) (vn : Int), req.dest = dest → vn < st.vns →
        st.link_control.spaceToSend vn (size_t_to_int req.size_in_bits) = true →
        ∃ my_req,
          (st.send req vn).2.link_control.sent = st.link_control.sent ++ [(my_req, vn)] ∧
          my_req.dest = dest ∧ my_req.seq = (forwarded st dest).length % 4294967296 ∧
          forwarded (st.send req vn).2 dest = forwarded st dest ++ [my_req])) ∧
    ((∀ src : Int, (arrivals src ops).length < 4294967295) →
      ∃ st out, run (ReorderLinkControl.fresh vns lc) ops = some (st, out)) := by
  constructor
  · intro st out hrun
    have hinv := SendInv_run ops _ st out hrun (SendInv_fresh vns lc hlc)
    obtain ⟨ha, hb⟩ := hinv dest
    refine ⟨ha, ?_, ?_⟩
    · intro hlen
      rw [ha]
      have hid : ∀ k ∈ List.range (forwarded st dest).length, k % 4294967296 = id k := by
        intro k hk
        rw [List.mem_range] at hk
        exact Nat.mod_eq_of_lt (by omega)
      rw [List.map_congr_left hid, List.map_id]
    · intro req vn hd h1 h2
      rw [send_accepted st req vn h1 h2]
      refine ⟨_, rfl, ?_, ?_, ?_⟩
      · simp [ReorderRequest.ofRequest, hd]
      · simp only
        rw [hd, hb]
      · simp [forwarded, ReorderRequest.ofRequest, hd]
  · intro hcount
    obtain ⟨st, out, hrun, -⟩ := run_inv vns lc ops hcount
    exact ⟨st, out, hrun⟩

/-- Scenario S5: a 128-bit request finds no space in the wrapped link controller, and a
request for virtual network 3 of a controller with one virtual network is out of range;
both are rejected and leave the fresh controller as it was. -/
theorem reorder_send_rejects_without_side_effects_witness :
    S5_link.spaceToSend 0 (size_t_to_int (S5_submit 1 128).size_in_bits) = false ∧
    ((ReorderLinkControl.fresh 1 S5_link).send (S5_submit 1 128) 0).1 = false ∧
    ((ReorderLinkControl.fresh 1 S5_link).send (S5_submit 1 64) 3).1 = false ∧
    ((ReorderLinkControl.fresh 1 S5_link).send (S5_submit 1 64) 3).2.link_control.sent = [] :=
  ⟨by decide,
   (reorder_send_rejects_without_side_effects (ReorderLinkControl.fresh 1 S5_link)
      (S5_submit 1 128) 0 (Or.inr (by decide))).1,
   (reorder_send_rejects_without_side_effects (ReorderLinkControl.fresh 1 S5_link)
      (S5_submit 1 64) 3 (Or.inl (by decide))).1,
   (reorder_send_rejects_without_side_effects (ReorderLinkControl.fresh 1 S5_link)
      (S5_submit 1 64) 3 (Or.inl (by decide))).2.2.1⟩

theorem S5_sends_count : ∀ s : Int, (arrivals s S5_sends).length < 4294967295 := by
  intro s
  by_cases h9 : (9 : Int) = s
  · subst h9; decide
  · simp [arrivals, S5_sends, S5_request, h9]

/-- Scenario S5, send side: the calls all return, the two accepted sends to endpoint 1 are
forwarded with the numbers 0 and 1, and so are the two to endpoint 2, whatever is rejected
or arrives in between. -/
theorem reorder_send_numbering_witness :
    S5_link.sent = [] ∧
    (∀ src : Int, (arrivals src S5_sends).length < 4294967295) ∧
    (∃ st out, run (ReorderLinkControl.fresh 1 S5_link) S5_sends = some (st, out) ∧
      (forwarded st 1).map (fun r => r.seq) =
        (List.range (forwarded st 1).length).map (fun k => k % 4294967296)) ∧
    (run (ReorderLinkControl.fresh 1 S5_link) S5_sends).map
        (fun x => ((forwarded x.1 1).map (fun r => r.seq),
                   (forwarded x.1 2).map (fun r => r.seq))) = some ([0, 1], [0, 1]) := by
  refine ⟨rfl, S5_sends_count, ?_, by decide⟩
  obtain ⟨st, out, hrun⟩ :=
    (reorder_send_numbering 1 S5_link S5_sends 1 rfl).2 S5_sends_count
  exact ⟨st, out, hrun, ((reorder_send_numbering 1 S5_link S5_sends 1 rfl).1 st out hrun).1⟩

/-! ## Legacy dragonfly: proofs -/

namespace topo_dragonfly_legacy

theorem port_for_group_eq_documented (t : topo_dragonfly_legacy) (group : Nat)
    (hg : group ≠ t.group_id) :
    t.port_for_group group = some (t.documented_port_toward_group group) := by
  unfold port_for_group router_to_group documented_port_toward_group link_index port_for_router
  rcases Nat.lt_or_gt_of_ne hg with h | h
  · simp only [h, if_true]
    split_ifs <;> first | rfl | omega
  · have h1 : ¬ group < t.group_id := by omega
    simp only [h1, if_false, h, if_true]
    split_ifs <;> first | rfl | omega

theorem route_eq_documented (t : topo_dragonfly_legacy) (port vc : Int)
    (ev : topo_dragonfly_legacy_event) :
    t.route port vc ev = some
      { (if u32 port ≥ t.params.p + t.params.a - 1 then { ev with vc := vc + 1 } else ev) with
        next_port := (t.documented_next_port ev.dest : Int) } := by
  have hd : (if u32 port ≥ t.params.p + t.params.a - 1 then
      ({ ev with vc := vc + 1 } : topo_dragonfly_legacy_event) else ev).dest = ev.dest := by
    split_ifs <;> rfl
  unfold route
  simp only [hd]
  unfold documented_next_port
  by_cases h1 : ev.dest.group = t.group_id
  · by_cases h2 : ev.dest.router = t.router_id
    · simp [h1, h2]
    · simp only [h1, h2, ne_eq, not_true_eq_false, if_false, not_false_eq_true, if_true,
        port_for_router]
      have : (if ev.dest.router > t.router_id then t.params.p + ev.dest.router - 1
          else t.params.p + ev.dest.router) =
          (if ev.dest.router < t.router_id then t.params.p + ev.dest.router
          else t.params.p + ev.dest.router - 1) := by
        split_ifs <;> omega
      simp only [this]
  · by_cases h3 : ev.dest.mid_group = t.group_id
    · simp only [h1, h3, ne_eq, not_false_eq_true, if_true, not_true_eq_false, if_false,
        port_for_group_eq_documented t _ h1]
    · have h3' : ¬ t.group_id = ev.dest.mid_group := fun h => h3 h.symm
      simp only [h1, h3, h3', ne_eq, not_false_eq_true, if_true, if_false,
        port_for_group_eq_documented t _ h3]

theorem u32_of_nonneg (x : Int) (h0 : 0 ≤ x) (h1 : x < 4294967296) : u32 x = x.toNat := by
  unfold u32
  rw [Int.emod_eq_of_lt h0 h1]

theorem link_index_lt (t : topo_dragonfly_legacy) (x : Nat) (hx : x ≠ t.group_id)
    (hxg : x < t.params.g) (hgid : t.group_id < t.params.g)
    (hg : t.params.g ≤ t.params.a * t.params.h + 1) :
    t.link_index x < t.params.a * t.params.h := by
  unfold link_index
  split_ifs <;> omega

theorem documented_port_toward_group_lt (t : topo_dragonfly_legacy) (x : Nat)
    (hx : x ≠ t.group_id) (hxg : x < t.params.g) (hgid : t.group_id < t.params.g)
    (hrid : t.router_id < t.params.a) (hh : 1 ≤ t.params.h)
    (hg : t.params.g ≤ t.params.a * t.params.h + 1) :
    t.documented_port_toward_group x < t.params.p + t.params.a - 1 + t.params.h := by
  have hidx := link_index_lt t x hx hxg hgid hg
  have hown : t.link_index x / t.params.h < t.params.a :=
    (Nat.div_lt_iff_lt_mul hh).mpr hidx
  have hslot : t.link_index x % t.params.h < t.params.h := Nat.mod_lt _ hh
  unfold documented_port_toward_group
  simp only
  split_ifs <;> omega

theorem port_for_router_range (t : topo_dragonfly_legacy) (r : Nat) (hr : r ≠ t.router_id)
    (h1 : r < t.params.a) (h2 : t.router_id < t.params.a) :
    t.params.p ≤ t.port_for_router r ∧ t.port_for_router r < t.params.p + t.params.a - 1 := by
  simp only [port_for_router]
  split_ifs <;> omega

theorem decode_encode (p a G R q : Nat) (hR : R < a) (hq : q < p) :
    (G * (a * p) + R * p + q) / (p * a) = G ∧
    ((G * (a * p) + R * p + q) % (p * a)) / p = R ∧
    (G * (a * p) + R * p + q) % p = q := by
  have hp : 0 < p := by omega
  have ha : 0 < a := by omega
  have hpa : 0 < p * a := Nat.mul_pos hp ha
  have h1 : R * p + q < p * a := by
    have h2 : (R + 1) * p ≤ a * p := Nat.mul_le_mul_right p hR
    have h3 : (R + 1) * p = R * p + p := by ring
    have h4 : a * p = p * a := Nat.mul_comm a p
    omega
  have e1 : G * (a * p) + R * p + q = (R * p + q) + (p * a) * G := by ring
  have e2 : R * p + q = q + p * R := by ring
  have e3 : G * (a * p) + R * p + q = q + p * (G * a + R) := by ring
  refine ⟨?_, ?_, ?_⟩
  · rw [e1, Nat.add_mul_div_left _ _ hpa, Nat.div_eq_of_lt h1, Nat.zero_add]
  · rw [e1, Nat.add_mul_mod_self_left, Nat.mod_eq_of_lt h1, e2,
      Nat.add_mul_div_left _ _ hp, Nat.div_eq_of_lt hq, Nat.zero_add]
  · rw [e3, Nat.add_mul_mod_self_left, Nat.mod_eq_of_lt hq]

theorem encode_decode (p a g n : Nat) (hn : n < g * a * p) :
    n / (p * a) < g ∧ (n % (p * a)) / p < a ∧ n % p < p ∧
    n / (p * a) * a * p + (n % (p * a)) / p * p + n % p = n := by
  have hp : 0 < p := by
    rcases Nat.eq_zero_or_pos p with h | h
    · rw [h] at hn; simp at hn
    · exact h
  have ha : 0 < a := by
    rcases Nat.eq_zero_or_pos a with h | h
    · rw [h] at hn; simp at hn
    · exact h
  have hpa : 0 < p * a := Nat.mul_pos hp ha
  have h1 : n / (p * a) < g := by
    rw [Nat.div_lt_iff_lt_mul hpa]
    have : g * (p * a) = g * a * p := by ring
    omega
  have h2 : (n % (p * a)) / p < a := by
    rw [Nat.div_lt_iff_lt_mul hp]
    have := Nat.mod_lt n hpa
    have h3 : a * p = p * a := Nat.mul_comm a p
    omega
  have h4 : n % (p * a) % p = n % p := Nat.mod_mul_right_mod n p a
  have h5 := Nat.div_add_mod n (p * a)
  have h6 := Nat.div_add_mod (n % (p * a)) p
  have h7 : n / (p * a) * a * p = p * a * (n / (p * a)) := by ring
  have h8 : (n % (p * a)) / p * p = p * ((n % (p * a)) / p) := by ring
  refine ⟨h1, h2, Nat.mod_lt n hp, ?_⟩
  rw [h7, h8, ← h4]
  omega

theorem idToLocation_of_nonneg (t : topo_dragonfly_legacy) (id : Int) (loc : dgnflyAddr)
    (h0 : 0 ≤ id) (h1 : id < 2147483648) :
    t.idToLocation id loc =
      { group := id.toNat / (t.params.p * t.params.a), mid_group := loc.mid_group,
        router := (id.toNat % (t.params.p * t.params.a)) / t.params.p,
        host := id.toNat % t.params.p } := by
  have hne : id ≠ INIT_BROADCAST_ADDR := by
    unfold INIT_BROADCAST_ADDR
    omega
  unfold idToLocation
  rw [if_neg hne, u32_of_nonneg id h0 (by omega)]

end topo_dragonfly_legacy

open topo_dragonfly_legacy

/-- C7. Endpoint ids of the legacy dragonfly round-trip through the address decoding: for
a router with `router_id < a` and a host port `port < p`, `idToLocation (getEndpointID port)`
gives the router's group, the router and the port; conversely every id in `[0, g*a*p)`
decodes to `(group, router, host)` with `router < a`, `host < p` and
`group*a*p + router*p + host = id`.  Ids are C `int`s (below `2^31`). -/
theorem dragonfly_endpoint_id_roundtrip (t : topo_dragonfly_legacy) (loc : dgnflyAddr) :
    (∀ port : Int, t.router_id < t.params.a → 0 ≤ port → port < (t.params.p : Int) →
      t.getEndpointID port < 2147483648 →
      (t.idToLocation (t.getEndpointID port) loc).group = t.group_id ∧
      (t.idToLocation (t.getEndpointID port) loc).router = t.router_id ∧
      ((t.idToLocation (t.getEndpointID port) loc).host : Int) = port) ∧
    (∀ id : Int, 0 ≤ id → id < ((t.params.g * t.params.a * t.params.p : Nat) : Int) →
      id < 2147483648 →
      (t.idToLocation id loc).group < t.params.g ∧
      (t.idToLocation id loc).router < t.params.a ∧
      (t.idToLocation id loc).host < t.params.p ∧
      (((t.idToLocation id loc).group * t.params.a * t.params.p +
        (t.idToLocation id loc).router * t.params.p + (t.idToLocation id loc).host : Nat) : Int)
        = id) := by
  constructor
  · intro port hr hp0 hp1 hint
    have hq : port.toNat < t.params.p := by omega
    have hE : t.getEndpointID port =
        ((t.group_id * (t.params.a * t.params.p) + t.router_id * t.params.p + port.toNat : Nat)
          : Int) := by
      unfold getEndpointID
      omega
    have hE0 : 0 ≤ t.getEndpointID port := by rw [hE]; exact Int.ofNat_nonneg _
    rw [idToLocation_of_nonneg t _ loc hE0 hint]
    simp only [hE, Int.toNat_ofNat]
    obtain ⟨h1, h2, h3⟩ := decode_encode t.params.p t.params.a t.group_id t.router_id
      port.toNat hr hq
    refine ⟨h1, h2, ?_⟩
    rw [h3]
    omega
  · intro id h0 h1 hint
    rw [idToLocation_of_nonneg t id loc h0 hint]
    have hn : id.toNat < t.params.g * t.params.a * t.params.p := by omega
    obtain ⟨e1, e2, e3, e4⟩ := encode_decode t.params.p t.params.a t.params.g id.toNat hn
    refine ⟨e1, e2, e3, ?_⟩
    simp only
    rw [e4]
    omega

/-- The round trip at router 1 of group 2 in scenario S3 (host port 3 has endpoint id 39),
and the decoding of id 79. -/
theorem dragonfly_endpoint_id_roundtrip_witness :
    ((S3 2 1).idToLocation ((S3 2 1).getEndpointID 3) ⟨0, 0, 0, 0⟩).group = 2 ∧
    ((S3 2 1).idToLocation ((S3 2 1).getEndpointID 3) ⟨0, 0, 0, 0⟩).router = 1 ∧
    (((S3 2 1).idToLocation ((S3 2 1).getEndpointID 3) ⟨0, 0, 0, 0⟩).host : Int) = 3 ∧
    ((S3 2 1).idToLocation 79 ⟨0, 0, 0, 0⟩).router < 4 :=
  ⟨((dragonfly_endpoint_id_roundtrip (S3 2 1) ⟨0, 0, 0, 0⟩).1 3
      (by decide) (by decide) (by decide) (by decide)).1,
   ((dragonfly_endpoint_id_roundtrip (S3 2 1) ⟨0, 0, 0, 0⟩).1 3
      (by decide) (by decide) (by decide) (by decide)).2.1,
   ((dragonfly_endpoint_id_roundtrip (S3 2 1) ⟨0, 0, 0, 0⟩).1 3
      (by decide) (by decide) (by decide) (by decide)).2.2,
   ((dragonfly_endpoint_id_roundtrip (S3 2 1) ⟨0, 0, 0, 0⟩).2 79
      (by decide) (by decide) (by decide)).2.1⟩

/-- C10. The legacy dragonfly `route` changes the VC of the packet only when the arrival
port is a global port (`port >= p + a - 1`), and then sets it to `in_vc + 1`; on arrival
over a host or intra-group port the VC is unchanged.  Hence, called with `in_vc` equal to
the current VC of the packet, `route` never decreases the VC. -/
theorem dragonfly_route_vc (t : topo_dragonfly_legacy) (port vc : Int)
    (ev : topo_dragonfly_legacy_event) (hport : 0 ≤ port ∧ port < 2147483648) :
    ∃ ev1, t.route port vc ev = some ev1 ∧
      (((t.params.p + t.params.a - 1 : Nat) : Int) ≤ port → ev1.vc = vc + 1) ∧
      (port < ((t.params.p + t.params.a - 1 : Nat) : Int) → ev1.vc = ev.vc) ∧
      (vc = ev.vc → ev.vc ≤ ev1.vc) := by
  refine ⟨_, route_eq_documented t port vc ev, ?_, ?_, ?_⟩
  · intro h
    have h1 : u32 port ≥ t.params.p + t.params.a - 1 := by
      rw [u32_of_nonneg port hport.1 (by omega)]
      omega
    simp only [if_pos h1]
  · intro h
    have h1 : ¬ u32 port ≥ t.params.p + t.params.a - 1 := by
      rw [u32_of_nonneg port hport.1 (by omega)]
      omega
    simp only [if_neg h1]
  · intro h
    by_cases h1 : u32 port ≥ t.params.p + t.params.a - 1
    · simp only [if_pos h1]
      omega
    · simp only [if_neg h1]
      exact le_refl _

/-- In scenario S3 a packet with VC 0 that arrives over global port 7 leaves `route` with
VC 1, and one that arrives over intra-group port 4 keeps VC 0. -/
theorem dragonfly_route_vc_witness :
    (∃ ev1, (S3 4 0).route 7 0 S3_event = some ev1 ∧ ev1.vc = 1) ∧
    (∃ ev1, (S3 0 1).route 4 0 S3_event = some ev1 ∧ ev1.vc = 0) := by
  constructor
  · obtain ⟨ev1, h1, h2, _, _⟩ := dragonfly_route_vc (S3 4 0) 7 0 S3_event (by decide)
    exact ⟨ev1, h1, h2 (by decide)⟩
  · obtain ⟨ev1, h1, _, h3, _⟩ := dragonfly_route_vc (S3 0 1) 4 0 S3_event (by decide)
    exact ⟨ev1, h1, h3 (by decide)⟩

/-- C6. The legacy dragonfly `route` never selects a port outside `[0, k)`: with
`p, a, h >= 1`, `k >= p + a - 1 + h`, `g <= a*h + 1`, a router with `group_id < g` and
`router_id < a`, and an event whose destination is the decoding of an id in `[0, g*a*p)`
with a `mid_group < g`, `route` returns and sets `next_port` to a value in `[0, k)`. -/
theorem dragonfly_route_port_in_range (t : topo_dragonfly_legacy) (port vc : Int)
    (ev : topo_dragonfly_legacy_event) (id : Int) (loc : dgnflyAddr) (m : Nat)
    (hp : 1 ≤ t.params.p) (ha : 1 ≤ t.params.a) (hh : 1 ≤ t.params.h)
    (hk : t.params.p + t.params.a - 1 + t.params.h ≤ t.params.k)
    (hg : t.params.g ≤ t.params.a * t.params.h + 1)
    (hgid : t.group_id < t.params.g) (hrid : t.router_id < t.params.a)
    (hid : 0 ≤ id ∧ id < ((t.params.g * t.params.a * t.params.p : Nat) : Int))
    (hint : id < 2147483648) (hm : m < t.params.g)
    (hev : ev.dest = { t.idToLocation id loc with mid_group := m }) :
    ∃ ev1, t.route port vc ev = some ev1 ∧ 0 ≤ ev1.next_port ∧
      ev1.next_port < (t.params.k : Int) := by
  refine ⟨_, route_eq_documented t port vc ev, Int.ofNat_nonneg _, ?_⟩
  have hn : id.toNat < t.params.g * t.params.a * t.params.p := by omega
  obtain ⟨e1, e2, e3, _⟩ := encode_decode t.params.p t.params.a t.params.g id.toNat hn
  have hdest : ev.dest = ⟨id.toNat / (t.params.p * t.params.a), m,
      (id.toNat % (t.params.p * t.params.a)) / t.params.p, id.toNat % t.params.p⟩ := by
    rw [hev, idToLocation_of_nonneg t id loc hid.1 hint]
  have hlt : t.documented_next_port ev.dest < t.params.k := by
    rw [hdest]
    unfold documented_next_port
    simp only
    split_ifs with c1 c2 c3 c4
    · have := documented_port_toward_group_lt t _ c1 e1 hgid hrid hh hg
      omega
    · have c2' : m ≠ t.group_id := fun h => c2 h.symm
      have := documented_port_toward_group_lt t m c2' hm hgid hrid hh hg
      omega
    · omega
    · omega
    · omega
  simp only
  exact_mod_cast hlt

/-- In scenario S3 the packet for endpoint 79 is sent by router 0 of group 0 to a port
below 9. -/
theorem dragonfly_route_port_in_range_witness :
    ∃ ev1, (S3 0 0).route 0 0 S3_event = some ev1 ∧ 0 ≤ ev1.next_port ∧ ev1.next_port < 9 :=
  dragonfly_route_port_in_range (S3 0 0) 0 0 S3_event 79 ⟨0, 0, 0, 0⟩ 4
    (by decide) (by decide) (by decide) (by decide) (by decide) (by decide) (by decide)
    (by decide) (by decide) (by decide) (by decide)

/-- C5. The legacy dragonfly `route` takes the documented decision for every event: when
the destination group is another group, the next port is `port_for_group mid_group` while
the router is not in `mid_group` and `port_for_group dest.group` once it is (with
`mid_group = dest.group`, as minimal routing stamps it, always the port toward the
destination group); in the destination group it is the intra-group port
`port_for_router dest.router`, and at the destination router the host port `dest.host`.
The port toward a group is a global port when this router owns the link and otherwise the
intra-group port of the owning router.  In scenario S3 (`p = 4, a = 4, h = 2, g = 5`,
group 0 router 0, destination in group 4) the packet takes intra-group port 4 to the
owning router 1, which sends it out on global port 8. -/
theorem dragonfly_route_documented_decision :
    (∀ (t : topo_dragonfly_legacy) (port vc : Int) (ev : topo_dragonfly_legacy_event),
      ∃ ev1, t.route port vc ev = some ev1 ∧
        (some ev1.next_port =
          if ev.dest.group ≠ t.group_id then
            (if ev.dest.mid_group ≠ t.group_id then
              (t.port_for_group ev.dest.mid_group).map Int.ofNat
            else (t.port_for_group ev.dest.group).map Int.ofNat)
          else if ev.dest.router ≠ t.router_id then
            some (Int.ofNat (t.port_for_router ev.dest.router))
          else some (Int.ofNat ev.dest.host)) ∧
        ev1.next_port = Int.ofNat (t.documented_next_port ev.dest) ∧
        (ev.dest.mid_group = ev.dest.group → ev.dest.group ≠ t.group_id →
          some ev1.next_port = (t.port_for_group ev.dest.group).map Int.ofNat)) ∧
    (∀ (t : topo_dragonfly_legacy) (x : Nat), x ≠ t.group_id →
      ∃ owner, t.router_to_group x = some owner ∧
        (owner = t.router_id →
          ∃ j, t.port_for_group x = some (t.params.p + t.params.a - 1 + j) ∧
            (1 ≤ t.params.h → j < t.params.h)) ∧
        (owner ≠ t.router_id →
          t.port_for_group x = some (t.port_for_router owner) ∧
          (owner < t.params.a → t.router_id < t.params.a →
            t.params.p ≤ t.port_for_router owner ∧
            t.port_for_router owner < t.params.p + t.params.a - 1))) ∧
    (∀ id : Int, 64 ≤ id → id < 80 →
      ∃ ev0 ev1 ev2, (S3 0 0).process_input (S3_packet id) [] = some ev0 ∧
        ev0.dest.group = 4 ∧
        (S3 0 0).route 0 ev0.vc ev0 = some ev1 ∧ ev1.next_port = 4 ∧
        (S3 0 0).router_to_group 4 = some 1 ∧ (S3 0 0).port_for_router 1 = 4 ∧
        (S3 0 1).route 4 ev1.vc ev1 = some ev2 ∧ ev2.next_port = 8) := by
  refine ⟨?_, ?_, ?_⟩
  · intro t port vc ev
    refine ⟨_, route_eq_documented t port vc ev, ?_, rfl, ?_⟩
    · simp only [documented_next_port]
      by_cases h1 : ev.dest.group = t.group_id
      · by_cases h2 : ev.dest.router = t.router_id
        · simp [h1, h2]
        · simp only [h1, h2, ne_eq, not_true_eq_false, if_false, not_false_eq_true, if_true,
            port_for_router]
          split_ifs <;> first | rfl | (exfalso; omega)
      · by_cases h3 : ev.dest.mid_group = t.group_id
        · simp [h1, h3, port_for_group_eq_documented t _ h1]
        · have h3' : ¬ t.group_id = ev.dest.mid_group := fun h => h3 h.symm
          simp [h1, h3, h3', port_for_group_eq_documented t _ h3]
    · intro hm hg
      have hm' : ¬ t.group_id = ev.dest.mid_group := by
        rw [hm]
        exact fun h => hg h.symm
      simp [documented_next_port, hg, hm', hm, port_for_group_eq_documented t _ hg]
  · intro t x hx
    rcases Nat.lt_or_gt_of_ne hx with h | h
    · refine ⟨x / t.params.h, by simp [router_to_group, h], ?_, ?_⟩
      · intro ho
        refine ⟨x % t.params.h, by simp [port_for_group, router_to_group, h, ho],
          fun hh => Nat.mod_lt _ hh⟩
      · intro ho
        refine ⟨by simp [port_for_group, router_to_group, h, ho], ?_⟩
        exact port_for_router_range t _ ho
    · have h' : ¬ x < t.group_id := by omega
      refine ⟨(x - 1) / t.params.h, by simp [router_to_group, h, h'], ?_, ?_⟩
      · intro ho
        refine ⟨(x - 1) % t.params.h, by simp [port_for_group, router_to_group, h, h', ho],
          fun hh => Nat.mod_lt _ hh⟩
      · intro ho
        refine ⟨by simp [port_for_group, router_to_group, h, h', ho], ?_⟩
        exact port_for_router_range t _ ho
  · intro id h1 h2
    interval_cases id <;> exact ⟨_, _, _, rfl, rfl, rfl, rfl, rfl, rfl, rfl, rfl⟩

/-- The decision at router 1 of group 0 in scenario S3 for the packet to endpoint 79:
global port 8, which is the port toward group 4. -/
theorem dragonfly_route_documented_decision_witness :
    (∃ ev1, (S3 0 1).route 4 0 S3_event = some ev1 ∧
      some ev1.next_port = ((S3 0 1).port_for_group 4).map Int.ofNat ∧ ev1.next_port = 8) ∧
    (∃ owner, (S3 0 0).router_to_group 4 = some owner ∧
      (S3 0 0).port_for_group 4 = some ((S3 0 0).port_for_router owner) ∧
      4 ≤ (S3 0 0).port_for_router owner ∧ (S3 0 0).port_for_router owner < 7) := by
  constructor
  · obtain ⟨ev1, h1, _, h3, h4⟩ := dragonfly_route_documented_decision.1 (S3 0 1) 4 0 S3_event
    exact ⟨ev1, h1, h4 rfl (by decide), h3.trans (by decide)⟩
  · obtain ⟨owner, h1, _, h3⟩ := dragonfly_route_documented_decision.2.1 (S3 0 0) 4 (by decide)
    have ho : owner = 1 := by
      have h5 : (S3 0 0).router_to_group 4 = some 1 := by decide
      rw [h5] at h1
      exact (Option.some.inj h1).symm
    have h6 := h3 (by rw [ho]; decide)
    exact ⟨owner, h1, h6.1, h6.2 (by rw [ho]; decide) (by decide)⟩


/-! ## Legacy dragonfly: virtual channels, Valiant, global links -/

namespace topo_dragonfly_legacy

theorem route_vc (t : topo_dragonfly_legacy) (port vc : Int)
    (ev ev1 : topo_dragonfly_legacy_event) (h : t.route port vc ev = some ev1) :
    ev1.vc = (if u32 port ≥ t.params.p + t.params.a - 1 then vc + 1 else ev.vc) ∧
    ev1.dest = ev.dest ∧ ev1.src_group = ev.src_group ∧ ev1.encap_ev = ev.encap_ev := by
  rw [route_eq_documented] at h
  simp only [Option.some.injEq] at h
  subst h
  split_ifs <;> exact ⟨rfl, rfl, rfl, rfl⟩

theorem route_path_vc (hops : List (topo_dragonfly_legacy × Int))
    (ev : topo_dragonfly_legacy_event)
    (hports : ∀ x ∈ hops, 0 ≤ x.2 ∧ x.2 < 2147483648) :
    ∃ ev1, route_path hops ev = some ev1 ∧ ev1.vc = ev.vc + (global_hops hops : Int) ∧
      ev1.encap_ev = ev.encap_ev := by
  induction hops generalizing ev with
  | nil => exact ⟨ev, rfl, by simp [global_hops], rfl⟩
  | cons x xs ih =>
    obtain ⟨t, port⟩ := x
    have hp := hports (t, port) (List.mem_cons_self _ _)
    have hr := route_eq_documented t port ev.vc ev
    obtain ⟨h1, -, -, h4⟩ := route_vc t port ev.vc ev _ hr
    obtain ⟨ev1, e1, e2, e3⟩ := ih _ (fun y hy => hports y (List.mem_cons_of_mem _ hy))
    refine ⟨ev1, ?_, ?_, ?_⟩
    · simp only [route_path, hr]
      exact e1
    · rw [e2, h1, u32_of_nonneg port hp.1 (by omega)]
      simp only [global_hops]
      have hp0 := hp.1
      by_cases hg : ((t.params.p + t.params.a - 1 : Nat) : Int) ≤ port
      · have hg1 : port.toNat ≥ t.params.p + t.params.a - 1 := by omega
        rw [if_pos hg1, if_pos hg]
        push_cast
        omega
      · have hg1 : ¬ port.toNat ≥ t.params.p + t.params.a - 1 := by omega
        rw [if_neg hg1, if_neg hg]
    · rw [e3, h4]

theorem process_input_some (t : topo_dragonfly_legacy) (ev : RtrEvent) (rands : List Nat)
    (ev0 : topo_dragonfly_legacy_event) (h : t.process_input ev rands = some ev0) :
    ∃ m, ev0 = { (internal_router_event.ofRtrEvent ev).setVC (ev.request.vn * 3) with
                 src_group := t.group_id,
                 dest := { t.idToLocation (nid_to_int ev.request.dest) ⟨0, 0, 0, 0⟩ with mid_group := m } } ∧
      (match t.algorithm with
       | RouteAlgo.MINIMAL => some (t.idToLocation (nid_to_int ev.request.dest) ⟨0, 0, 0, 0⟩).group
       | RouteAlgo.VALIANT =>
         if (t.idToLocation (nid_to_int ev.request.dest) ⟨0, 0, 0, 0⟩).group = t.group_id then
           some (t.idToLocation (nid_to_int ev.request.dest) ⟨0, 0, 0, 0⟩).group
         else t.sample_mid_group (t.idToLocation (nid_to_int ev.request.dest) ⟨0, 0, 0, 0⟩).group rands)
        = some m := by
  unfold process_input at h
  simp only at h
  split at h
  · simp at h
  · rename_i m hm
    simp only [Option.some.injEq] at h
    exact ⟨m, h.symm, hm⟩

theorem sample_mid_group_some (t : topo_dragonfly_legacy) (dest_group : Nat)
    (rands : List Nat) (m : Nat) (h : t.sample_mid_group dest_group rands = some m) :
    m ≠ t.group_id ∧ m ≠ dest_group ∧ ∃ r ∈ rands, m = r % t.params.g := by
  induction rands with
  | nil => simp [sample_mid_group] at h
  | cons r rest ih =>
    simp only [sample_mid_group] at h
    split_ifs at h with hc
    · obtain ⟨h1, h2, r1, hr1, hr2⟩ := ih h
      exact ⟨h1, h2, r1, List.mem_cons_of_mem _ hr1, hr2⟩
    · simp only [Option.some.injEq] at h
      rw [← h]
      push_neg at hc
      exact ⟨hc.1, hc.2, r, List.mem_cons_self _ _, rfl⟩

theorem sample_mid_group_ends (t : topo_dragonfly_legacy) (dest_group : Nat)
    (rands : List Nat)
    (h : ∃ r ∈ rands, r % t.params.g ≠ t.group_id ∧ r % t.params.g ≠ dest_group) :
    ∃ m, t.sample_mid_group dest_group rands = some m := by
  induction rands with
  | nil => simp at h
  | cons r rest ih =>
    simp only [sample_mid_group]
    split_ifs with hc
    · apply ih
      obtain ⟨r1, hr1, hr2⟩ := h
      rcases List.mem_cons.mp hr1 with e | e
      · subst e
        rcases hc with hc | hc
        · exact absurd hc hr2.1
        · exact absurd hc hr2.2
      · exact ⟨r1, e, hr2⟩
    · exact ⟨_, rfl⟩

end topo_dragonfly_legacy

/-- C11. The VC-assignment rule of the legacy dragonfly keeps a packet inside its own block
of three VCs: for a packet stamped by `process_input` with virtual network `vn` and then
routed at successive routers (each `route` given the current VC of the packet, arrival
ports being valid port numbers), every `route` returns and the VC equals `3*vn` plus the
number of hops whose arrival port was a global port; so with at most two global hops the
VC stays within `[3*vn, 3*vn+2]`, which is below `computeNumVCs(vns)` for `0 <= vn < vns`
and is no VC of the block of another virtual network. -/
theorem dragonfly_vc_block (t0 : topo_dragonfly_legacy) (ev : RtrEvent) (rands : List Nat)
    (ev0 : topo_dragonfly_legacy_event) (hops : List (topo_dragonfly_legacy × Int))
    (hin : t0.process_input ev rands = some ev0)
    (hports : ∀ x ∈ hops, 0 ≤ x.2 ∧ x.2 < 2147483648) :
    ∃ ev1, route_path hops ev0 = some ev1 ∧
      ev1.vc = 3 * ev.request.vn + (global_hops hops : Int) ∧
      (global_hops hops ≤ 2 →
        3 * ev.request.vn ≤ ev1.vc ∧ ev1.vc ≤ 3 * ev.request.vn + 2 ∧
        (∀ vns : Int, 0 ≤ ev.request.vn → ev.request.vn < vns →
          0 ≤ ev1.vc ∧ ev1.vc < t0.computeNumVCs vns) ∧
        (∀ (vn1 : Int) (c1 : Nat), vn1 ≠ ev.request.vn → c1 ≤ 2 →
          3 * vn1 + (c1 : Int) ≠ ev1.vc)) := by
  obtain ⟨m, hev0, -⟩ := process_input_some t0 ev rands ev0 hin
  have hvc0 : ev0.vc = ev.request.vn * 3 := by rw [hev0]; rfl
  obtain ⟨ev1, h1, h2, -⟩ := route_path_vc hops ev0 hports
  refine ⟨ev1, h1, by rw [h2, hvc0]; ring, ?_⟩
  intro hg
  rw [h2, hvc0]
  refine ⟨by omega, by omega, ?_, ?_⟩
  · intro vns hv0 hv1
    simp only [computeNumVCs]
    constructor <;> omega
  · intro vn1 c1 hne hc
    omega

/-- Scenario S3: the packet for endpoint 79 is stamped with VC 0 at router 0 of group 0,
crosses to router 1 (intra-group port 4 there), to group 4 (global port 7 there) and to
router 3 (intra-group port 4 there): one global hop, VC 1. -/
theorem dragonfly_vc_block_witness :
    (S3 0 0).process_input (S3_packet 79) [] = some S3_event ∧
    (∀ x ∈ [(S3 0 0, (0 : Int)), (S3 0 1, 4), (S3 4 0, 7), (S3 4 3, 4)],
      0 ≤ x.2 ∧ x.2 < 2147483648) ∧
    ∃ ev1, route_path [(S3 0 0, (0 : Int)), (S3 0 1, 4), (S3 4 0, 7), (S3 4 3, 4)] S3_event
        = some ev1 ∧ ev1.vc = 1 := by
  have hin : (S3 0 0).process_input (S3_packet 79) [] = some S3_event := by decide
  have hports : ∀ x ∈ [(S3 0 0, (0 : Int)), (S3 0 1, 4), (S3 4 0, 7), (S3 4 3, 4)],
      0 ≤ x.2 ∧ x.2 < 2147483648 := by
    intro x hx
    simp only [List.mem_cons, List.mem_singleton, List.not_mem_nil, or_false] at hx
    rcases hx with h | h | h | h <;> subst h <;> decide
  obtain ⟨ev1, h1, h2, -⟩ := dragonfly_vc_block (S3 0 0) (S3_packet 79) [] S3_event
    [(S3 0 0, (0 : Int)), (S3 0 1, 4), (S3 4 0, 7), (S3 4 3, 4)] hin hports
  refine ⟨hin, hports, ev1, h1, ?_⟩
  rw [h2]
  decide

/-- C12. Valiant mid-group choice of the legacy dragonfly: whenever `process_input`
returns, `src_group` is the group of the router; under MINIMAL, and under VALIANT when the
destination is in the group of the router, `mid_group` is the destination group; under
VALIANT with the destination in another group, `mid_group` is a value `rand() % g`, hence
in `[0, g)` (every topology the constructor puts into VALIANT mode has `g >= 3`), and is
neither the group of the router nor the destination group.  Under MINIMAL, or with the
destination in the own group, `process_input` always returns; in the remaining case it
returns once `rand()` yields a value with an admissible remainder.  The destination group
is the one `idToLocation` decodes from the destination id, which it receives as an `int`. -/
theorem dragonfly_valiant_mid_group (t : topo_dragonfly_legacy) (ev : RtrEvent)
    (rands : List Nat) :
    (∀ ev0, t.process_input ev rands = some ev0 →
      ev0.src_group = t.group_id ∧
      ev0.dest.group = (t.idToLocation (nid_to_int ev.request.dest) ⟨0, 0, 0, 0⟩).group ∧
      (t.algorithm = RouteAlgo.MINIMAL → ev0.dest.mid_group = ev0.dest.group) ∧
      (t.algorithm = RouteAlgo.VALIANT → ev0.dest.group = t.group_id →
        ev0.dest.mid_group = ev0.dest.group) ∧
      (t.algorithm = RouteAlgo.VALIANT → ev0.dest.group ≠ t.group_id →
        ev0.dest.mid_group ≠ t.group_id ∧ ev0.dest.mid_group ≠ ev0.dest.group ∧
        (1 ≤ t.params.g → ev0.dest.mid_group < t.params.g))) ∧
    (∀ (hosts_per_router routers_per_group num_ports intergroup_per_router num_groups : Int)
      (route_algo : String) (id : Int),
      (construct hosts_per_router routers_per_group num_ports intergroup_per_router
        num_groups route_algo id).algorithm = RouteAlgo.VALIANT →
      3 ≤ (construct hosts_per_router routers_per_group num_ports intergroup_per_router
        num_groups route_algo id).params.g) ∧
    ((t.algorithm = RouteAlgo.MINIMAL ∨
        (t.idToLocation (nid_to_int ev.request.dest) ⟨0, 0, 0, 0⟩).group = t.group_id ∨
        ∃ r ∈ rands, r % t.params.g ≠ t.group_id ∧
          r % t.params.g ≠ (t.idToLocation (nid_to_int ev.request.dest) ⟨0, 0, 0, 0⟩).group) →
      ∃ ev0, t.process_input ev rands = some ev0) := by
  refine ⟨?_, ?_, ?_⟩
  · intro ev0 h
    obtain ⟨m, hev0, hm⟩ := process_input_some t ev rands ev0 h
    have hg : ev0.dest.group = (t.idToLocation (nid_to_int ev.request.dest) ⟨0, 0, 0, 0⟩).group := by
      rw [hev0]
    have hmid : ev0.dest.mid_group = m := by rw [hev0]
    refine ⟨by rw [hev0], hg, ?_, ?_, ?_⟩
    · intro ha
      rw [ha] at hm
      simp only [Option.some.injEq] at hm
      rw [hmid, hg, hm]
    · intro ha hown
      rw [ha] at hm
      rw [hg] at hown
      simp only [hown, if_true, Option.some.injEq] at hm
      rw [hmid, hg, hown, ← hm]
    · intro ha hother
      rw [ha] at hm
      rw [hg] at hother
      simp only [hother, if_false] at hm
      obtain ⟨h1, h2, r, -, hr⟩ := sample_mid_group_some t _ rands m hm
      rw [hmid, hg]
      refine ⟨h1, h2, ?_⟩
      intro hg1
      rw [hr]
      exact Nat.mod_lt _ (by omega)
  · intro hpr rpg np ipr ng algo id hv
    simp only [construct] at hv ⊢
    split_ifs at hv with h1 h2
    omega
  · intro h
    unfold process_input
    simp only
    rcases h with h | h | h
    · rw [h]
      exact ⟨_, rfl⟩
    · cases t.algorithm with
      | MINIMAL => exact ⟨_, rfl⟩
      | VALIANT => simp only [h, if_true]; exact ⟨_, rfl⟩
    · cases t.algorithm with
      | MINIMAL => exact ⟨_, rfl⟩
      | VALIANT =>
        simp only
        split_ifs with hc
        · exact ⟨_, rfl⟩
        · obtain ⟨m, hm⟩ := sample_mid_group_ends t _ rands h
          rw [hm]
          exact ⟨_, rfl⟩

/-- Scenario S3 with Valiant routing: at router 1 of group 0 the packet for endpoint 79
(group 4) gets mid-group 2 when `rand()` yields 0, 4, 7: the remainders 0 (own group) and
4 (destination group) are thrown away. -/
theorem dragonfly_valiant_mid_group_witness :
    S3_valiant.algorithm = RouteAlgo.VALIANT ∧
    ∃ ev0, S3_valiant.process_input (S3_packet 79) [0, 4, 7] = some ev0 ∧
      ev0.dest.group = 4 ∧ ev0.dest.mid_group = 2 ∧
      ev0.dest.mid_group ≠ S3_valiant.group_id ∧ ev0.dest.mid_group ≠ ev0.dest.group ∧
      ev0.dest.mid_group < S3_valiant.params.g ∧ ev0.src_group = S3_valiant.group_id := by
  have halg : S3_valiant.algorithm = RouteAlgo.VALIANT := by decide
  have hs : (S3_valiant.process_input (S3_packet 79) [0, 4, 7]).map
      (fun e => (e.dest.group, e.dest.mid_group)) = some (4, 2) := by decide
  cases h : S3_valiant.process_input (S3_packet 79) [0, 4, 7] with
  | none => rw [h] at hs; simp at hs
  | some ev0 =>
    rw [h] at hs
    simp only [Option.map_some', Option.some.injEq, Prod.mk.injEq] at hs
    obtain ⟨h1, -, -, -, h5⟩ :=
      (dragonfly_valiant_mid_group S3_valiant (S3_packet 79) [0, 4, 7]).1 ev0 h
    have hne : ev0.dest.group ≠ S3_valiant.group_id := by
      rw [hs.1]; decide
    obtain ⟨h6, h7, h8⟩ := h5 halg hne
    exact ⟨halg, ev0, rfl, hs.1, hs.2, h6, h7, h8 (by decide), h1⟩

/-- C13. In the legacy dragonfly each router has a single global link per destination
group: for `h >= 1`, the groups `x != group_id` whose link is owned by this router
(`router_to_group x = router_id`) are mapped by `port_for_group` to pairwise distinct ports
in the global range `[p+a-1, p+a-1+h)`, and every other group `x != group_id` is mapped to
the intra-group port `port_for_router` of the router `router_to_group x` that owns the
link. -/
theorem dragonfly_single_global_link (t : topo_dragonfly_legacy) (hh : 1 ≤ t.params.h) :
    (∀ x, x ≠ t.group_id → ∃ owner, t.router_to_group x = some owner) ∧
    (∀ x, x ≠ t.group_id → t.router_to_group x = some t.router_id →
      ∃ port, t.port_for_group x = some port ∧
        t.params.p + t.params.a - 1 ≤ port ∧ port < t.params.p + t.params.a - 1 + t.params.h) ∧
    (∀ x y, x ≠ t.group_id → y ≠ t.group_id → x ≠ y →
      t.router_to_group x = some t.router_id → t.router_to_group y = some t.router_id →
      t.port_for_group x ≠ t.port_for_group y) ∧
    (∀ x owner, x ≠ t.group_id → t.router_to_group x = some owner → owner ≠ t.router_id →
      t.port_for_group x = some (t.port_for_router owner)) := by
  have hrtg : ∀ x, x ≠ t.group_id →
      t.router_to_group x = some (t.link_index x / t.params.h) := by
    intro x hx
    unfold router_to_group link_index
    rcases Nat.lt_or_gt_of_ne hx with h | h
    · simp [h]
    · have h1 : ¬ x < t.group_id := by omega
      simp [h, h1]
  have hidx : ∀ x y, x ≠ t.group_id → y ≠ t.group_id → x ≠ y →
      t.link_index x ≠ t.link_index y := by
    intro x y hx hy hxy
    unfold link_index
    split_ifs <;> omega
  have hport : ∀ x, x ≠ t.group_id → t.router_to_group x = some t.router_id →
      t.port_for_group x =
        some (t.params.p + t.params.a - 1 + t.link_index x % t.params.h) := by
    intro x hx ho
    rw [port_for_group_eq_documented t x hx]
    rw [hrtg x hx] at ho
    simp only [Option.some.injEq] at ho
    simp only [documented_port_toward_group, ho, if_true]
  refine ⟨fun x hx => ⟨_, hrtg x hx⟩, ?_, ?_, ?_⟩
  · intro x hx ho
    refine ⟨_, hport x hx ho, Nat.le_add_right _ _, ?_⟩
    have := Nat.mod_lt (t.link_index x) (show 0 < t.params.h by omega)
    omega
  · intro x y hx hy hxy hox hoy
    rw [hport x hx hox, hport y hy hoy]
    intro heq
    simp only [Option.some.injEq] at heq
    have hmod : t.link_index x % t.params.h = t.link_index y % t.params.h := by omega
    rw [hrtg x hx] at hox
    rw [hrtg y hy] at hoy
    simp only [Option.some.injEq] at hox hoy
    have h1 := Nat.div_add_mod (t.link_index x) t.params.h
    have h2 := Nat.div_add_mod (t.link_index y) t.params.h
    rw [hox, hmod] at h1
    rw [hoy] at h2
    exact hidx x y hx hy hxy (by omega)
  · intro x owner hx ho hne
    unfold port_for_group
    rw [ho]
    simp only [hne, if_false]

/-- Scenario S3: router 1 of group 0 owns the links to groups 3 and 4, on the global ports
7 and 8. -/
theorem dragonfly_single_global_link_witness :
    1 ≤ (S3 0 1).params.h ∧
    (S3 0 1).router_to_group 3 = some (S3 0 1).router_id ∧
    (S3 0 1).router_to_group 4 = some (S3 0 1).router_id ∧
    (S3 0 1).port_for_group 3 ≠ (S3 0 1).port_for_group 4 ∧
    (S3 0 1).port_for_group 1 = some ((S3 0 1).port_for_router 0) :=
  ⟨by decide, by decide, by decide,
   (dragonfly_single_global_link (S3 0 1) (by decide)).2.2.1 3 4 (by decide) (by decide)
     (by decide) (by decide) (by decide),
   (dragonfly_single_global_link (S3 0 1) (by decide)).2.2.2 1 0 (by decide) (by decide)
     (by decide)⟩

/-- C14. `process_input` stamps the starting VC as `vn` times the multiplier that
`computeNumVCs` declares: the single router stamps `VC = request.vn` with
`computeNumVCs(vns) = vns`, the legacy dragonfly stamps `VC = 3 * request.vn` (whenever its
`process_input` returns, as it always does under MINIMAL) with
`computeNumVCs(vns) = 3 * vns`; hence for `0 <= vn < vns` the stamped VC is below
`computeNumVCs(vns)`. -/
theorem process_input_stamps_vc (ev : RtrEvent) :
    (∀ (t : topo_singlerouter) (vns : Int),
      (t.process_input ev).vc = ev.request.vn ∧ t.computeNumVCs vns = vns ∧
      (0 ≤ ev.request.vn → ev.request.vn < vns →
        0 ≤ (t.process_input ev).vc ∧ (t.process_input ev).vc < t.computeNumVCs vns)) ∧
    (∀ (t : topo_dragonfly_legacy) (rands : List Nat) (vns : Int),
      t.computeNumVCs vns = 3 * vns ∧
      (t.algorithm = RouteAlgo.MINIMAL → ∃ ev0, t.process_input ev rands = some ev0) ∧
      (∀ ev0, t.process_input ev rands = some ev0 →
        ev0.vc = 3 * ev.request.vn ∧
        (0 ≤ ev.request.vn → ev.request.vn < vns →
          0 ≤ ev0.vc ∧ ev0.vc < t.computeNumVCs vns))) := by
  constructor
  · intro t vns
    refine ⟨rfl, rfl, ?_⟩
    intro h0 h1
    exact ⟨h0, h1⟩
  · intro t rands vns
    refine ⟨by simp only [topo_dragonfly_legacy.computeNumVCs]; ring, ?_, ?_⟩
    · intro ha
      unfold topo_dragonfly_legacy.process_input
      simp only [ha]
      exact ⟨_, rfl⟩
    · intro ev0 h
      obtain ⟨m, hev0, -⟩ := process_input_some t ev rands ev0 h
      have hvc : ev0.vc = ev.request.vn * 3 := by rw [hev0]; rfl
      refine ⟨by rw [hvc]; ring, ?_⟩
      intro h0 h1
      simp only [topo_dragonfly_legacy.computeNumVCs]
      constructor <;> omega

/-- Scenario S3: the packet for endpoint 79 travels on virtual network 0 and is stamped
with VC 0, below the three VCs that one virtual network needs. -/
theorem process_input_stamps_vc_witness :
    (0 ≤ (S3_packet 79).request.vn ∧ (S3_packet 79).request.vn < 1) ∧
    (0 ≤ (topo_singlerouter.process_input ⟨4⟩ (S3_packet 79)).vc ∧
      (topo_singlerouter.process_input ⟨4⟩ (S3_packet 79)).vc <
        topo_singlerouter.computeNumVCs ⟨4⟩ 1) ∧
    (0 ≤ S3_event.vc ∧ S3_event.vc < (S3 0 0).computeNumVCs 1) :=
  ⟨by decide,
   ((process_input_stamps_vc (S3_packet 79)).1 ⟨4⟩ 1).2.2 (by decide) (by decide),
   (((process_input_stamps_vc (S3_packet 79)).2 (S3 0 0) [] 1).2.2 S3_event (by decide)).2
     (by decide) (by decide)⟩

/-- C15. The default `reroute` is `route`: for the single router and the legacy dragonfly,
which do not override it, `reroute(port, vc, ev)` leaves the event exactly as
`route(port, vc, ev)` does, `next_port` and VC included, on every input. -/
theorem default_reroute_is_route (port vc : Int) :
    (∀ (t : topo_singlerouter) (ev : internal_router_event),
      t.reroute port vc ev = t.route port vc ev ∧
      (t.reroute port vc ev).next_port = (t.route port vc ev).next_port ∧
      (t.reroute port vc ev).vc = (t.route port vc ev).vc) ∧
    (∀ (t : topo_dragonfly_legacy) (ev : topo_dragonfly_legacy_event),
      t.reroute port vc ev = t.route port vc ev ∧
      (t.reroute port vc ev).map (fun e => (e.next_port, e.vc)) =
        (t.route port vc ev).map (fun e => (e.next_port, e.vc)) ∧
      ∃ ev1, t.reroute port vc ev = some ev1) :=
  ⟨fun _ _ => ⟨rfl, rfl, rfl⟩,
   fun t ev => ⟨rfl, rfl, _, route_eq_documented t port vc ev⟩⟩

/-! ## Reorder link controller: `recv`, the wrapper, the handler -/

/-- C18. `ReorderLinkControl.recv` and `requestToReceive`: `requestToReceive(vn)` is true
iff input queue `vn` is non-empty; `recv(vn)` on an empty queue returns none and changes
nothing; on a non-empty queue it returns the front, which is the oldest request there (a
push appends at the back), removes exactly that one, and leaves the queues of the other
virtual networks and all sequence state unchanged. -/
theorem reorder_recv_fifo (s : ReorderLinkControl) (vn : Int) :
    (s.requestToReceive vn = true ↔ s.input_buf vn ≠ []) ∧
    (s.input_buf vn = [] → s.recv vn = (none, s)) ∧
    (∀ req rest, s.input_buf vn = req :: rest →
      (s.recv vn).1 = some req ∧
      (s.recv vn).2.input_buf vn = rest ∧
      (∀ v, v ≠ vn → (s.recv vn).2.input_buf v = s.input_buf v) ∧
      (s.recv vn).2.reorder_info = s.reorder_info ∧
      (s.recv vn).2.link_control = s.link_control ∧
      (s.recv vn).2.receiveFunctor = s.receiveFunctor ∧
      (s.recv vn).2.notified = s.notified ∧
      (s.recv vn).2.vns = s.vns) ∧
    (∀ r : ReorderRequest, (push_input s.input_buf r) r.vn = s.input_buf r.vn ++ [r] ∧
      ∀ v, v ≠ r.vn → (push_input s.input_buf r) v = s.input_buf v) := by
  refine ⟨?_, ?_, ?_, ?_⟩
  · unfold ReorderLinkControl.requestToReceive
    cases s.input_buf vn <;> simp
  · intro h
    unfold ReorderLinkControl.recv
    rw [h]
  · intro req rest h
    unfold ReorderLinkControl.recv
    rw [h]
    refine ⟨rfl, by simp, ?_, rfl, rfl, rfl, rfl, rfl⟩
    intro v hv
    simp [Function.update_noteq hv]
  · intro r
    unfold push_input
    refine ⟨by simp, ?_⟩
    intro v hv
    simp [Function.update_noteq hv]

/-- Scenario S5: with request 7:0 queued on virtual network 0, `requestToReceive(0)` is
true and `recv(0)` hands out 7:0 and empties the queue. -/
theorem reorder_recv_fifo_witness :
    S5_waiting.input_buf 0 = [S5_request 7 0 0] ∧
    (S5_waiting.recv 0).1 = some (S5_request 7 0 0) ∧
    (S5_waiting.recv 0).2.input_buf 0 = [] ∧
    S5_waiting.requestToReceive 0 = true :=
  ⟨by decide,
   ((reorder_recv_fifo S5_waiting 0).2.2.1 (S5_request 7 0 0) [] (by decide)).1,
   ((reorder_recv_fifo S5_waiting 0).2.2.1 (S5_request 7 0 0) [] (by decide)).2.1,
   (reorder_recv_fifo S5_waiting 0).1.mpr (by decide)⟩

/-- C19, as stated, fails: the `ReorderRequest` built from a request on virtual network 1
does not carry virtual network 1; the constructor does not pass `vn` on. -/
theorem reorder_request_vn_not_copied :
    ¬ (∀ req : Request, (ReorderRequest.ofRequest req 0).vn = req.vn) := by
  intro h
  have := h S5_submit_vn1
  revert this
  decide

/-- C19, amended. Wrapping a request in a `ReorderRequest` yields a request with a sequence
number: the `ReorderRequest` built from a request has the same destination, source, size
in bits, head and tail flags, payload, trace mode and trace id as the original and carries
the given 32-bit `seq`.  The virtual-network index is not taken from the original (it is
that of a newly constructed request, whatever the original); `send` hands the virtual
network to the wrapped link controller as the argument `vn` of its `send`. -/
theorem reorder_request_wraps (req : Request) (seq : Nat) :
    (ReorderRequest.ofRequest req seq).dest = req.dest ∧
    (ReorderRequest.ofRequest req seq).src = req.src ∧
    (ReorderRequest.ofRequest req seq).size_in_bits = req.size_in_bits ∧
    (ReorderRequest.ofRequest req seq).head = req.head ∧
    (ReorderRequest.ofRequest req seq).tail = req.tail ∧
    (ReorderRequest.ofRequest req seq).payload = req.payload ∧
    (ReorderRequest.ofRequest req seq).trace = req.trace ∧
    (ReorderRequest.ofRequest req seq).traceID = req.traceID ∧
    (ReorderRequest.ofRequest req seq).seq = seq ∧
    (∀ (req2 : Request) (seq2 : Nat),
      (ReorderRequest.ofRequest req seq).vn = (ReorderRequest.ofRequest req2 seq2).vn) ∧
    (∀ (s : ReorderLinkControl) (vn : Int),
      s.send req vn = (false, s) ∨
      (s.send req vn).2.link_control.sent = s.link_control.sent ++
        [({ ReorderRequest.ofRequest req 0 with seq := (s.info req.dest).send }, vn)]) := by
  refine ⟨rfl, rfl, rfl, rfl, rfl, rfl, rfl, rfl, rfl, fun _ _ => rfl, ?_⟩
  intro s vn
  by_cases h1 : vn < s.vns
  · cases h2 : s.link_control.spaceToSend vn (size_t_to_int req.size_in_bits) with
    | false => exact Or.inl (send_rejected s req vn (Or.inr h2))
    | true =>
      right
      rw [send_accepted s req vn h1 h2]
  · exact Or.inl (send_rejected s req vn (Or.inl (by omega)))

/-! ## Traffic generator: proofs -/

theorem u32_i32 (n : Nat) (h : n < 4294967296) : u32 (i32 n) = n := by
  unfold u32 i32
  rw [Nat.mod_eq_of_lt h]
  split_ifs <;> omega

theorem Addr.ofS_s (addr : Addr) (h0 : addr.x0 < 256) (h1 : addr.x1 < 256)
    (h2 : addr.x2 < 256) (h3 : addr.x3 < 256) : Addr.ofS addr.s = addr := by
  unfold Addr.ofS Addr.s
  rw [u32_i32 _ (by omega)]
  cases addr with
  | mk a b c d =>
    simp only at h0 h1 h2 h3 ⊢
    congr 1 <;> omega

theorem u8_of_byte (x : Int) (h0 : 0 ≤ x) (h1 : x ≤ 255) : u8 x = x.toNat := by
  unfold u8
  rw [Int.emod_eq_of_lt h0 (by omega)]

/-- C20. Fat-tree address packing round-trips: for every `id >= 0` with `ft_loading >= 1`,
`ft_radix >= 2`, `2 + id mod ft_loading <= 255`,
`subnet = (id / ft_loading) mod (ft_radix/2) <= 255` and
`pod = (id / ft_loading) / (ft_radix/2) <= 255`, the packed address has the four bytes
`(10, pod, subnet, 2 + id mod ft_loading)` and
`IP_to_fattree_ID (fattree_ID_to_IP id) = id`. -/
theorem fattree_address_roundtrip (t : TrafficGen) (id : Int) (h0 : 0 ≤ id)
    (hl : 1 ≤ t.ft_loading) (hr : 2 ≤ t.ft_radix)
    (hhost : 2 + id % t.ft_loading ≤ 255)
    (hsub : (id / t.ft_loading) % (t.ft_radix / 2) ≤ 255)
    (hpod : (id / t.ft_loading) / (t.ft_radix / 2) ≤ 255) :
    Addr.ofS (t.fattree_ID_to_IP id) =
      { x0 := 10, x1 := ((id / t.ft_loading) / (t.ft_radix / 2)).toNat,
        x2 := ((id / t.ft_loading) % (t.ft_radix / 2)).toNat,
        x3 := (2 + id % t.ft_loading).toNat } ∧
    t.IP_to_fattree_ID (t.fattree_ID_to_IP id) = id := by
  have hl0 : (0 : Int) ≤ t.ft_loading := by omega
  have hr2 : (1 : Int) ≤ t.ft_radix / 2 := by omega
  have he0 : 0 ≤ id / t.ft_loading := Int.ediv_nonneg h0 hl0
  have hpod0 : 0 ≤ (id / t.ft_loading) / (t.ft_radix / 2) := Int.ediv_nonneg he0 (by omega)
  have hsub0 : 0 ≤ (id / t.ft_loading) % (t.ft_radix / 2) := Int.emod_nonneg _ (by omega)
  have hhost0 : 0 ≤ id % t.ft_loading := Int.emod_nonneg _ (by omega)
  have e1 : id.tdiv t.ft_loading = id / t.ft_loading := Int.tdiv_eq_ediv h0 hl0
  have e2 : t.ft_radix.tdiv 2 = t.ft_radix / 2 := Int.tdiv_eq_ediv (by omega) (by omega)
  have e3 : (id / t.ft_loading).tdiv (t.ft_radix / 2) =
      (id / t.ft_loading) / (t.ft_radix / 2) := Int.tdiv_eq_ediv he0 (by omega)
  have e4 : (id / t.ft_loading).tmod (t.ft_radix / 2) =
      (id / t.ft_loading) % (t.ft_radix / 2) := Int.tmod_eq_emod he0 (by omega)
  have e5 : id.tmod t.ft_loading = id % t.ft_loading := Int.tmod_eq_emod h0 hl0
  have hip : t.fattree_ID_to_IP id =
      Addr.s { x0 := 10, x1 := ((id / t.ft_loading) / (t.ft_radix / 2)).toNat,
               x2 := ((id / t.ft_loading) % (t.ft_radix / 2)).toNat,
               x3 := (2 + id % t.ft_loading).toNat } := by
    unfold TrafficGen.fattree_ID_to_IP
    simp only [e1, e2, e3, e4, e5]
    rw [u8_of_byte _ hpod0 hpod, u8_of_byte _ hsub0 hsub, u8_of_byte _ (by omega) hhost,
      u8_of_byte 10 (by omega) (by omega)]
    rfl
  have hbytes : Addr.ofS (t.fattree_ID_to_IP id) =
      { x0 := 10, x1 := ((id / t.ft_loading) / (t.ft_radix / 2)).toNat,
        x2 := ((id / t.ft_loading) % (t.ft_radix / 2)).toNat,
        x3 := (2 + id % t.ft_loading).toNat } := by
    rw [hip]
    apply Addr.ofS_s <;> simp only <;> omega
  refine ⟨hbytes, ?_⟩
  unfold TrafficGen.IP_to_fattree_ID
  simp only [hbytes, e2]
  rw [Int.toNat_of_nonneg hpod0, Int.toNat_of_nonneg hsub0, Int.toNat_of_nonneg (by omega)]
  have d1 := Int.ediv_add_emod (id / t.ft_loading) (t.ft_radix / 2)
  have d2 := Int.ediv_add_emod id t.ft_loading
  have key : (id / t.ft_loading) / (t.ft_radix / 2) * (t.ft_radix / 2) * t.ft_loading +
      (id / t.ft_loading) % (t.ft_radix / 2) * t.ft_loading =
      t.ft_loading * (id / t.ft_loading) := by
    have : (id / t.ft_loading) / (t.ft_radix / 2) * (t.ft_radix / 2) * t.ft_loading +
        (id / t.ft_loading) % (t.ft_radix / 2) * t.ft_loading =
        t.ft_loading * ((t.ft_radix / 2) * ((id / t.ft_loading) / (t.ft_radix / 2)) +
          (id / t.ft_loading) % (t.ft_radix / 2)) := by ring
    rw [this, d1]
  omega

/-- A fat tree of radix 4 with two hosts per edge switch: endpoint 5 is host 1 of edge
switch 2, that is pod 1, subnet 0, and gets the address 10.1.0.3. -/
theorem fattree_address_roundtrip_witness :
    Addr.ofS (TrafficGen.fattree_ID_to_IP ⟨2, 4⟩ 5) = ⟨10, 1, 0, 3⟩ ∧
    TrafficGen.IP_to_fattree_ID ⟨2, 4⟩ (TrafficGen.fattree_ID_to_IP ⟨2, 4⟩ 5) = 5 :=
  ⟨(fattree_address_roundtrip ⟨2, 4⟩ 5 (by decide) (by decide) (by decide) (by decide)
      (by decide) (by decide)).1.trans (by decide),
   (fattree_address_roundtrip ⟨2, 4⟩ 5 (by decide) (by decide) (by decide) (by decide)
      (by decide) (by decide)).2⟩

/-! ### The receive handler -/

theorem notify_notified (s : ReorderLinkControl) (vn : Int) :
    (notify s vn).notified =
      match s.receiveFunctor with
      | none => s.notified
      | some _ => s.notified ++ [vn] := by
  unfold notify
  cases s.receiveFunctor <;> rfl

theorem notify_receiveFunctor (s : ReorderLinkControl) (vn : Int) :
    (notify s vn).receiveFunctor =
      match s.receiveFunctor with
      | none => none
      | some f => if f s.notified vn then some f else none := by
  unfold notify
  cases h : s.receiveFunctor with
  | none => exact h
  | some f => rfl

theorem drain_some (q : List ReorderRequest) (c : Nat) (buf : Int → List ReorderRequest)
    (q1 : List ReorderRequest) (c1 : Nat) (buf1 : Int → List ReorderRequest)
    (h : drain q c buf = some (q1, c1, buf1)) :
    ∃ batch, q = batch ++ q1 ∧ buf1 = batch.foldl push_input buf := by
  induction q generalizing c buf with
  | nil => simp [drain] at h
  | cons x xs ih =>
    simp only [drain] at h
    split_ifs at h with hx
    · obtain ⟨batch, h1, h2⟩ := ih _ _ h
      exact ⟨x :: batch, by rw [h1]; rfl, by rw [h2]; rfl⟩
    · simp only [Option.some.injEq, Prod.mk.injEq] at h
      exact ⟨[], by rw [← h.1]; rfl, by rw [← h.2.2]; rfl⟩

theorem handle_event_some (s s1 : ReorderLinkControl) (vn : Int) (r : ReorderRequest)
    (h : s.handle_event vn r = some s1) :
    (r.seq = (s.info r.src).recv ∧
      (∃ batch, ∀ v, s1.input_buf v =
        s.input_buf v ++ (r :: batch).filter (fun x => decide (x.vn = v))) ∧
      s1.notified = (notify s vn).notified ∧
      s1.receiveFunctor = (notify s vn).receiveFunctor) ∨
    (r.seq ≠ (s.info r.src).recv ∧ s1.input_buf = s.input_buf ∧
      s1.notified = s.notified ∧ s1.receiveFunctor = s.receiveFunctor ∧
      (s1.info r.src).queue = pq_push r (s.info r.src).queue ∧
      (s1.info r.src).recv = (s.info r.src).recv) := by
  by_cases hr : r.seq = (s.info r.src).recv
  · left
    refine ⟨hr, ?_⟩
    unfold ReorderLinkControl.handle_event at h
    simp only [hr, if_true] at h
    cases hd : drain (s.info r.src).queue (((s.info r.src).recv + 1) % 4294967296)
        (push_input s.input_buf r) with
    | none => rw [hd] at h; simp at h
    | some x =>
      obtain ⟨q1, c1, buf1⟩ := x
      rw [hd] at h
      simp only [Option.some.injEq] at h
      obtain ⟨batch, -, hb⟩ := drain_some _ _ _ _ _ _ hd
      subst h
      refine ⟨⟨batch, ?_⟩, ?_, ?_⟩
      · intro v
        rw [notify_input_buf]
        simp only
        rw [hb, ← List.foldl_cons, foldl_push_input]
      · rw [notify_notified, notify_notified]
      · rw [notify_receiveFunctor, notify_receiveFunctor]
  · right
    obtain ⟨s2, he, e1, e2, -, -, e5, -, -, e8, e9⟩ := handle_event_outseq s vn r hr
    rw [he] at h
    simp only [Option.some.injEq] at h
    subst h
    exact ⟨hr, e5, e9, e8, e2, e1⟩

theorem step_notified (s s1 : ReorderLinkControl) (op : Op)
    (out : List (Int × ReorderRequest)) (hs : step s op = some (s1, out)) :
    (∃ e, s1.notified = s.notified ++ e) ∧
    ((∀ g, op ≠ Op.setNotifyOnReceive g) →
      (s.receiveFunctor = none → s1.receiveFunctor = none ∧ s1.notified = s.notified) ∧
      (∀ f, s.receiveFunctor = some f → s1.notified = s.notified →
        s1.receiveFunctor = some f)) := by
  cases op with
  | send req vn =>
    simp only [step, Option.some.injEq, Prod.mk.injEq] at hs
    have hn : s1.notified = s.notified ∧ s1.receiveFunctor = s.receiveFunctor := by
      rw [← hs.1]
      unfold ReorderLinkControl.send
      split_ifs <;> exact ⟨rfl, rfl⟩
    refine ⟨⟨[], by rw [hn.1, List.append_nil]⟩, fun _ => ⟨?_, ?_⟩⟩
    · intro h; rw [hn.2, hn.1]; exact ⟨h, rfl⟩
    · intro f h _; rw [hn.2]; exact h
  | handle_event vn r =>
    simp only [step] at hs
    cases he : s.handle_event vn r with
    | none => rw [he] at hs; simp at hs
    | some s2 =>
      rw [he] at hs
      simp only [Option.map_some', Option.some.injEq, Prod.mk.injEq] at hs
      rw [← hs.1]
      rcases handle_event_some s s2 vn r he with ⟨-, -, hn, hf⟩ | ⟨-, -, hn, hf, -, -⟩
      · rw [notify_notified] at hn
        rw [notify_receiveFunctor] at hf
        cases hfun : s.receiveFunctor with
        | none =>
          rw [hfun] at hn hf
          refine ⟨⟨[], by rw [hn, List.append_nil]⟩, fun _ => ⟨fun _ => ⟨hf, hn⟩, ?_⟩⟩
          intro f h; simp at h
        | some f0 =>
          rw [hfun] at hn hf
          simp only at hn hf
          refine ⟨⟨[vn], hn⟩, fun _ => ⟨fun h => by simp at h, ?_⟩⟩
          intro f _ heq
          rw [hn] at heq
          simp at heq
      · refine ⟨⟨[], by rw [hn, List.append_nil]⟩, fun _ => ⟨?_, ?_⟩⟩
        · intro h; rw [hf, hn]; exact ⟨h, rfl⟩
        · intro f h _; rw [hf]; exact h
  | recv vn =>
    have hst : s1 = (s.recv vn).2 := by
      simp only [step] at hs
      cases hq : (s.recv vn).1 with
      | none => rw [hq] at hs; simp only [Option.some.injEq, Prod.mk.injEq] at hs; exact hs.1.symm
      | some x => rw [hq] at hs; simp only [Option.some.injEq, Prod.mk.injEq] at hs; exact hs.1.symm
    have hn : s1.notified = s.notified ∧ s1.receiveFunctor = s.receiveFunctor := by
      rw [hst]
      unfold ReorderLinkControl.recv
      cases s.input_buf vn <;> exact ⟨rfl, rfl⟩
    refine ⟨⟨[], by rw [hn.1, List.append_nil]⟩, fun _ => ⟨?_, ?_⟩⟩
    · intro h; rw [hn.2, hn.1]; exact ⟨h, rfl⟩
    · intro f h _; rw [hn.2]; exact h
  | setNotifyOnReceive f =>
    simp only [step, Option.some.injEq, Prod.mk.injEq] at hs
    refine ⟨⟨[], by rw [← hs.1, List.append_nil]; rfl⟩, fun hno => ?_⟩
    exact absurd rfl (hno f)
  | network sp sr =>
    simp only [step, Option.some.injEq, Prod.mk.injEq] at hs
    have hn : s1.notified = s.notified ∧ s1.receiveFunctor = s.receiveFunctor := by
      rw [← hs.1]; exact ⟨rfl, rfl⟩
    refine ⟨⟨[], by rw [hn.1, List.append_nil]⟩, fun _ => ⟨?_, ?_⟩⟩
    · intro h; rw [hn.2, hn.1]; exact ⟨h, rfl⟩
    · intro f h _; rw [hn.2]; exact h

theorem run_notified (ops : List Op) (s s2 : ReorderLinkControl)
    (out : List (Int × ReorderRequest)) (hs : run s ops = some (s2, out)) :
    (∃ e, s2.notified = s.notified ++ e) ∧
    ((∀ op ∈ ops, ∀ g, op ≠ Op.setNotifyOnReceive g) →
      (s.receiveFunctor = none → s2.receiveFunctor = none ∧ s2.notified = s.notified) ∧
      (∀ f, s.receiveFunctor = some f → s2.notified = s.notified →
        s2.receiveFunctor = some f)) := by
  induction ops generalizing s out with
  | nil =>
    simp only [run, Option.some.injEq, Prod.mk.injEq] at hs
    rw [← hs.1]
    exact ⟨⟨[], by rw [List.append_nil]⟩, fun _ => ⟨fun h => ⟨h, rfl⟩, fun f h _ => h⟩⟩
  | cons op ops ih =>
    simp only [run] at hs
    cases h1 : step s op with
    | none => rw [h1] at hs; simp at hs
    | some x =>
      obtain ⟨s1, out1⟩ := x
      rw [h1] at hs
      simp only at hs
      cases h2 : run s1 ops with
      | none => rw [h2] at hs; simp at hs
      | some y =>
        obtain ⟨s3, out3⟩ := y
        rw [h2] at hs
        simp only [Option.some.injEq, Prod.mk.injEq] at hs
        rw [hs.1] at h2
        obtain ⟨⟨e1, he1⟩, hstep⟩ := step_notified s s1 op out1 h1
        obtain ⟨⟨e2, he2⟩, hrun⟩ := ih s1 out3 h2
        refine ⟨⟨e1 ++ e2, by rw [he2, he1, List.append_assoc]⟩, ?_⟩
        intro hno
        have hno1 := hstep (hno op (List.mem_cons_self _ _))
        have hno2 := hrun (fun o ho => hno o (List.mem_cons_of_mem _ ho))
        constructor
        · intro hnone
          obtain ⟨a1, a2⟩ := hno1.1 hnone
          obtain ⟨b1, b2⟩ := hno2.1 a1
          exact ⟨b1, by rw [b2, a2]⟩
        · intro f hf heq
          have hlen : e1 = [] ∧ e2 = [] := by
            rw [he2, he1, List.append_assoc] at heq
            have := List.append_cancel_left (heq.trans (List.append_nil _).symm)
            exact List.append_eq_nil.mp this
          have a1 : s1.notified = s.notified := by rw [he1, hlen.1, List.append_nil]
          have a2 : s2.notified = s1.notified := by rw [he2, hlen.2, List.append_nil]
          exact hno2.2 f (hno1.2 f hf a1) a2

theorem drain_sentinel (c : Nat) (buf : Int → List ReorderRequest) (hc : c ≠ 4294967295) :
    drain [sentinel] c buf = some ([sentinel], c, ([] : List ReorderRequest).foldl push_input buf) := by
  have h : ¬ sentinel.seq = c := by
    simp only [sentinel]
    exact fun e => hc e.symm
  simp [drain, h]

theorem S5_waiting_spec :
    ((ReorderLinkControl.fresh 1 S5_link).setNotifyOnReceive (some S5_keep)).handle_event 0
        (S5_request 7 0 0) = some S5_waiting ∧
    ∀ v, S5_waiting.input_buf v =
      [S5_request 7 0 0].filter (fun x => decide (x.vn = v)) := by
  have hq : (((ReorderLinkControl.fresh 1 S5_link).setNotifyOnReceive (some S5_keep)).info
      (S5_request 7 0 0).src).queue = [sentinel] := by decide
  have hr : (((ReorderLinkControl.fresh 1 S5_link).setNotifyOnReceive (some S5_keep)).info
      (S5_request 7 0 0).src).recv = 0 := by decide
  obtain ⟨s1, he, -, -, -, -, e5, -, -⟩ :=
    handle_event_inseq ((ReorderLinkControl.fresh 1 S5_link).setNotifyOnReceive (some S5_keep))
      0 (S5_request 7 0 0) [] [] sentinel 1 (by rw [hr]; decide)
      (by intro buf; rw [hq, hr]; exact drain_sentinel 1 buf (by decide))
  have hw : S5_waiting = s1 := by
    unfold S5_waiting
    rw [he]
  rw [hw]
  exact ⟨he, fun v => by rw [e5 v]; rfl⟩

/-- C16, as stated, fails.  First: with the handler registered and request 7:0 still queued
on virtual network 0, the arrival of 7:1 calls the handler although no input queue goes
from empty to non-empty.  Second: when 7:1 (virtual network 1) has arrived ahead of 7:0
(virtual network 0), the arrival of 7:0 makes the empty queue of virtual network 1
non-empty, and the handler is called once, with 0, not with 1. -/
theorem reorder_handler_not_per_transition :
    (¬ ∀ s1, S5_waiting.handle_event 0 (S5_request 7 0 1) = some s1 →
      (s1.notified ≠ S5_waiting.notified ↔
        ∃ v, S5_waiting.input_buf v = [] ∧ s1.input_buf v ≠ [])) ∧
    (run (ReorderLinkControl.fresh 2 S5_link) (S5_two_vns.take 2)).map
        (fun x => ((x.1.input_buf 1).length, x.1.notified)) = some (0, []) ∧
    (run (ReorderLinkControl.fresh 2 S5_link) S5_two_vns).map
        (fun x => ((x.1.input_buf 1).length, x.1.notified)) = some (1, [0]) := by
  refine ⟨?_, by decide, by decide⟩
  intro h
  have hq : (S5_waiting.info (S5_request 7 0 1).src).queue = [sentinel] := by decide
  have hr : (S5_waiting.info (S5_request 7 0 1).src).recv = 1 := by decide
  obtain ⟨s1, he, -, -, -, -, e5, -, -⟩ :=
    handle_event_inseq S5_waiting 0 (S5_request 7 0 1) [] [] sentinel 2 (by rw [hr]; decide)
      (by intro buf; rw [hq, hr]; exact drain_sentinel 2 buf (by decide))
  have hcalled : s1.notified ≠ S5_waiting.notified := by
    rcases handle_event_some S5_waiting s1 0 (S5_request 7 0 1) he with
      ⟨-, -, hn, -⟩ | ⟨hne, -⟩
    · rw [hn]
      decide
    · exact absurd (by rw [hr]; decide) hne
  obtain ⟨v, hv1, hv2⟩ := (h s1 he).mp hcalled
  rw [e5 v, hv1] at hv2
  rw [S5_waiting_spec.2 v] at hv1
  by_cases hv : (0 : Int) = v
  · subst hv
    revert hv1
    decide
  · apply hv2
    simp [S5_request, ReorderRequest.default, hv]

/-- C16, amended. `handle_event` invokes the registered receive handler once per
in-sequence arrival: with a handler registered, the handler is called when, and only when,
the arriving request carries the sequence number expected from its source, and then
exactly once, with the `vn` that was passed to `handle_event`.  Every call that makes a
previously empty input queue non-empty is such an arrival; an in-sequence arrival that
finds its queue non-empty is one too.  An out-of-sequence arrival changes no input queue
and calls nothing. -/
theorem reorder_handler_per_in_sequence_arrival (s s1 : ReorderLinkControl) (vn : Int)
    (r : ReorderRequest) (h : s.handle_event vn r = some s1) :
    (∀ f, s.receiveFunctor = some f →
      (r.seq = (s.info r.src).recv → s1.notified = s.notified ++ [vn]) ∧
      (r.seq ≠ (s.info r.src).recv → s1.notified = s.notified) ∧
      (s1.notified ≠ s.notified ↔ r.seq = (s.info r.src).recv)) ∧
    (∀ v, s.input_buf v = [] → s1.input_buf v ≠ [] → r.seq = (s.info r.src).recv) ∧
    (r.seq = (s.info r.src).recv → s1.input_buf r.vn ≠ []) ∧
    (r.seq ≠ (s.info r.src).recv → s1.input_buf = s.input_buf ∧ s1.notified = s.notified) := by
  rcases handle_event_some s s1 vn r h with ⟨hin, ⟨batch, hb⟩, hn, -⟩ | ⟨hout, hb, hn, -, -, -⟩
  · refine ⟨?_, fun _ _ _ => hin, ?_, fun hne => absurd hin hne⟩
    · intro f hf
      rw [notify_notified, hf] at hn
      simp only at hn
      refine ⟨fun _ => hn, fun hne => absurd hin hne, ?_⟩
      constructor
      · intro _; exact hin
      · intro _ heq
        rw [hn] at heq
        simp at heq
    · rw [hb r.vn]
      simp
  · refine ⟨?_, ?_, fun hin => absurd hin hout, fun _ => ⟨hb, hn⟩⟩
    · intro f _
      refine ⟨fun hin => absurd hin hout, fun _ => hn, ?_⟩
      constructor
      · intro hne; exact absurd hn hne
      · intro hin; exact absurd hin hout
    · intro v hv1 hv2
      rw [hb] at hv2
      exact absurd hv1 hv2

/-- Scenario S5: with the handler registered and request 7:0 still queued, the in-sequence
arrival of 7:1 on virtual network 0 calls the handler once more, with 0. -/
theorem reorder_handler_per_in_sequence_arrival_witness :
    S5_waiting.receiveFunctor = some S5_keep ∧ S5_waiting.notified = [0] ∧
    ∃ s1, S5_waiting.handle_event 0 (S5_request 7 0 1) = some s1 ∧
      s1.notified = S5_waiting.notified ++ [0] := by
  have hs : (S5_waiting.handle_event 0 (S5_request 7 0 1)).isSome = true := by decide
  obtain ⟨s1, he⟩ := Option.isSome_iff_exists.mp hs
  exact ⟨rfl, by decide, s1, he,
    ((reorder_handler_per_in_sequence_arrival S5_waiting s1 0 (S5_request 7 0 1) he).1
      S5_keep rfl).1 (by decide)⟩

/-- C17. The keep flag of the receive handler.  When the handler that `handle_event` calls
(on an in-sequence arrival) answers `false`, it is unregistered: however the calls go on,
nothing is invoked as long as `setNotifyOnReceive` is not called.  When it answers `true`
it stays registered, and the next in-sequence arrival invokes it again with the `vn` of
that call.  With no handler registered `handle_event` queues the request (in its input
queue when it is in sequence, in the heap of its source otherwise) and invokes nothing.
After `setNotifyOnReceive` registers a handler again, an in-sequence arrival invokes it. -/
theorem reorder_handler_keep_flag (s s1 : ReorderLinkControl) (vn : Int) (r : ReorderRequest)
    (h : s.handle_event vn r = some s1) :
    (∀ f, s.receiveFunctor = some f → r.seq = (s.info r.src).recv →
      s1.notified = s.notified ++ [vn] ∧
      (f s.notified vn = false →
        s1.receiveFunctor = none ∧
        ∀ ops s2 out, (∀ op ∈ ops, ∀ g, op ≠ Op.setNotifyOnReceive g) →
          run s1 ops = some (s2, out) →
          s2.notified = s1.notified ∧ s2.receiveFunctor = none) ∧
      (f s.notified vn = true →
        s1.receiveFunctor = some f ∧
        ∀ ops s2 out vn2 r2 s3, (∀ op ∈ ops, ∀ g, op ≠ Op.setNotifyOnReceive g) →
          run s1 ops = some (s2, out) → s2.notified = s1.notified →
          r2.seq = (s2.info r2.src).recv → s2.handle_event vn2 r2 = some s3 →
          s3.notified = s2.notified ++ [vn2])) ∧
    (s.receiveFunctor = none →
      s1.notified = s.notified ∧ s1.receiveFunctor = none ∧
      (r.seq = (s.info r.src).recv → r ∈ s1.input_buf r.vn) ∧
      (r.seq ≠ (s.info r.src).recv → r ∈ (s1.info r.src).queue)) ∧
    (∀ g vn2 r2 s3, r2.seq = (s1.info r2.src).recv →
      (s1.setNotifyOnReceive (some g)).handle_event vn2 r2 = some s3 →
      s3.notified = s1.notified ++ [vn2]) := by
  refine ⟨?_, ?_, ?_⟩
  · intro f hf hin
    rcases handle_event_some s s1 vn r h with ⟨-, -, hn, hfun⟩ | ⟨hout, -⟩
    · rw [notify_notified, hf] at hn
      rw [notify_receiveFunctor, hf] at hfun
      simp only at hn hfun
      refine ⟨hn, ?_, ?_⟩
      · intro hfalse
        rw [hfalse] at hfun
        simp only [Bool.false_eq_true, if_false] at hfun
        refine ⟨hfun, ?_⟩
        intro ops s2 out hno hrun
        obtain ⟨a, b⟩ := ((run_notified ops s1 s2 out hrun).2 hno).1 hfun
        exact ⟨b, a⟩
      · intro htrue
        rw [htrue] at hfun
        simp only [if_true] at hfun
        refine ⟨hfun, ?_⟩
        intro ops s2 out vn2 r2 s3 hno hrun hsame hin2 he2
        have hf2 := ((run_notified ops s1 s2 out hrun).2 hno).2 f hfun hsame
        rcases handle_event_some s2 s3 vn2 r2 he2 with ⟨-, -, hn2, -⟩ | ⟨hout2, -⟩
        · rw [notify_notified, hf2] at hn2
          exact hn2
        · exact absurd hin2 hout2
    · exact absurd hin hout
  · intro hnone
    rcases handle_event_some s s1 vn r h with ⟨hin, ⟨batch, hb⟩, hn, hfun⟩ |
      ⟨hout, -, hn, hfun, hq, -⟩
    · rw [notify_notified, hnone] at hn
      rw [notify_receiveFunctor, hnone] at hfun
      refine ⟨hn, hfun, fun _ => ?_, fun hne => absurd hin hne⟩
      rw [hb r.vn]
      simp
    · refine ⟨hn, by rw [hfun]; exact hnone, fun hin => absurd hin hout, fun _ => ?_⟩
      rw [hq, mem_pq_push]
      exact Or.inl rfl
  · intro g vn2 r2 s3 hin he
    rcases handle_event_some (s1.setNotifyOnReceive (some g)) s3 vn2 r2 he with
      ⟨-, -, hn, -⟩ | ⟨hout, -⟩
    · rw [notify_notified] at hn
      exact hn
    · exact absurd hin hout

/-- Scenario S5 with the handler `S5_once`: the arrival of 7:0 calls the handler, which
answers `false` and is unregistered; the in-sequence arrival of 7:1 calls nothing. -/
theorem reorder_handler_keep_flag_witness :
    (∃ s1, ((ReorderLinkControl.fresh 1 S5_link).setNotifyOnReceive (some S5_once)).handle_event
        0 (S5_request 7 0 0) = some s1 ∧ s1.notified = [0] ∧ s1.receiveFunctor = none) ∧
    (run (ReorderLinkControl.fresh 1 S5_link) S5_once_calls).map
      (fun x => (x.1.notified, (x.1.input_buf 0).map (fun q => q.seq))) = some ([0], [0, 1]) := by
  refine ⟨?_, by decide⟩
  have hs : (((ReorderLinkControl.fresh 1 S5_link).setNotifyOnReceive
      (some S5_once)).handle_event 0 (S5_request 7 0 0)).isSome = true := by decide
  obtain ⟨s1, he⟩ := Option.isSome_iff_exists.mp hs
  have hk := (reorder_handler_keep_flag _ s1 0 (S5_request 7 0 0) he).1 S5_once rfl (by decide)
  exact ⟨s1, he, hk.1, (hk.2.1 rfl).1⟩


/-! ## Reorder link controller: out-of-sequence arrivals and the dummy entry -/

/-- C21. An out-of-sequence arrival is only buffered: when `handle_event` receives a
request whose `seq` differs from the expected `recv` of its source, the call returns, the
request is added to the heap of that source (which grows by exactly that one entry), and
nothing else changes: the entries of all other peers, every input queue, every expected
`recv`, every send counter, the wrapped link controller and the handler registration keep
their values, and the receive handler is not invoked. -/
theorem reorder_out_of_sequence_only_buffered (s : ReorderLinkControl) (vn : Int)
    (r : ReorderRequest) (hr : r.seq ≠ (s.info r.src).recv) :
    ∃ s1, s.handle_event vn r = some s1 ∧
      (s1.info r.src).queue = pq_push r (s.info r.src).queue ∧
      (∀ x, x ∈ (s1.info r.src).queue ↔ x = r ∨ x ∈ (s.info r.src).queue) ∧
      (s1.info r.src).queue.length = (s.info r.src).queue.length + 1 ∧
      (∀ d, d ≠ r.src → s1.reorder_info d = s.reorder_info d ∧ s1.info d = s.info d) ∧
      s1.input_buf = s.input_buf ∧
      (∀ d, (s1.info d).recv = (s.info d).recv) ∧
      (∀ d, (s1.info d).send = (s.info d).send) ∧
      s1.notified = s.notified ∧ s1.receiveFunctor = s.receiveFunctor ∧
      s1.link_control = s.link_control ∧ s1.vns = s.vns := by
  obtain ⟨s1, he, e2, e1, e3, e4, e5, e6, e7, e8, e9⟩ := handle_event_outseq s vn r hr
  have hri : ∀ d, d ≠ r.src → s1.reorder_info d = s.reorder_info d := by
    intro d hd
    have he1 := he
    unfold ReorderLinkControl.handle_event at he1
    simp only [hr, if_false, Option.some.injEq] at he1
    rw [← he1]
    exact Function.update_noteq hd _ _
  refine ⟨s1, he, e1, ?_, ?_, fun d hd => ⟨hri d hd, e4 d hd⟩, e5, ?_, ?_, e9, e8, e6, e7⟩
  · intro x
    rw [e1, mem_pq_push]
  · rw [e1, length_pq_push]
  · intro d
    by_cases hd : d = r.src
    · rw [hd]; exact e2
    · rw [e4 d hd]
  · intro d
    by_cases hd : d = r.src
    · rw [hd]; exact e3
    · rw [e4 d hd]

/-- Scenario S5: request 2 of endpoint 7 arrives first; it is put in front of the dummy
entry of the heap and no input queue changes. -/
theorem reorder_out_of_sequence_only_buffered_witness :
    (S5_request 7 0 2).seq ≠ ((ReorderLinkControl.fresh 1 S5_link).info (S5_request 7 0 2).src).recv ∧
    ∃ s1, (ReorderLinkControl.fresh 1 S5_link).handle_event 0 (S5_request 7 0 2) = some s1 ∧
      (s1.info 7).queue = [S5_request 7 0 2, sentinel] ∧
      s1.input_buf = (ReorderLinkControl.fresh 1 S5_link).input_buf ∧ s1.notified = [] := by
  refine ⟨by decide, ?_⟩
  obtain ⟨s1, h1, h2, -, -, -, h5, -, -, h8, -⟩ :=
    reorder_out_of_sequence_only_buffered (ReorderLinkControl.fresh 1 S5_link) 0
      (S5_request 7 0 2) (by decide)
  refine ⟨s1, h1, ?_, h5, h8⟩
  have hsrc : (S5_request 7 0 2).src = 7 := rfl
  rw [hsrc] at h2
  rw [h2]
  decide

theorem arrivals_map_handle_event (src : Int) (l : List Nat) :
    arrivals src (l.map (fun i => Op.handle_event 0 (S5_request 7 0 i))) =
      if src = 7 then l.map (fun i => S5_request 7 0 i) else [] := by
  induction l with
  | nil => simp [arrivals]
  | cons x xs ih =>
    simp only [List.map_cons, arrivals, ih]
    have hsrc : (S5_request 7 0 x).src = 7 := rfl
    rw [hsrc]
    by_cases h : (7 : Int) = src
    · subst h; simp
    · have h2 : ¬ src = 7 := fun e => h e.symm
      simp [h, h2]

theorem S5_flood_state (vns : Int) (lc : SimpleNetwork) (n : Nat) (hn : n < 4294967295) :
    ∃ st out, run (ReorderLinkControl.fresh vns lc) (S5_flood n) = some (st, out) ∧
      (st.info 7).recv = n ∧ (st.info 7).queue = [sentinel] := by
  have hA : ∀ src, arrivals src (S5_flood n) =
      if src = 7 then (List.range n).map (fun i => S5_request 7 0 i) else [] :=
    fun src => arrivals_map_handle_event src (List.range n)
  have hseq : (arrivals 7 (S5_flood n)).map (fun r => r.seq) = List.range n := by
    rw [hA 7, if_pos rfl, List.map_map]
    have : ((fun r : ReorderRequest => r.seq) ∘ fun i => S5_request 7 0 i) = id := by
      funext i; rfl
    rw [this, List.map_id]
  have hcount : ∀ src, (arrivals src (S5_flood n)).length < 4294967295 := by
    intro src
    rw [hA src]
    split_ifs
    · rw [List.length_map, List.length_range]; exact hn
    · simp
  have hperm : ((arrivals 7 (S5_flood n)).map (fun r => r.seq)).Perm (List.range n) := by
    rw [hseq]
  obtain ⟨-, hnd, hlt⟩ := hyps_of_perm _ n hn hperm
  obtain ⟨st, out, hrun, hP, hF⟩ := run_inv vns lc (S5_flood n) hcount
  obtain ⟨hO, -⟩ := hF 7 hnd hlt
  have hrecv := recv_eq_of_complete _ _ n _ hn hperm hO
  refine ⟨st, out, hrun, hrecv, ?_⟩
  have hPs := hP 7
  have hl : (st.info 7).queue.length = 1 := by
    have h1 := hPs.count
    have h2 := hperm.length_eq
    rw [List.length_map, List.length_range] at h2
    omega
  have hs := hPs.sentinel_mem
  match hq : (st.info 7).queue, hl, hs with
  | [x], _, hs' =>
    have : sentinel = x := by simpa using hs'
    rw [this]

theorem pq_push_before_sentinel (r : ReorderRequest) (l : List ReorderRequest)
    (hl : ∀ x ∈ l, x.seq < r.seq) (hr : r.seq < 4294967295) :
    pq_push r (l ++ [sentinel]) = l ++ [r, sentinel] := by
  induction l with
  | nil =>
    have h : r.seq < sentinel.seq := hr
    simp [pq_push, h]
  | cons x xs ih =>
    have hx : ¬ r.seq < x.seq := by
      have := hl x (List.mem_cons_self _ _)
      omega
    rw [List.cons_append, pq_push, if_neg hx, ih (fun y hy => hl y (List.mem_cons_of_mem _ hy))]
    rfl

theorem S5_backlog_state (vns : Int) (lc : SimpleNetwork) (n : Nat) (hn : n < 4294967295) :
    ∃ st out, run (ReorderLinkControl.fresh vns lc) (S5_backlog n) = some (st, out) ∧
      (st.info 7).recv = 0 ∧
      (st.info 7).queue = (List.range' 1 n).map (fun i => S5_request 7 0 i) ++ [sentinel] := by
  induction n with
  | zero => exact ⟨_, _, rfl, rfl, rfl⟩
  | succ n ih =>
    obtain ⟨st, out, hrun, hrecv, hq⟩ := ih (by omega)
    have hops : S5_backlog (n + 1) =
        S5_backlog n ++ [Op.handle_event 0 (S5_request 7 0 (1 + n))] := by
      unfold S5_backlog
      rw [List.range'_1_concat, List.map_append]
      rfl
    have hsrc : (S5_request 7 0 (1 + n)).src = 7 := rfl
    have hseq : (S5_request 7 0 (1 + n)).seq = 1 + n := rfl
    have hne : (S5_request 7 0 (1 + n)).seq ≠ (st.info (S5_request 7 0 (1 + n)).src).recv := by
      rw [hsrc, hseq, hrecv]
      omega
    obtain ⟨st1, e1, e2, e3, -⟩ := handle_event_outseq st 0 (S5_request 7 0 (1 + n)) hne
    rw [hsrc] at e2 e3
    refine ⟨st1, out, ?_, by rw [e2, hrecv], ?_⟩
    · rw [hops, run_snoc, hrun]
      simp [step, e1]
    · rw [e3, hq, pq_push_before_sentinel _ _ ?_ (by rw [hseq]; omega), List.range'_1_concat,
        List.map_append]
      · simp
      · intro x hx
        obtain ⟨i, hi, rfl⟩ := List.mem_map.mp hx
        rw [List.mem_range'_1] at hi
        rw [hseq]
        have : (S5_request 7 0 i).seq = i := rfl
        omega

theorem drain_backlog (k c : Nat) (buf : Int → List ReorderRequest)
    (hc : c + k ≤ 4294967295) :
    drain ((List.range' c k).map (fun i => S5_request 7 0 i) ++ [sentinel]) c buf =
      drain [sentinel] (c + k)
        (((List.range' c k).map (fun i => S5_request 7 0 i)).foldl push_input buf) := by
  induction k generalizing c buf with
  | zero => rfl
  | succ k ih =>
    have hseq : (S5_request 7 0 c).seq = c := rfl
    have hmod : (c + 1) % 4294967296 = c + 1 := Nat.mod_eq_of_lt (by omega)
    rw [List.range'_succ, List.map_cons, List.cons_append, drain, if_pos hseq, hmod,
      ih (c + 1) _ (by omega), List.foldl_cons, show c + 1 + k = c + (k + 1) by omega]

/-- C22, as stated, fails.  First: after the requests `0 .. 0xFFFFFFFD` of endpoint 7
have arrived in order, the expected number of endpoint 7 is `0xFFFFFFFE`, which is below
`0xFFFFFFFF`, and its heap holds the dummy entry; yet the arrival of request `0xFFFFFFFE`
raises the expected number to `0xFFFFFFFF`, the delivery loop pops the dummy entry and
reads `top()` on the empty heap: the call has no result.  Second: no bound on the
expected number helps.  After the requests `1 .. 0xFFFFFFFE` have arrived ahead of request
0, the expected number is still 0 and the heap holds the dummy entry; the arrival of
request 0 makes the loop deliver the whole backlog, pop the dummy entry and read `top()`
on the empty heap. -/
theorem reorder_sentinel_popped_below_limit :
    (∃ st out, run (ReorderLinkControl.fresh 1 S5_link) (S5_flood 4294967294) = some (st, out) ∧
      (st.info 7).recv = 4294967294 ∧ (st.info 7).recv < 4294967295 ∧
      (st.info 7).queue = [sentinel] ∧ sentinel ∈ (st.info 7).queue ∧
      (∀ buf, drain (st.info 7).queue (((st.info 7).recv + 1) % 4294967296) buf = none) ∧
      st.handle_event 0 (S5_request 7 0 4294967294) = none) ∧
    (∃ st out, run (ReorderLinkControl.fresh 1 S5_link) (S5_backlog 4294967294) =
        some (st, out) ∧
      (st.info 7).recv = 0 ∧ sentinel ∈ (st.info 7).queue ∧
      (∀ buf, drain (st.info 7).queue (((st.info 7).recv + 1) % 4294967296) buf = none) ∧
      st.handle_event 0 (S5_request 7 0 0) = none) := by
  constructor
  · obtain ⟨st, out, hrun, hrecv, hq⟩ :=
      S5_flood_state 1 S5_link 4294967294 (by norm_num)
    have hd : ∀ buf,
        drain (st.info 7).queue (((st.info 7).recv + 1) % 4294967296) buf = none := by
      intro buf
      rw [hq, hrecv]
      simp [drain, sentinel]
    refine ⟨st, out, hrun, hrecv, by rw [hrecv]; norm_num, hq, by rw [hq]; simp, hd, ?_⟩
    have hsrc : (S5_request 7 0 4294967294).src = 7 := rfl
    have hseq : (S5_request 7 0 4294967294).seq = 4294967294 := rfl
    unfold ReorderLinkControl.handle_event
    simp only [hsrc, hseq, hrecv, if_true]
    rw [← hrecv, hd]
  · obtain ⟨st, out, hrun, hrecv, hq⟩ :=
      S5_backlog_state 1 S5_link 4294967294 (by norm_num)
    have hd : ∀ buf,
        drain (st.info 7).queue (((st.info 7).recv + 1) % 4294967296) buf = none := by
      intro buf
      rw [hq, hrecv, drain_backlog 4294967294 1 buf (by norm_num)]
      simp [drain, sentinel]
    refine ⟨st, out, hrun, hrecv, by rw [hq]; simp, hd, ?_⟩
    have hsrc : (S5_request 7 0 0).src = 7 := rfl
    have hseq : (S5_request 7 0 0).seq = 0 := rfl
    unfold ReorderLinkControl.handle_event
    simp only [hsrc, hseq, hrecv, if_true]
    rw [← hrecv, hd]

/-- C22, amended. In every state reached from a fresh controller by calls in which fewer
than `2^32 - 1` requests arrived from each peer, the expected number of every peer is
below `0xFFFFFFFF` and its heap is non-empty and still contains the dummy entry.  As long
as the request being handled keeps the count of its source below `2^32 - 1`, both `top()`
reads of `handle_event` are defined: the call returns, the delivery loop ends on an entry
that stays in the heap, what it pops are requests with `seq` below `0xFFFFFFFF`, never the
dummy entry, and the dummy entry is in the heap afterwards. -/
theorem reorder_sentinel_stays (vns : Int) (lc : SimpleNetwork) (ops : List Op)
    (hcount : ∀ src, (arrivals src ops).length < 4294967295) :
    ∃ st out, run (ReorderLinkControl.fresh vns lc) ops = some (st, out) ∧
      ∀ src, (st.info src).recv < 4294967295 ∧ (st.info src).queue ≠ [] ∧
        sentinel ∈ (st.info src).queue ∧
        ∀ vn r, r.src = src → (arrivals src ops).length + 1 < 4294967295 →
          (∃ st1, st.handle_event vn r = some st1 ∧ sentinel ∈ (st1.info src).queue) ∧
          ∃ batch top rest, (st.info src).queue = batch ++ top :: rest ∧
            (∀ buf, drain (st.info src).queue (((st.info src).recv + 1) % 4294967296) buf =
              some (top :: rest, (st.info src).recv + 1 + batch.length,
                batch.foldl push_input buf)) ∧
            sentinel ∈ top :: rest ∧
            ∀ x ∈ batch, x ≠ sentinel ∧ x.seq < 4294967295 := by
  obtain ⟨st, out, hrun, hP, -⟩ := run_inv vns lc ops hcount
  refine ⟨st, out, hrun, ?_⟩
  intro src
  have hPs := hP src
  have hq1 : 1 ≤ (st.info src).queue.length := List.length_pos_of_mem hPs.sentinel_mem
  refine ⟨?_, ?_, hPs.sentinel_mem, ?_⟩
  · have := hPs.count
    have := hcount src
    omega
  · intro e
    rw [e] at hq1
    simp at hq1
  · intro vn r hsrc hA
    subst hsrc
    obtain ⟨batch, top, rest, h1, h2, -, h4, h5, h6, h7⟩ :=
      peer_step_inseq (arrivals r.src ops) r.src (st.info r.src).recv (st.info r.src).queue r
        hPs hA
    refine ⟨?_, batch, top, rest, h1, h5, h6.sentinel_mem, ?_⟩
    · by_cases hr : r.seq = (st.info r.src).recv
      · obtain ⟨st1, e1, -, e3, -⟩ := handle_event_inseq st vn r batch rest top _ hr h5
        exact ⟨st1, e1, by rw [e3]; exact h6.sentinel_mem⟩
      · obtain ⟨st1, e1, -, e3, -⟩ := handle_event_outseq st vn r hr
        exact ⟨st1, e1, by rw [e3, mem_pq_push]; exact Or.inr hPs.sentinel_mem⟩
    · intro x hx
      refine ⟨(h7 x hx).2, ?_⟩
      have : x.seq ∈ List.range' ((st.info r.src).recv + 1) batch.length := by
        rw [← h2]; exact List.mem_map_of_mem _ hx
      rw [List.mem_range'_1] at this
      omega

/-- Scenario S5: after the calls of the scenario the heap of endpoint 7 still holds the
dummy entry, and the expected number 3 is below `0xFFFFFFFF`. -/
theorem reorder_sentinel_stays_witness :
    (∀ src, (arrivals src S5_calls).length < 4294967295) ∧
    ∃ st out, run (ReorderLinkControl.fresh 1 S5_link) S5_calls = some (st, out) ∧
      (st.info 7).recv < 4294967295 ∧ sentinel ∈ (st.info 7).queue := by
  refine ⟨S5_calls_count, ?_⟩
  obtain ⟨st, out, hrun, h⟩ := reorder_sentinel_stays 1 S5_link S5_calls S5_calls_count
  exact ⟨st, out, hrun, (h 7).1, (h 7).2.2.1⟩


/-! ## Reorder link controller: the heap holds nothing deliverable -/

theorem pairwise_pq_push_above (r : ReorderRequest) (q : List ReorderRequest)
    (hq : q.Pairwise (fun a b => a.seq < b.seq ∨ (a = sentinel ∧ a.seq ≤ b.seq)))
    (hnew : ∀ y ∈ q, y.seq = r.seq → y = sentinel) :
    (pq_push r q).Pairwise (fun a b => a.seq < b.seq ∨ (a = sentinel ∧ a.seq ≤ b.seq)) := by
  induction q with
  | nil => simp [pq_push]
  | cons y ys ih =>
    simp only [pq_push]
    rw [List.pairwise_cons] at hq
    split_ifs with h
    · rw [List.pairwise_cons]
      refine ⟨?_, List.pairwise_cons.mpr hq⟩
      intro x hx
      rcases List.mem_cons.mp hx with h1 | h1
      · rw [h1]; exact Or.inl h
      · rcases hq.1 x h1 with h2 | h2
        · exact Or.inl (lt_trans h h2)
        · exact Or.inl (lt_of_lt_of_le h h2.2)
    · rw [List.pairwise_cons]
      refine ⟨?_, ih hq.2 (fun x hx => hnew x (List.mem_cons_of_mem _ hx))⟩
      intro x hx
      rcases (mem_pq_push r x ys).mp hx with h1 | h1
      · rw [h1]
        by_cases he : y.seq = r.seq
        · exact Or.inr ⟨hnew y (List.mem_cons_self _ _) he, le_of_eq he⟩
        · left; omega
      · exact hq.1 x h1

theorem drain_above (q : List ReorderRequest) (c : Nat) (buf : Int → List ReorderRequest)
    (q1 : List ReorderRequest) (c1 : Nat) (buf1 : Int → List ReorderRequest)
    (hq : q.Pairwise (fun a b => a.seq < b.seq ∨ (a = sentinel ∧ a.seq ≤ b.seq)))
    (hab : ∀ x ∈ q, c ≤ x.seq) (hs : sentinel ∈ q) (hlen : c + q.length ≤ 4294967295)
    (h : drain q c buf = some (q1, c1, buf1)) :
    ∀ x ∈ q1, c1 < x.seq := by
  induction q generalizing c buf with
  | nil => simp at hs
  | cons top rest ih =>
    rw [List.pairwise_cons] at hq
    simp only [List.length_cons] at hlen
    simp only [drain] at h
    split_ifs at h with ht
    · have hne : top ≠ sentinel := by
        intro e
        rw [e] at ht
        simp only [sentinel] at ht
        omega
      have hs1 : sentinel ∈ rest := by
        rcases List.mem_cons.mp hs with h1 | h1
        · exact absurd h1.symm hne
        · exact h1
      have hc : (c + 1) % 4294967296 = c + 1 := Nat.mod_eq_of_lt (by omega)
      rw [hc] at h
      refine ih (c + 1) _ hq.2 ?_ hs1 (by omega) h
      intro x hx
      rcases hq.1 x hx with h1 | h1
      · omega
      · exact absurd h1.1 hne
    · simp only [Option.some.injEq, Prod.mk.injEq] at h
      obtain ⟨h1, h2, -⟩ := h
      subst h1
      subst h2
      intro x hx
      have htop := hab top (List.mem_cons_self _ _)
      rcases List.mem_cons.mp hx with h1 | h1
      · rw [h1]; omega
      · rcases hq.1 x h1 with h2 | h2
        · omega
        · have := h2.2; omega

theorem above_step_inseq (A : List ReorderRequest) (src : Int) (recv : Nat)
    (queue batch rest : List ReorderRequest) (top r : ReorderRequest)
    (hP : PeerInv A src recv queue) (hinv : AboveInv A recv queue) (hr : r.seq = recv)
    (hA : A.length + 1 < 4294967295)
    (h1 : queue = batch ++ top :: rest)
    (h2 : batch.map (fun x => x.seq) = List.range' (recv + 1) batch.length)
    (h5 : ∀ buf, drain queue ((recv + 1) % 4294967296) buf =
      some (top :: rest, recv + 1 + batch.length, batch.foldl push_input buf))
    (h7 : ∀ x ∈ batch, x.src = src ∧ x ≠ sentinel) :
    AboveInv (A ++ [r]) (recv + 1 + batch.length) (top :: rest) := by
  have hsub : ∀ x ∈ top :: rest, x ∈ queue := by
    intro x hx
    rw [h1]
    exact List.mem_append_right _ hx
  have hcnt := hP.count
  have hc : (recv + 1) % 4294967296 = recv + 1 := Nat.mod_eq_of_lt (by omega)
  refine ⟨?_, ?_, ?_, ?_⟩
  · intro x hx
    rcases hinv.mem x (hsub x hx) with h | h
    · exact Or.inl h
    · exact Or.inr (List.mem_append_left _ h)
  · have hd := h5 (fun _ => [])
    rw [hc] at hd
    refine drain_above queue (recv + 1) _ _ _ _ hinv.sorted ?_ hP.sentinel_mem (by omega) hd
    intro x hx
    have := hinv.above x hx
    omega
  · intro j hj
    rw [List.map_append, List.mem_append]
    by_cases hj1 : j < recv
    · exact Or.inl (hinv.below j hj1)
    · by_cases hj2 : j = recv
      · right
        rw [hj2, ← hr]
        simp
      · left
        have hmem : j ∈ List.range' (recv + 1) batch.length := by
          rw [List.mem_range'_1]
          omega
        rw [← h2] at hmem
        obtain ⟨x, hx1, hx2⟩ := List.mem_map.mp hmem
        have hxq : x ∈ queue := by rw [h1]; exact List.mem_append_left _ hx1
        rcases hinv.mem x hxq with h | h
        · exact absurd h (h7 x hx1).2
        · rw [← hx2]
          exact List.mem_map_of_mem _ h
  · have hs := hinv.sorted
    rw [h1] at hs
    exact (List.pairwise_append.mp hs).2.1

theorem above_step_outseq (A : List ReorderRequest) (recv : Nat)
    (queue : List ReorderRequest) (r : ReorderRequest)
    (hinv : AboveInv A recv queue) (hr : r.seq ≠ recv)
    (hnew : r.seq ∉ A.map (fun x => x.seq)) :
    AboveInv (A ++ [r]) recv (pq_push r queue) := by
  refine ⟨?_, ?_, ?_, ?_⟩
  · intro x hx
    rcases (mem_pq_push _ _ _).mp hx with h | h
    · right; rw [h]; simp
    · rcases hinv.mem x h with h3 | h3
      · exact Or.inl h3
      · exact Or.inr (List.mem_append_left _ h3)
  · intro x hx
    rcases (mem_pq_push _ _ _).mp hx with h | h
    · rw [h]
      by_contra hc
      have hlt : r.seq < recv := by omega
      exact hnew (hinv.below _ hlt)
    · exact hinv.above x h
  · intro j hj
    rw [List.map_append, List.mem_append]
    exact Or.inl (hinv.below j hj)
  · refine pairwise_pq_push_above r queue hinv.sorted ?_
    intro y hy he
    rcases hinv.mem y hy with h | h
    · exact h
    · exact absurd (by rw [← he]; exact List.mem_map_of_mem _ h) hnew

theorem above_inv_run (vns : Int) (lc : SimpleNetwork) (ops : List Op) (src : Int)
    (hnd : ((arrivals src ops).map (fun r => r.seq)).Nodup)
    (hcount : ∀ s, (arrivals s ops).length < 4294967295) :
    ∃ st out, run (ReorderLinkControl.fresh vns lc) ops = some (st, out) ∧
      AboveInv (arrivals src ops) (st.info src).recv (st.info src).queue := by
  induction ops using List.reverseRecOn with
  | nil =>
    refine ⟨_, _, rfl, ?_⟩
    have hq : ((ReorderLinkControl.fresh vns lc).info src).queue = [sentinel] := rfl
    have hr : ((ReorderLinkControl.fresh vns lc).info src).recv = 0 := rfl
    rw [hq, hr]
    refine ⟨?_, ?_, ?_, ?_⟩
    · intro x hx; left; simpa using hx
    · intro x hx
      have : x = sentinel := by simpa using hx
      rw [this]; simp [sentinel]
    · intro j hj; omega
    · simp
  | append_singleton ops op ih =>
    have hcount1 : ∀ s, (arrivals s ops).length < 4294967295 := by
      intro s
      have := hcount s
      rw [arrivals_append, List.length_append] at this
      omega
    have hnd1 : ((arrivals src ops).map (fun r => r.seq)).Nodup := by
      rw [arrivals_append, List.map_append] at hnd
      exact (List.nodup_append.mp hnd).1
    obtain ⟨st, out, hrun, hinv⟩ := ih hnd1 hcount1
    obtain ⟨st0, out0, hrun0, hP, -⟩ := run_inv vns lc ops hcount1
    rw [hrun] at hrun0
    simp only [Option.some.injEq, Prod.mk.injEq] at hrun0
    obtain ⟨hst, -⟩ := hrun0
    subst hst
    have hPs := hP src
    rw [run_snoc, hrun]
    simp only
    cases op with
    | send req vn =>
      refine ⟨_, _, rfl, ?_⟩
      have hA : arrivals src (ops ++ [Op.send req vn]) = arrivals src ops := by
        rw [arrivals_append]; simp [arrivals]
      rw [hA, (send_info st req vn src).1, (send_info st req vn src).2]
      exact hinv
    | handle_event vn r =>
      by_cases hsrc : r.src = src
      · subst hsrc
        have hc := hcount r.src
        rw [arrivals_snoc_handle_event, if_pos rfl, List.length_append] at hc
        simp only [List.length_cons, List.length_nil] at hc
        have hnew : r.seq ∉ (arrivals r.src ops).map (fun x => x.seq) := by
          rw [arrivals_snoc_handle_event, if_pos rfl, List.map_append] at hnd
          have := (List.nodup_append.mp hnd).2.2
          intro hm
          exact this hm (by simp)
        rw [arrivals_snoc_handle_event, if_pos rfl]
        by_cases hr : r.seq = (st.info r.src).recv
        · obtain ⟨batch, top, rest, h1, h2, -, -, h5, -, h7⟩ :=
            peer_step_inseq (arrivals r.src ops) r.src (st.info r.src).recv
              (st.info r.src).queue r hPs (by omega)
          obtain ⟨st1, e1, e2, e3, -⟩ := handle_event_inseq st vn r batch rest top _ hr h5
          refine ⟨st1, out, by simp [step, e1], ?_⟩
          rw [e2, e3]
          exact above_step_inseq _ r.src _ _ batch rest top r hPs hinv hr (by omega) h1 h2 h5 h7
        · obtain ⟨st1, e1, e2, e3, -⟩ := handle_event_outseq st vn r hr
          refine ⟨st1, out, by simp [step, e1], ?_⟩
          rw [e2, e3]
          exact above_step_outseq _ _ _ r hinv hr hnew
      · have hc := hcount r.src
        rw [arrivals_snoc_handle_event, if_pos rfl, List.length_append] at hc
        simp only [List.length_cons, List.length_nil] at hc
        rw [arrivals_snoc_handle_event, if_neg hsrc]
        have hsrc1 : src ≠ r.src := fun e => hsrc e.symm
        by_cases hr : r.seq = (st.info r.src).recv
        · obtain ⟨batch, top, rest, -, -, -, -, h5, -, -⟩ :=
            peer_step_inseq (arrivals r.src ops) r.src (st.info r.src).recv
              (st.info r.src).queue r (hP r.src) (by omega)
          obtain ⟨st1, e1, -, -, -, e4, -⟩ := handle_event_inseq st vn r batch rest top _ hr h5
          refine ⟨st1, out, by simp [step, e1], ?_⟩
          rw [e4 src hsrc1]
          exact hinv
        · obtain ⟨st1, e1, -, -, -, e4, -⟩ := handle_event_outseq st vn r hr
          refine ⟨st1, out, by simp [step, e1], ?_⟩
          rw [e4 src hsrc1]
          exact hinv
    | recv vn =>
      have hA : arrivals src (ops ++ [Op.recv vn]) = arrivals src ops := by
        rw [arrivals_append]; simp [arrivals]
      have hinfo : (st.recv vn).2.info src = st.info src := by
        unfold ReorderLinkControl.recv
        cases st.input_buf vn <;> rfl
      simp only [step]
      cases hq : (st.recv vn).1 with
      | none =>
        refine ⟨_, _, rfl, ?_⟩
        rw [hA, hinfo]
        exact hinv
      | some req =>
        refine ⟨_, _, rfl, ?_⟩
        rw [hA, hinfo]
        exact hinv
    | setNotifyOnReceive f =>
      refine ⟨_, _, rfl, ?_⟩
      have hA : arrivals src (ops ++ [Op.setNotifyOnReceive f]) = arrivals src ops := by
        rw [arrivals_append]; simp [arrivals]
      rw [hA]
      exact hinv
    | network sp sr =>
      refine ⟨_, _, rfl, ?_⟩
      have hA : arrivals src (ops ++ [Op.network sp sr]) = arrivals src ops := by
        rw [arrivals_append]; simp [arrivals]
      rw [hA]
      exact hinv

/-- C27. Reachable-state invariant of the receive path.  Provided no sequence number
arrives twice from source `src` and fewer than `2^32 - 1` requests arrive from it (and
from every other source, so that all calls return), after every initial part of the calls,
in particular after every `handle_event` call, every entry of the heap of `src` carries a
`seq` strictly above the expected `recv` of `src`: the heap never holds a request that is
deliverable (`seq = recv`) or stale (`seq < recv`).  Each real entry is an arrival of
`src`. -/
theorem reorder_heap_above_expected (vns : Int) (lc : SimpleNetwork) (ops : List Op)
    (src : Int) (hnd : ((arrivals src ops).map (fun r => r.seq)).Nodup)
    (hcount : ∀ s, (arrivals s ops).length < 4294967295) :
    ∀ n, ∃ st out, run (ReorderLinkControl.fresh vns lc) (ops.take n) = some (st, out) ∧
      (∀ x ∈ (st.info src).queue, (st.info src).recv < x.seq) ∧
      (∀ x ∈ (st.info src).queue, x ≠ sentinel →
        x ∈ arrivals src (ops.take n) ∧ x.seq ≠ (st.info src).recv ∧
        ¬ x.seq < (st.info src).recv) := by
  intro n
  have hcount1 : ∀ s, (arrivals s (ops.take n)).length < 4294967295 := by
    intro s
    obtain ⟨tl, htl⟩ := arrivals_take s ops n
    have := hcount s
    rw [htl, List.length_append] at this
    omega
  obtain ⟨tl, htl⟩ := arrivals_take src ops n
  have hnd1 : ((arrivals src (ops.take n)).map (fun r => r.seq)).Nodup := by
    rw [htl, List.map_append] at hnd
    exact (List.nodup_append.mp hnd).1
  obtain ⟨st, out, hrun, hinv⟩ := above_inv_run vns lc (ops.take n) src hnd1 hcount1
  refine ⟨st, out, hrun, hinv.above, ?_⟩
  intro x hx hne
  have := hinv.above x hx
  rcases hinv.mem x hx with h | h
  · exact absurd h hne
  · exact ⟨h, by omega, by omega⟩

/-- Scenario S5: while request 2 of endpoint 7 waits in the heap (after the first two
calls), the expected number of endpoint 7 is 0, below 2. -/
theorem reorder_heap_above_expected_witness :
    ((arrivals 7 S5_calls).map (fun r => r.seq)).Nodup ∧
    (∀ s, (arrivals s S5_calls).length < 4294967295) ∧
    ∃ st out, run (ReorderLinkControl.fresh 1 S5_link) (S5_calls.take 2) = some (st, out) ∧
      ∀ x ∈ (st.info 7).queue, (st.info 7).recv < x.seq := by
  have hnd : ((arrivals 7 S5_calls).map (fun r => r.seq)).Nodup := by decide
  refine ⟨hnd, S5_calls_count, ?_⟩
  obtain ⟨st, out, hrun, h, -⟩ :=
    reorder_heap_above_expected 1 S5_link S5_calls 7 hnd S5_calls_count 2
  exact ⟨st, out, hrun, h⟩


/-! ## Legacy dragonfly: the init phase -/

namespace topo_dragonfly_legacy

theorem i32_of_lt (n : Nat) (h : n < 2147483648) : i32 n = (n : Int) := by
  unfold i32
  rw [Nat.mod_eq_of_lt (by omega), if_pos h]

theorem foldl_push_i32 (l : List Nat) (init : List Int) (h : ∀ x ∈ l, x < 2147483648) :
    l.foldl (fun (out : List Int) (p : Nat) => out ++ [i32 p]) init =
      init ++ l.map Int.ofNat := by
  induction l generalizing init with
  | nil => simp
  | cons x xs ih =>
    rw [List.foldl_cons, ih _ (fun y hy => h y (List.mem_cons_of_mem _ hy)),
      i32_of_lt x (h x (List.mem_cons_self _ _))]
    simp

theorem mem_map_range (n : Nat) (i : Int) :
    i ∈ (List.range n).map Int.ofNat ↔ 0 ≤ i ∧ i < (n : Int) := by
  simp only [List.mem_map, List.mem_range]
  constructor
  · rintro ⟨a, ha, rfl⟩
    have h1 : Int.ofNat a = (a : Int) := rfl
    rw [h1]
    omega
  · rintro ⟨h0, h1⟩
    refine ⟨i.toNat, by omega, ?_⟩
    have h2 : Int.ofNat i.toNat = (i.toNat : Int) := rfl
    rw [h2]
    omega

theorem mem_map_range' (s n : Nat) (i : Int) :
    i ∈ (List.range' s n).map Int.ofNat ↔ (s : Int) ≤ i ∧ i < (s : Int) + (n : Int) := by
  simp only [List.mem_map, List.mem_range'_1]
  constructor
  · rintro ⟨a, ha, rfl⟩
    have h1 : Int.ofNat a = (a : Int) := rfl
    rw [h1]
    omega
  · rintro ⟨h0, h1⟩
    refine ⟨i.toNat, by omega, ?_⟩
    have h2 : Int.ofNat i.toNat = (i.toNat : Int) := rfl
    rw [h2]
    omega

theorem nodup_map_ofNat (l : List Nat) (h : l.Nodup) : (l.map Int.ofNat).Nodup :=
  h.map (fun _ _ e => Int.ofNat.inj e)

theorem routeInitData_broadcast_global (t : topo_dragonfly_legacy) (port : Int)
    (ev : topo_dragonfly_legacy_event) (outPorts : List Int)
    (hb : ev.dest.host = u32 INIT_BROADCAST_ADDR)
    (hg : u32 port ≥ t.params.p + t.params.a - 1)
    (hk : t.params.p + t.params.a - 1 ≤ 2147483648) :
    t.routeInitData port ev outPorts =
      some (ev, outPorts ++ (List.range (t.params.p + t.params.a - 1)).map Int.ofNat) := by
  unfold routeInitData
  rw [if_pos hb, if_pos hg, foldl_push_i32]
  intro x hx
  rw [List.mem_range] at hx
  omega

theorem routeInitData_broadcast_group (t : topo_dragonfly_legacy) (port : Int)
    (ev : topo_dragonfly_legacy_event) (outPorts : List Int)
    (hb : ev.dest.host = u32 INIT_BROADCAST_ADDR)
    (hg : ¬ u32 port ≥ t.params.p + t.params.a - 1) (hi : u32 port ≥ t.params.p)
    (hl : t.params.p + t.params.a - 1 ≤ t.params.k) (hk : t.params.k ≤ 2147483648) :
    t.routeInitData port ev outPorts =
      some (ev, outPorts ++ (List.range t.params.p).map Int.ofNat ++
        if ev.src_group = t.group_id then
          (List.range' (t.params.p + t.params.a - 1)
            (t.params.k - (t.params.p + t.params.a - 1))).map Int.ofNat
        else []) := by
  unfold routeInitData
  rw [if_pos hb, if_neg hg, if_pos hi]
  simp only
  have h1 : ∀ x ∈ List.range t.params.p, x < 2147483648 := by
    intro x hx
    rw [List.mem_range] at hx
    omega
  have h2 : ∀ x ∈ List.range' (t.params.p + t.params.a - 1)
      (t.params.k - (t.params.p + t.params.a - 1)), x < 2147483648 := by
    intro x hx
    rw [List.mem_range'_1] at hx
    omega
  split_ifs
  · rw [foldl_push_i32 _ _ h1, foldl_push_i32 _ _ h2]
  · rw [foldl_push_i32 _ _ h1, List.append_nil]

theorem routeInitData_broadcast_host (t : topo_dragonfly_legacy) (port : Int)
    (ev : topo_dragonfly_legacy_event) (outPorts : List Int)
    (hb : ev.dest.host = u32 INIT_BROADCAST_ADDR)
    (hg : ¬ u32 port ≥ t.params.p + t.params.a - 1) (hi : ¬ u32 port ≥ t.params.p)
    (hk : t.params.k < 2147483648) :
    t.routeInitData port ev outPorts =
      some (ev, outPorts ++ ((List.range t.params.k).map Int.ofNat).filter
        (fun i => decide (i ≠ port))) := by
  unfold routeInitData
  rw [if_pos hb, if_neg hg, if_neg hi, i32_of_lt _ hk, Int.toNat_ofNat,
    topo_singlerouter.foldl_push_ne]

end topo_dragonfly_legacy

/-- C24. Broadcast fan-out of the legacy dragonfly (`dest.host` is the broadcast address,
`outPorts` empty before the call), for a router whose port layout fits its radix
(`a >= 1`, `p + a - 1 <= k`, `k` an `int`).  Arriving on a host port the call yields every
port of `[0, k)` except the arrival port; arriving on an intra-group port it yields the
host ports `[0, p)` followed, when and only when the `src_group` of the event is the group
of this router, by the global ports `[p+a-1, k)`; arriving on a global port it yields the
host and intra-group ports `[0, p+a-1)`.  In all three cases the event is unchanged, the
result is in ascending order without duplicates and does not contain the arrival port; a
broadcast from a global port is never forwarded onto a global port, one from an
intra-group port never onto an intra-group port. -/
theorem dragonfly_broadcast_fanout (t : topo_dragonfly_legacy) (port : Int)
    (ev : topo_dragonfly_legacy_event)
    (hb : ev.dest.host = u32 INIT_BROADCAST_ADDR)
    (ha : 1 ≤ t.params.a) (hl : t.params.p + t.params.a - 1 ≤ t.params.k)
    (hk : t.params.k < 2147483648) (hp0 : 0 ≤ port) (hp1 : port < 2147483648) :
    ∃ out, t.routeInitData port ev [] = some (ev, out) ∧
      (port < (t.params.p : Int) →
        out = ((List.range t.params.k).map Int.ofNat).filter (fun i => decide (i ≠ port)) ∧
        ∀ i : Int, i ∈ out ↔ 0 ≤ i ∧ i < (t.params.k : Int) ∧ i ≠ port) ∧
      ((t.params.p : Int) ≤ port → port < ((t.params.p + t.params.a - 1 : Nat) : Int) →
        out = (List.range t.params.p).map Int.ofNat ++
          (if ev.src_group = t.group_id then
            (List.range' (t.params.p + t.params.a - 1)
              (t.params.k - (t.params.p + t.params.a - 1))).map Int.ofNat
          else []) ∧
        ∀ i : Int, i ∈ out ↔ (0 ≤ i ∧ i < (t.params.p : Int)) ∨
          (ev.src_group = t.group_id ∧ ((t.params.p + t.params.a - 1 : Nat) : Int) ≤ i ∧
            i < (t.params.k : Int))) ∧
      (((t.params.p + t.params.a - 1 : Nat) : Int) ≤ port →
        out = (List.range (t.params.p + t.params.a - 1)).map Int.ofNat ∧
        ∀ i : Int, i ∈ out ↔ 0 ≤ i ∧ i < ((t.params.p + t.params.a - 1 : Nat) : Int)) ∧
      out.Nodup ∧ out.Pairwise (· < ·) ∧ port ∉ out ∧
      (((t.params.p + t.params.a - 1 : Nat) : Int) ≤ port →
        ∀ i ∈ out, i < ((t.params.p + t.params.a - 1 : Nat) : Int)) ∧
      ((t.params.p : Int) ≤ port → port < ((t.params.p + t.params.a - 1 : Nat) : Int) →
        ∀ i ∈ out, ¬ ((t.params.p : Int) ≤ i ∧ i < ((t.params.p + t.params.a - 1 : Nat) : Int))) := by
  have hu : u32 port = port.toNat := u32_of_nonneg port hp0 (by omega)
  have hsorted : ∀ n : Nat, ((List.range n).map Int.ofNat).Pairwise (· < ·) :=
    topo_singlerouter.ports_sorted
  by_cases hg : ((t.params.p + t.params.a - 1 : Nat) : Int) ≤ port
  · -- arrival on a global port
    have hg1 : u32 port ≥ t.params.p + t.params.a - 1 := by rw [hu]; omega
    have hmem := mem_map_range (t.params.p + t.params.a - 1)
    refine ⟨_, by rw [routeInitData_broadcast_global t port ev [] hb hg1 (by omega)]; rfl,
      fun h => by omega, fun h1 h2 => by omega, fun _ => ⟨rfl, hmem⟩, ?_, hsorted _, ?_, ?_, ?_⟩
    · exact nodup_map_ofNat _ (List.nodup_range _)
    · intro hc
      have := (hmem port).mp hc
      omega
    · intro _ i hi
      exact ((hmem i).mp hi).2
    · intro h1 h2
      omega
  · have hg1 : ¬ u32 port ≥ t.params.p + t.params.a - 1 := by rw [hu]; omega
    by_cases hi : (t.params.p : Int) ≤ port
    · -- arrival on an intra-group port
      have hi1 : u32 port ≥ t.params.p := by rw [hu]; omega
      have hmem : ∀ i : Int, i ∈ (List.range t.params.p).map Int.ofNat ++
          (if ev.src_group = t.group_id then
            (List.range' (t.params.p + t.params.a - 1)
              (t.params.k - (t.params.p + t.params.a - 1))).map Int.ofNat
          else []) ↔ (0 ≤ i ∧ i < (t.params.p : Int)) ∨
          (ev.src_group = t.group_id ∧ ((t.params.p + t.params.a - 1 : Nat) : Int) ≤ i ∧
            i < (t.params.k : Int)) := by
        intro i
        rw [List.mem_append, mem_map_range]
        split_ifs with hs
        · rw [mem_map_range']
          constructor
          · rintro (h | h)
            · exact Or.inl h
            · exact Or.inr ⟨hs, h.1, by omega⟩
          · rintro (h | h)
            · exact Or.inl h
            · exact Or.inr ⟨h.2.1, by omega⟩
        · simp [hs]
      refine ⟨_, by rw [routeInitData_broadcast_group t port ev [] hb hg1 hi1 hl (by omega)],
        fun h => by omega, fun _ _ => ⟨by simp, ?_⟩, fun h => absurd h hg, ?_, ?_, ?_, ?_, ?_⟩
      · intro i
        rw [← hmem i]
        simp
      · simp only [List.nil_append]
        refine List.Nodup.append (nodup_map_ofNat _ (List.nodup_range _)) ?_ ?_
        · split_ifs
          · exact nodup_map_ofNat _ (List.nodup_range' _ _)
          · exact List.nodup_nil
        · intro i h1 h2
          rw [mem_map_range] at h1
          split_ifs at h2
          · rw [mem_map_range'] at h2
            omega
          · simp at h2
      · simp only [List.nil_append]
        rw [List.pairwise_append]
        refine ⟨hsorted _, ?_, ?_⟩
        · split_ifs
          · rw [List.pairwise_map]
            exact (List.pairwise_lt_range' _ _).imp (fun h => by
              have e1 : ∀ n : Nat, Int.ofNat n = (n : Int) := fun _ => rfl
              rw [e1, e1]; omega)
          · exact List.Pairwise.nil
        · intro i h1 j h2
          rw [mem_map_range] at h1
          split_ifs at h2
          · rw [mem_map_range'] at h2
            omega
          · simp at h2
      · intro hc
        simp only [List.nil_append] at hc
        have := (hmem port).mp hc
        omega
      · intro h; exact absurd h hg
      · intro _ _ i hi2
        simp only [List.nil_append] at hi2
        have := (hmem i).mp hi2
        omega
    · -- arrival on a host port
      have hi1 : ¬ u32 port ≥ t.params.p := by rw [hu]; omega
      have hmem : ∀ i : Int, i ∈ ((List.range t.params.k).map Int.ofNat).filter
          (fun i => decide (i ≠ port)) ↔ 0 ≤ i ∧ i < (t.params.k : Int) ∧ i ≠ port := by
        intro i
        rw [List.mem_filter, mem_map_range]
        simp only [decide_eq_true_eq]
        tauto
      refine ⟨_, by rw [routeInitData_broadcast_host t port ev [] hb hg1 hi1 hk],
        fun _ => ⟨by simp, ?_⟩, fun h => absurd h hi, fun h => absurd h hg, ?_, ?_, ?_, ?_, ?_⟩
      · intro i
        rw [← hmem i]
        simp
      · simp only [List.nil_append]
        exact (nodup_map_ofNat _ (List.nodup_range _)).filter _
      · simp only [List.nil_append]
        exact (hsorted _).filter _
      · intro hc
        simp only [List.nil_append] at hc
        exact ((hmem port).mp hc).2.2 rfl
      · intro h; exact absurd h hg
      · intro h; exact absurd h hi

/-- Scenario S3, router 1 of group 0 (`p = 4`, `a = 4`, `k = 9`): a broadcast that arrives
on the intra-group port 5 from this group goes to the hosts and the two global ports. -/
theorem dragonfly_broadcast_fanout_witness :
    (S3_broadcast 0).dest.host = u32 INIT_BROADCAST_ADDR ∧
    (S3 0 1).routeInitData 5 (S3_broadcast 0) [] = some (S3_broadcast 0, [0, 1, 2, 3, 7, 8]) := by
  refine ⟨by decide, ?_⟩
  obtain ⟨out, h1, -, h2, -⟩ :=
    dragonfly_broadcast_fanout (S3 0 1) 5 (S3_broadcast 0) (by decide) (by decide) (by decide)
      (by decide) (by decide) (by decide)
  rw [h1, (h2 (by decide) (by decide)).1]
  decide


/-- C23 at a failing input.  Router 0 of group 1 (scenario S3: `p = 4`, `a = 4`, `h = 2`,
`g = 5`) handles an init-phase packet for endpoint 79 (group 4, router 3, host 3) that
arrives on host port 0.  `process_input` under minimal routing decodes the address with
`mid_group = 4`, and `route` sends the packet to port 4, the intra-group port of router 1,
which owns the link to group 4.  `process_InitData_input` leaves `mid_group` at its
initial value 0, so `routeInitData` appends port 7, the global port toward group 0.  The
members `group`, `router` and `host` agree on every input. -/
theorem dragonfly_init_route_not_minimal :
    ((S3 1 0).process_input (S3_packet 79) []).map (fun e => e.dest) =
      some { group := 4, mid_group := 4, router := 3, host := 3 } ∧
    ((S3 1 0).process_InitData_input (S3_packet 79)).dest =
      { group := 4, mid_group := 0, router := 3, host := 3 } ∧
    (((S3 1 0).process_input (S3_packet 79) []).bind
      (fun e => ((S3 1 0).route 0 0 e).map (fun x => x.next_port))) = some 4 ∧
    ((S3 1 0).routeInitData 0 ((S3 1 0).process_InitData_input (S3_packet 79)) []).map
      (fun x => x.2) = some [7] ∧
    (S3 1 0).port_for_group 4 = some 4 ∧ (S3 1 0).port_for_group 0 = some 7 ∧
    (∀ (t : topo_dragonfly_legacy) (ev : RtrEvent) (rands : List Nat)
      (ev0 : topo_dragonfly_legacy_event), t.process_input ev rands = some ev0 →
      (t.process_InitData_input ev).dest.group = ev0.dest.group ∧
      (t.process_InitData_input ev).dest.router = ev0.dest.router ∧
      (t.process_InitData_input ev).dest.host = ev0.dest.host ∧
      (t.process_InitData_input ev).src_group = ev0.src_group) := by
  refine ⟨by decide, by decide, by decide, by decide, by decide, by decide, ?_⟩
  intro t ev rands ev0 h
  obtain ⟨m, rfl, -⟩ := process_input_some t ev rands ev0 h
  exact ⟨rfl, rfl, rfl, rfl⟩


/-- C25. `port_for_router` is a bijection from the other routers of the group
`{r < a, r ≠ router_id}` onto the intra-group port range `[p, p+a-1)`, for a router of
the group (`router_id < a`, which the constructor establishes as `router_id = id mod a`):
`r < router_id` maps to port `p + r` and `r > router_id` to port `p + r - 1`, every
other router gets a port of the range, no two routers share a port, and every port of the
range is the port of some other router. -/
theorem dragonfly_port_for_router_bijection (t : topo_dragonfly_legacy)
    (hr : t.router_id < t.params.a) :
    (∀ r, r < t.router_id → t.port_for_router r = t.params.p + r) ∧
    (∀ r, t.router_id < r → t.port_for_router r = t.params.p + r - 1) ∧
    (∀ r, r < t.params.a → r ≠ t.router_id →
      t.params.p ≤ t.port_for_router r ∧ t.port_for_router r < t.params.p + t.params.a - 1) ∧
    (∀ r1 r2, r1 ≠ t.router_id → r2 ≠ t.router_id →
      t.port_for_router r1 = t.port_for_router r2 → r1 = r2) ∧
    (∀ q, t.params.p ≤ q → q < t.params.p + t.params.a - 1 →
      ∃ r, r < t.params.a ∧ r ≠ t.router_id ∧ t.port_for_router r = q ∧
        ∀ r1, r1 ≠ t.router_id → t.port_for_router r1 = q → r1 = r) ∧
    (∀ (hosts_per_router routers_per_group num_ports intergroup_per_router num_groups : Int)
      (route_algo : String) (id : Int), 1 ≤ u32 routers_per_group →
      (construct hosts_per_router routers_per_group num_ports intergroup_per_router
        num_groups route_algo id).router_id <
      (construct hosts_per_router routers_per_group num_ports intergroup_per_router
        num_groups route_algo id).params.a) := by
  have hinj : ∀ r1 r2, r1 ≠ t.router_id → r2 ≠ t.router_id →
      t.port_for_router r1 = t.port_for_router r2 → r1 = r2 := by
    intro r1 r2 h1 h2 he
    unfold port_for_router at he
    simp only at he
    split_ifs at he <;> omega
  refine ⟨?_, ?_, ?_, hinj, ?_, ?_⟩
  · intro r h
    unfold port_for_router
    simp only
    rw [if_neg (by omega)]
  · intro r h
    unfold port_for_router
    simp only
    rw [if_pos h]
  · intro r h1 h2
    unfold port_for_router
    simp only
    split_ifs <;> omega
  · intro q h1 h2
    by_cases hq : q - t.params.p < t.router_id
    · refine ⟨q - t.params.p, by omega, by omega, ?_, ?_⟩
      · unfold port_for_router
        simp only
        rw [if_neg (by omega)]
        omega
      · intro r1 hr1 he
        refine hinj r1 (q - t.params.p) hr1 (by omega) ?_
        rw [he]
        unfold port_for_router
        simp only
        rw [if_neg (by omega)]
        omega
    · refine ⟨q - t.params.p + 1, by omega, by omega, ?_, ?_⟩
      · unfold port_for_router
        simp only
        rw [if_pos (by omega)]
        omega
      · intro r1 hr1 he
        refine hinj r1 (q - t.params.p + 1) hr1 (by omega) ?_
        rw [he]
        unfold port_for_router
        simp only
        rw [if_pos (by omega)]
        omega
  · intro hpr rpg np ipr ng algo id ha
    unfold construct
    simp only
    exact Nat.mod_lt _ (by omega)

/-- Scenario S3, router 1 of group 0 (`p = 4`, `a = 4`): routers 0, 2 and 3 are reached
through ports 4, 5 and 6. -/
theorem dragonfly_port_for_router_bijection_witness :
    (S3 0 1).router_id < (S3 0 1).params.a ∧
    (S3 0 1).port_for_router 0 = 4 ∧ (S3 0 1).port_for_router 2 = 5 ∧
    (S3 0 1).port_for_router 3 = 6 ∧
    ∃ r, r < 4 ∧ r ≠ 1 ∧ (S3 0 1).port_for_router r = 5 := by
  have h := dragonfly_port_for_router_bijection (S3 0 1) (by decide)
  obtain ⟨r, h1, h2, h3, -⟩ := h.2.2.2.2.1 5 (by decide) (by decide)
  exact ⟨by decide, h.1 0 (by decide), h.2.1 2 (by decide), h.2.1 3 (by decide), r, h1, h2, h3⟩

/-- C28. `route` of the legacy dragonfly and of the single router is idempotent: a second
call with the same `port` and `vc` returns the event that the first call returned, so it
leaves `next_port` and the VC exactly as the first call set them.  The VC after the call
is `vc + 1` when the arrival port is a global port, whatever the VC of the event was, and
the VC of the event otherwise; a `reroute` that follows a `route` with the same arguments
therefore cannot bump the VC twice. -/
theorem route_idempotent (port vc : Int) :
    (∀ (t : topo_singlerouter) (ev : internal_router_event),
      t.route port vc (t.route port vc ev) = t.route port vc ev ∧
      t.reroute port vc (t.route port vc ev) = t.route port vc ev) ∧
    (∀ (t : topo_dragonfly_legacy) (ev : topo_dragonfly_legacy_event),
      ∃ ev1, t.route port vc ev = some ev1 ∧ t.route port vc ev1 = some ev1 ∧
        t.reroute port vc ev1 = some ev1 ∧
        ev1.vc = (if u32 port ≥ t.params.p + t.params.a - 1 then vc + 1 else ev.vc) ∧
        ev1.next_port = (t.documented_next_port ev.dest : Int)) := by
  constructor
  · intro t ev
    exact ⟨rfl, rfl⟩
  · intro t ev
    have h1 := route_eq_documented t port vc ev
    refine ⟨_, h1, ?_, ?_, ?_, ?_⟩
    · rw [route_eq_documented]
      split_ifs <;> rfl
    · unfold reroute
      rw [route_eq_documented]
      split_ifs <;> rfl
    · split_ifs <;> rfl
    · split_ifs <;> rfl

/-- C29. The fatal branch of `router_to_group` is unreachable from `route` and
`routeInitData`.  `router_to_group` and `port_for_group` have no result exactly for the
group of the router itself; `route` calls `port_for_group` only when `dest.group` is not
the group of the router, with `mid_group` when that is another group and with `dest.group`
otherwise, so always with a group other than its own, and the call has a result, which
becomes `next_port`; hence `route` and `routeInitData` return on every event at every
router. -/
theorem dragonfly_fatal_unreachable (t : topo_dragonfly_legacy) :
    (∀ x, t.router_to_group x = none ↔ x = t.group_id) ∧
    (∀ x, t.port_for_group x = none ↔ x = t.group_id) ∧
    (∀ (port vc : Int) (ev : topo_dragonfly_legacy_event), ev.dest.group ≠ t.group_id →
      (if ev.dest.mid_group ≠ t.group_id then ev.dest.mid_group else ev.dest.group)
        ≠ t.group_id ∧
      ∃ np, t.port_for_group
          (if ev.dest.mid_group ≠ t.group_id then ev.dest.mid_group else ev.dest.group)
          = some np ∧
        (t.route port vc ev).map (fun e => e.next_port) = some (np : Int)) ∧
    (∀ (port vc : Int) (ev : topo_dragonfly_legacy_event),
      ∃ ev1, t.route port vc ev = some ev1) ∧
    (∀ (port : Int) (ev : topo_dragonfly_legacy_event) (outPorts : List Int),
      ∃ r, t.routeInitData port ev outPorts = some r) := by
  have h1 : ∀ x, t.router_to_group x = none ↔ x = t.group_id := by
    intro x
    unfold router_to_group
    split_ifs with ha hb
    · simp; omega
    · simp; omega
    · simp; omega
  have h2 : ∀ x, t.port_for_group x = none ↔ x = t.group_id := by
    intro x
    rw [← h1 x]
    unfold port_for_group
    cases hx : t.router_to_group x with
    | none => simp
    | some r =>
      simp only
      split_ifs <;> simp
  have h3 : ∀ x, x ≠ t.group_id → ∃ np, t.port_for_group x = some np := by
    intro x hx
    cases hp : t.port_for_group x with
    | none => exact absurd ((h2 x).mp hp) hx
    | some np => exact ⟨np, rfl⟩
  refine ⟨h1, h2, ?_, fun port vc ev => ⟨_, route_eq_documented t port vc ev⟩, ?_⟩
  · intro port vc ev hg
    have hne : (if ev.dest.mid_group ≠ t.group_id then ev.dest.mid_group else ev.dest.group)
        ≠ t.group_id := by
      split_ifs with hm
      · exact hm
      · exact hg
    obtain ⟨np, hnp⟩ := h3 _ hne
    refine ⟨hne, np, hnp, ?_⟩
    have hd : (if u32 port ≥ t.params.p + t.params.a - 1 then
        ({ ev with vc := vc + 1 } : topo_dragonfly_legacy_event) else ev).dest = ev.dest := by
      split_ifs <;> rfl
    unfold route
    simp only [hd, hg, ne_eq, not_false_eq_true, if_true]
    by_cases hm : ev.dest.mid_group = t.group_id
    · rw [if_neg (fun h : ev.dest.mid_group ≠ t.group_id => h hm)] at hnp
      simp only [hm, not_true_eq_false, if_false, hnp]
      rfl
    · rw [if_pos hm] at hnp
      simp only [hm, not_false_eq_true, if_true, hnp]
      rfl
  · intro port ev outPorts
    unfold routeInitData
    rw [route_eq_documented]
    split_ifs <;> exact ⟨_, rfl⟩


/-- C30. The constructor of the legacy dragonfly selects `VALIANT` when, and only when,
the algorithm parameter is `valiant` and the number of groups `g` is at least 3; with
`g <= 2`, or with any other algorithm string, it selects `MINIMAL`.  Consequently, at a
constructed router that routes by Valiant, for every destination group some `mid_group`
in `[0, g)` differs from both the group of the router and the destination group, and the
sampling loop of `process_input` ends on the first `rand()` value that gives such a
`mid_group`: it then returns a value below `g` that differs from both groups. -/
theorem dragonfly_valiant_needs_three_groups (hosts_per_router routers_per_group num_ports
    intergroup_per_router num_groups : Int) (route_algo : String) (id : Int) :
    ((construct hosts_per_router routers_per_group num_ports intergroup_per_router
        num_groups route_algo id).params.g = u32 num_groups) ∧
    ((construct hosts_per_router routers_per_group num_ports intergroup_per_router
        num_groups route_algo id).algorithm = RouteAlgo.VALIANT ↔
      route_algo = "valiant" ∧ 3 ≤ u32 num_groups) ∧
    ((construct hosts_per_router routers_per_group num_ports intergroup_per_router
        num_groups route_algo id).algorithm = RouteAlgo.MINIMAL ↔
      route_algo ≠ "valiant" ∨ u32 num_groups ≤ 2) ∧
    ((construct hosts_per_router routers_per_group num_ports intergroup_per_router
        num_groups route_algo id).algorithm = RouteAlgo.VALIANT →
      ∀ dest_group : Nat,
        (∃ m, m < u32 num_groups ∧
          m ≠ (construct hosts_per_router routers_per_group num_ports intergroup_per_router
            num_groups route_algo id).group_id ∧ m ≠ dest_group) ∧
        ∀ rands : List Nat,
          (∃ r ∈ rands, r % u32 num_groups ≠
              (construct hosts_per_router routers_per_group num_ports intergroup_per_router
                num_groups route_algo id).group_id ∧ r % u32 num_groups ≠ dest_group) →
          ∃ m, (construct hosts_per_router routers_per_group num_ports intergroup_per_router
              num_groups route_algo id).sample_mid_group dest_group rands = some m ∧
            m < u32 num_groups ∧
            m ≠ (construct hosts_per_router routers_per_group num_ports intergroup_per_router
              num_groups route_algo id).group_id ∧ m ≠ dest_group) := by
  have hg : (construct hosts_per_router routers_per_group num_ports intergroup_per_router
      num_groups route_algo id).params.g = u32 num_groups := rfl
  have hv : (construct hosts_per_router routers_per_group num_ports intergroup_per_router
      num_groups route_algo id).algorithm = RouteAlgo.VALIANT ↔
      route_algo = "valiant" ∧ 3 ≤ u32 num_groups := by
    unfold construct
    simp only
    split_ifs with h1 h2
    · simp [h1]; omega
    · simp [h1]; omega
    · simp [h1]
  have hm : (construct hosts_per_router routers_per_group num_ports intergroup_per_router
      num_groups route_algo id).algorithm = RouteAlgo.MINIMAL ↔
      route_algo ≠ "valiant" ∨ u32 num_groups ≤ 2 := by
    unfold construct
    simp only
    split_ifs with h1 h2
    · simp [h1]; omega
    · simp [h1]; omega
    · simp [h1]
  refine ⟨hg, hv, hm, ?_⟩
  intro hval dest_group
  have h3 : 3 ≤ u32 num_groups := (hv.mp hval).2
  constructor
  · by_cases h0 : (0 : Nat) ≠ (construct hosts_per_router routers_per_group num_ports
        intergroup_per_router num_groups route_algo id).group_id ∧ 0 ≠ dest_group
    · exact ⟨0, by omega, h0.1, h0.2⟩
    · by_cases h1 : (1 : Nat) ≠ (construct hosts_per_router routers_per_group num_ports
          intergroup_per_router num_groups route_algo id).group_id ∧ 1 ≠ dest_group
      · exact ⟨1, by omega, h1.1, h1.2⟩
      · refine ⟨2, by omega, ?_, ?_⟩ <;> omega
  · intro rands hr
    rw [← hg] at hr
    obtain ⟨m, hm1⟩ := sample_mid_group_ends _ dest_group rands hr
    obtain ⟨a1, a2, r, -, a3⟩ := sample_mid_group_some _ dest_group rands m hm1
    refine ⟨m, hm1, ?_, a1, a2⟩
    rw [a3, hg]
    exact Nat.mod_lt _ (by omega)

/-- Scenario S3 built by the constructor with `valiant` and 5 groups: the router routes by
Valiant, and for destination group 4 the `rand()` values 0, 4, 7 end the loop on
`mid_group = 2`. -/
theorem dragonfly_valiant_needs_three_groups_witness :
    S3_valiant.algorithm = RouteAlgo.VALIANT ∧
    (construct 4 4 9 2 2 "valiant" 1).algorithm = RouteAlgo.MINIMAL ∧
    (construct 4 4 9 2 5 "minimal" 1).algorithm = RouteAlgo.MINIMAL ∧
    S3_valiant.sample_mid_group 4 [0, 4, 7] = some 2 ∧
    ∃ m, S3_valiant.sample_mid_group 4 [0, 4, 7] = some m ∧ m < u32 5 := by
  have h := dragonfly_valiant_needs_three_groups 4 4 9 2 5 "valiant" 1
  obtain ⟨m, h1, h2, -⟩ := (h.2.2.2 (by decide) 4).2 [0, 4, 7] ⟨7, by decide, by decide⟩
  exact ⟨by decide, by decide, by decide, by decide, m, h1, h2⟩


/-! ## HyperX: unaligned dimensions -/

namespace topo_hyperx_event

theorem getUnalignedDimensions_eq (ev : topo_hyperx_event) (curr_loc : Int → Int)
    (dims : List Int) :
    ev.getUnalignedDimensions curr_loc dims =
      dims ++ ((List.range ev.dimensions.toNat).filter
        (fun (i : Nat) => decide (ev.dest_loc (i : Int) ≠ curr_loc (i : Int)))).map Int.ofNat := by
  unfold getUnalignedDimensions
  generalize List.range ev.dimensions.toNat = l
  induction l generalizing dims with
  | nil => simp
  | cons x xs ih =>
    rw [List.foldl_cons, ih]
    by_cases hx : ev.dest_loc (x : Int) = curr_loc (x : Int)
    · simp [hx]
    · simp [hx]

theorem mem_getUnalignedDimensions (ev : topo_hyperx_event) (curr_loc : Int → Int) (i : Int) :
    i ∈ ev.getUnalignedDimensions curr_loc [] ↔
      0 ≤ i ∧ i < ev.dimensions ∧ ev.dest_loc i ≠ curr_loc i := by
  rw [getUnalignedDimensions_eq]
  simp only [List.nil_append, List.mem_map, List.mem_filter, List.mem_range,
    decide_eq_true_eq]
  constructor
  · rintro ⟨a, ⟨ha1, ha2⟩, rfl⟩
    have h1 : Int.ofNat a = (a : Int) := rfl
    rw [h1]
    exact ⟨by omega, by omega, ha2⟩
  · rintro ⟨h0, h1, h2⟩
    have h3 : ((i.toNat : Nat) : Int) = i := Int.toNat_of_nonneg h0
    refine ⟨i.toNat, ⟨by omega, by rw [h3]; exact h2⟩, ?_⟩
    exact h3

theorem sorted_getUnalignedDimensions (ev : topo_hyperx_event) (curr_loc : Int → Int) :
    (ev.getUnalignedDimensions curr_loc []).Pairwise (· < ·) := by
  rw [getUnalignedDimensions_eq, List.nil_append, List.pairwise_map]
  refine ((List.pairwise_lt_range _).filter _).imp ?_
  intro a b hab
  have e1 : ∀ n : Nat, Int.ofNat n = (n : Int) := fun _ => rfl
  rw [e1, e1]
  omega

end topo_hyperx_event

/-- C26. `getUnalignedDimensions`, called with an empty vector, returns exactly the
dimension indices `i` of `[0, dimensions)` with `dest_loc[i] != curr_loc[i]`, in strictly
increasing order (so each once); the result is empty iff the current router is the
destination router (all coordinates agree), and its first element is the lowest unaligned
dimension: every lower dimension is aligned.  Called with a non-empty vector, it appends
the same indices. -/
theorem hyperx_unaligned_dimensions (ev : topo_hyperx_event) (curr_loc : Int → Int) :
    (∀ i : Int, i ∈ ev.getUnalignedDimensions curr_loc [] ↔
      0 ≤ i ∧ i < ev.dimensions ∧ ev.dest_loc i ≠ curr_loc i) ∧
    (ev.getUnalignedDimensions curr_loc []).Pairwise (· < ·) ∧
    (ev.getUnalignedDimensions curr_loc []).Nodup ∧
    (ev.getUnalignedDimensions curr_loc [] = [] ↔
      ∀ i : Int, 0 ≤ i → i < ev.dimensions → ev.dest_loc i = curr_loc i) ∧
    (∀ d rest, ev.getUnalignedDimensions curr_loc [] = d :: rest →
      0 ≤ d ∧ d < ev.dimensions ∧ ev.dest_loc d ≠ curr_loc d ∧
      ∀ i : Int, 0 ≤ i → i < d → ev.dest_loc i = curr_loc i) ∧
    (∀ dims, ev.getUnalignedDimensions curr_loc dims =
      dims ++ ev.getUnalignedDimensions curr_loc []) ∧
    topo_hyperx_event.S4_event.getUnalignedDimensions topo_hyperx_event.S4_here [] = [1, 2] := by
  have hmem := topo_hyperx_event.mem_getUnalignedDimensions ev curr_loc
  have hs := topo_hyperx_event.sorted_getUnalignedDimensions ev curr_loc
  refine ⟨hmem, hs, ?_, ?_, ?_, ?_, by decide⟩
  · exact hs.imp (fun h e => by rw [e] at h; exact lt_irrefl _ h)
  · constructor
    · intro he i h0 h1
      by_contra hne
      have := (hmem i).mpr ⟨h0, h1, hne⟩
      rw [he] at this
      simp at this
    · intro h
      rw [List.eq_nil_iff_forall_not_mem]
      intro i hi
      obtain ⟨h0, h1, h2⟩ := (hmem i).mp hi
      exact h2 (h i h0 h1)
  · intro d rest he
    obtain ⟨h0, h1, h2⟩ := (hmem d).mp (by rw [he]; exact List.mem_cons_self _ _)
    refine ⟨h0, h1, h2, ?_⟩
    intro i hi0 hid
    by_contra hne
    have hi : i ∈ ev.getUnalignedDimensions curr_loc [] := (hmem i).mpr ⟨hi0, by omega, hne⟩
    rw [he] at hi hs
    rcases List.mem_cons.mp hi with h | h
    · omega
    · have := (List.pairwise_cons.mp hs).1 i h
      omega
  · intro dims
    rw [topo_hyperx_event.getUnalignedDimensions_eq,
      topo_hyperx_event.getUnalignedDimensions_eq ev curr_loc [], List.nil_append]

end Merlin
